import Mathlib

/-!
# Segregated free-list allocator (`src/7_malloclab/mm.c`)

A shallow embedding of the allocator and a verification of its heap invariants.

Modelling conventions
* Memory is a total map from byte addresses to byte values; a word access reads or
  writes four consecutive bytes, little-endian (the target is x86-64), and only the
  low eight bits of a cell are significant.
* Pointers are natural numbers, `NULL` is `0`.
* `size_t` arithmetic that can wrap is written with an explicit `% 2 ^ 64`; a store of
  a word keeps the low 32 bits.
* `heap_base`, `free_lists` are the two C globals; the state of the growth primitive
  (current break, number of calls so far) is carried in the same record.
-/

namespace MM

/-! ## Constants and macros -/

/-- Word and header/footer size (bytes). -/
def WSIZE : Nat := 4
/-- Double word size (bytes). -/
def DSIZE : Nat := 8
/-- Extend heap by this amount (bytes): `1 << 12`. -/
def CHUNKSIZE : Nat := 4096
/-- Minimum free block size (bytes). -/
def MIN_FREE_SIZE : Nat := 16
/-- Number of free lists. -/
def FREE_LIST_NUM : Nat := 27
/-- The null pointer. -/
def NULL : Nat := 0

/-- Byte-addressed memory. -/
abbrev Mem := Nat → Nat

/-- The macro `MAX(x, y)`. -/
def MAX (x y : Nat) : Nat := if x > y then x else y

/-- The macro `PACK(size, alloc, pred_alloc)`. -/
def PACK (size alloc pred_alloc : Nat) : Nat := size ||| alloc ||| pred_alloc

/-- The macro `GET(p)`: read the `unsigned int` stored at address `p`. -/
def GET (m : Mem) (p : Nat) : Nat :=
  m p % 256 + 256 * (m (p + 1) % 256) + 65536 * (m (p + 2) % 256)
    + 16777216 * (m (p + 3) % 256)

/-- The macro `PUT(p, val)`: store `val`, converted to `unsigned int`, at address `p`. -/
def PUT (m : Mem) (p val : Nat) : Mem := fun a =>
  if a = p then val % 256
  else if a = p + 1 then val / 256 % 256
  else if a = p + 2 then val / 65536 % 256
  else if a = p + 3 then val / 16777216 % 256
  else m a

/-- The macro `GET_SIZE(p)`; `~0x7` as an `unsigned int` is `0xFFFFFFF8`. -/
def GET_SIZE (m : Mem) (p : Nat) : Nat := GET m p &&& 0xFFFFFFF8
/-- The macro `GET_ALLOC(p)`. -/
def GET_ALLOC (m : Mem) (p : Nat) : Nat := GET m p &&& 0x1
/-- The macro `GET_PRED_ALLOC(p)`. -/
def GET_PRED_ALLOC (m : Mem) (p : Nat) : Nat := GET m p &&& 0x2
/-- The macro `SET_PRED_ALLOC(p, val)`; `~0x2` as an `unsigned int` is `0xFFFFFFFD`. -/
def SET_PRED_ALLOC (m : Mem) (p val : Nat) : Mem := PUT m p ((GET m p &&& 0xFFFFFFFD) ||| val)

/-- The macro `HDRP(bp)`. -/
def HDRP (bp : Nat) : Nat := bp - WSIZE
/-- The macro `FTRP(bp)`. -/
def FTRP (m : Mem) (bp : Nat) : Nat := bp + GET_SIZE m (HDRP bp) - DSIZE
/-- The macro `NEXT_BLKP(bp)`. -/
def NEXT_BLKP (m : Mem) (bp : Nat) : Nat := bp + GET_SIZE m (bp - WSIZE)
/-- The macro `PREV_BLKP(bp)`. -/
def PREV_BLKP (m : Mem) (bp : Nat) : Nat := bp - GET_SIZE m (bp - DSIZE)

/-- The macro `GET_PRED(p)`: the stored offset from `heap_base`, `0` meaning none. -/
def GET_PRED (m : Mem) (heap_base p : Nat) : Nat :=
  if GET m p ≠ 0 then heap_base + GET m p else NULL
/-- The macro `GET_SUCC(p)`. -/
def GET_SUCC (m : Mem) (heap_base p : Nat) : Nat :=
  if GET m (p + WSIZE) ≠ 0 then heap_base + GET m (p + WSIZE) else NULL
/-- The macro `SET_PRED(p, ptr)`. -/
def SET_PRED (m : Mem) (heap_base p ptr : Nat) : Mem :=
  PUT m p (if ptr ≠ NULL then ptr - heap_base else 0)
/-- The macro `SET_SUCC(p, ptr)`. -/
def SET_SUCC (m : Mem) (heap_base p ptr : Nat) : Mem :=
  PUT m (p + WSIZE) (if ptr ≠ NULL then ptr - heap_base else 0)

/-- Read of a `void*` (8 bytes) at address `p`. -/
def GET_PTR (m : Mem) (p : Nat) : Nat := GET m p + 4294967296 * GET m (p + 4)
/-- Store of a `void*` (8 bytes) at address `p`. -/
def PUT_PTR (m : Mem) (p val : Nat) : Mem := PUT (PUT m p val) (p + 4) (val / 4294967296)

/-- The library routine `memcpy(dst, src, n)` for non-overlapping ranges. -/
def memcpy (m : Mem) (dst src n : Nat) : Mem := fun a =>
  if dst ≤ a ∧ a < dst + n then m (src + (a - dst)) else m a

/-! ## Program state and the growth primitive -/

/-- The environment of the allocator: where the heap starts (`mem_heap_lo()`), how many
bytes it may hold at most, and whether the `k`-th call of the growth primitive is
allowed to succeed. -/
structure Env where
  lo : Nat
  max_heap : Nat
  sbrk_ok : Nat → Bool

/-- The globals `heap_base` and `free_lists`, the memory, and the state of the growth
primitive (`brk` is one past the last heap byte, `calls` counts its invocations). -/
structure State where
  heap_base : Nat
  free_lists : Nat
  mem : Mem
  brk : Nat
  calls : Nat

/-- The failure sentinel `(void*)-1` of the growth primitive. -/
def SBRK_FAIL : Nat := 2 ^ 64 - 1

/-- Modelled from the spec: the growth primitive `mem_sbrk` (its source, memlib, is not
part of the sources). "Grow current heap by N bytes", returning the address of the start
of the newly added region or the failure sentinel; failure leaves the heap as it is. -/
def mem_sbrk (env : Env) (s : State) (incr : Nat) : Nat × State :=
  if env.sbrk_ok s.calls = true ∧ s.brk + incr ≤ env.lo + env.max_heap then
    (s.brk, { s with brk := s.brk + incr, calls := s.calls + 1 })
  else
    (SBRK_FAIL, { s with calls := s.calls + 1 })

/-- Modelled from the spec: `mem_heap_lo()`, the address of the first heap byte. -/
def mem_heap_lo (env : Env) : Nat := env.lo

/-- Modelled from the spec: `mem_heap_hi()`, the address of the last heap byte. -/
def mem_heap_hi (s : State) : Nat := s.brk - 1

/-- Store a word. -/
def put (s : State) (p val : Nat) : State := { s with mem := PUT s.mem p val }

/-- Address of `free_lists[idx]`. -/
def free_list_addr (s : State) (idx : Int) : Nat := Int.toNat (↑s.free_lists + 8 * idx)
/-- Read `free_lists[idx]`. -/
def free_list_get (s : State) (idx : Int) : Nat := GET_PTR s.mem (free_list_addr s idx)
/-- Assign `free_lists[idx] = ptr`. -/
def free_list_set (s : State) (idx : Int) (ptr : Nat) : State :=
  { s with mem := PUT_PTR s.mem (free_list_addr s idx) ptr }

/-! ## The allocator -/

/-- Conversion of a `size_t` value to `int`. -/
def to_int (x : Nat) : Int :=
  if x % 2 ^ 32 < 2 ^ 31 then ((x % 2 ^ 32 : Nat) : Int) else ((x % 2 ^ 32 : Nat) : Int) - 2 ^ 32

/-- The `while` loop of `get_free_index`; the first argument bounds the number of
iterations (64 shifts clear any `size_t`). -/
def get_free_index_loop : Nat → Nat → Int → Int
  | 0, _, idx => idx
  | fuel + 1, size, idx =>
    if size > 0 then
      let size := size >>> 1
      let idx := idx + 1
      if idx ≥ (FREE_LIST_NUM : Int) - 1 then (FREE_LIST_NUM : Int) - 1
      else get_free_index_loop fuel size idx
    else idx

/-- The function `get_free_index`: index of the free list for a block size. -/
def get_free_index (size : Nat) : Int :=
  if size ≤ 127 then to_int ((size + 2 ^ 64 - MIN_FREE_SIZE) % 2 ^ 64 / DSIZE)
  else get_free_index_loop 64 size 6

/-- The function `push_first_free`: push a free block to the front of its list. -/
def push_first_free (s : State) (bp : Nat) : State :=
  if bp = NULL then s
  else
    let idx := get_free_index (GET_SIZE s.mem (HDRP bp))
    let s := { s with mem := SET_SUCC s.mem s.heap_base bp (free_list_get s idx) }
    let s := { s with mem := SET_PRED s.mem s.heap_base bp NULL }
    let s :=
      if free_list_get s idx ≠ NULL then
        { s with mem := SET_PRED s.mem s.heap_base (free_list_get s idx) bp }
      else s
    free_list_set s idx bp

/-- The function `remove_free`: unlink a free block from its list. -/
def remove_free (s : State) (bp : Nat) : State :=
  if bp = NULL ∨ GET_ALLOC s.mem (HDRP bp) ≠ 0 then s
  else
    let idx := get_free_index (GET_SIZE s.mem (HDRP bp))
    let pred_free := GET_PRED s.mem s.heap_base bp
    let succ_free := GET_SUCC s.mem s.heap_base bp
    let s :=
      if pred_free = NULL then free_list_set s idx succ_free
      else { s with mem := SET_SUCC s.mem s.heap_base pred_free succ_free }
    if succ_free ≠ NULL then
      { s with mem := SET_PRED s.mem s.heap_base succ_free pred_free }
    else s

/-- The function `coalesce`: boundary tag coalescing; returns the coalesced block. -/
def coalesce (s : State) (bp : Nat) : Nat × State :=
  let prev_alloc := GET_PRED_ALLOC s.mem (HDRP bp)
  let next_alloc := GET_ALLOC s.mem (HDRP (NEXT_BLKP s.mem bp))
  let size := GET_SIZE s.mem (HDRP bp)
  let next_bp := NEXT_BLKP s.mem bp
  let prev_bp := PREV_BLKP s.mem bp
  if prev_alloc ≠ 0 ∧ next_alloc ≠ 0 then
    (bp, push_first_free s bp)
  else if prev_alloc ≠ 0 then
    let size := size + GET_SIZE s.mem (HDRP next_bp)
    let s := remove_free s next_bp
    let s := put s (HDRP bp) (PACK size 0 2)
    let s := put s (FTRP s.mem bp) (PACK size 0 2)
    (bp, push_first_free s bp)
  else if next_alloc ≠ 0 then
    let size := size + GET_SIZE s.mem (FTRP s.mem prev_bp)
    let s := remove_free s prev_bp
    let s := put s (HDRP prev_bp) (PACK size 0 (GET_PRED_ALLOC s.mem (HDRP prev_bp)))
    let s := put s (FTRP s.mem prev_bp) (PACK size 0 (GET_PRED_ALLOC s.mem (HDRP prev_bp)))
    (prev_bp, push_first_free s prev_bp)
  else
    let size := size + GET_SIZE s.mem (HDRP prev_bp) + GET_SIZE s.mem (HDRP next_bp)
    let s := remove_free s prev_bp
    let s := remove_free s next_bp
    let s := put s (HDRP prev_bp) (PACK size 0 (GET_PRED_ALLOC s.mem (HDRP prev_bp)))
    let s := put s (FTRP s.mem prev_bp) (PACK size 0 (GET_PRED_ALLOC s.mem (HDRP prev_bp)))
    (prev_bp, push_first_free s prev_bp)

/-- The function `extend_heap`: extend the heap with a free block of `words` words
(rounded up to an even number) and return its block pointer, `NULL` on failure. -/
def extend_heap (env : Env) (s : State) (words : Nat) : Nat × State :=
  let size := if words % 2 ≠ 0 then (words + 1) * WSIZE % 2 ^ 64 else words * WSIZE % 2 ^ 64
  let r := mem_sbrk env s size
  let bp := r.1
  let s := r.2
  if bp = SBRK_FAIL then (NULL, s)
  else
    let pred_alloc := GET_PRED_ALLOC s.mem (HDRP bp)
    let s := put s (HDRP bp) (PACK size 0 pred_alloc)
    let s := put s (FTRP s.mem bp) (PACK size 0 pred_alloc)
    let s := put s (HDRP (NEXT_BLKP s.mem bp)) (PACK 0 1 0)
    coalesce s bp

/-- The loop of `mm_init` that clears `free_lists[0 .. n-1]`. -/
def clear_free_lists (s : State) : Nat → State
  | 0 => s
  | n + 1 => free_list_set (clear_free_lists s n) (n : Int) NULL

/-- The function `mm_init`. The result of the first growth call is used unchecked, so
when that call fails the behaviour is undefined (`none`). Otherwise the returned
integer is `0` on success and `-1` when the initial extension fails. -/
def mm_init (env : Env) (s : State) : Option (Int × State) :=
  let r := mem_sbrk env s ((FREE_LIST_NUM + 1) * DSIZE)
  if r.1 = SBRK_FAIL then none
  else
    let s := { r.2 with heap_base := r.1, free_lists := r.1 }
    let s := clear_free_lists s FREE_LIST_NUM
    let first_bp := s.free_lists + DSIZE * (FREE_LIST_NUM + 1)
    let s := put s (HDRP first_bp) (PACK 0 1 2)
    let r := extend_heap env s (CHUNKSIZE / WSIZE)
    if r.1 = NULL then some (-1, r.2) else some (0, r.2)

/-- The inner loop of `find_fit` for a first-fit class, started at `bp`. The first
argument bounds the number of nodes visited; `none` means the bound was exceeded,
`some NULL` that the chain ended without a fit. -/
def first_fit_scan (s : State) (asize : Nat) : Nat → Nat → Option Nat
  | 0, _ => none
  | fuel + 1, bp =>
    if bp ≠ NULL then
      if GET_SIZE s.mem (HDRP bp) ≥ asize then some bp
      else first_fit_scan s asize fuel (GET_SUCC s.mem s.heap_base bp)
    else some NULL

/-- The inner loop of `find_fit` for a best-fit class, started at `bp` with the current
`min_bp` and `min_size`; returns their final values, `none` when the bound on the number
of nodes visited was exceeded. -/
def best_fit_scan (s : State) (asize : Nat) : Nat → Nat → Nat → Nat → Option (Nat × Nat)
  | 0, _, _, _ => none
  | fuel + 1, bp, min_bp, min_size =>
    if bp ≠ NULL then
      if GET_SIZE s.mem (HDRP bp) ≥ asize ∧ GET_SIZE s.mem (HDRP bp) < min_size then
        best_fit_scan s asize fuel (GET_SUCC s.mem s.heap_base bp) bp (GET_SIZE s.mem (HDRP bp))
      else
        best_fit_scan s asize fuel (GET_SUCC s.mem s.heap_base bp) min_bp min_size
    else some (min_bp, min_size)

/-- The outer loop of `find_fit`, with `n` classes left to visit starting at `idx`. -/
def find_fit_loop (s : State) (asize fuel : Nat) : Nat → Int → Nat → Nat → Option Nat
  | 0, _, _, _ => some NULL
  | n + 1, idx, min_bp, min_size =>
    if idx < 13 then
      match first_fit_scan s asize fuel (free_list_get s idx) with
      | none => none
      | some bp =>
        if bp ≠ NULL then some bp
        else find_fit_loop s asize fuel n (idx + 1) min_bp min_size
    else
      match best_fit_scan s asize fuel (free_list_get s idx) min_bp min_size with
      | none => none
      | some r =>
        if r.1 ≠ NULL then some r.1
        else find_fit_loop s asize fuel n (idx + 1) r.1 r.2

/-- The function `find_fit`: find a fit for a block with `asize` bytes. Chains are
followed for at most as many nodes as the heap has bytes; `none` means that bound was
exceeded (the C loop would not have terminated on a well-formed chain of that length). -/
def find_fit (s : State) (asize : Nat) : Option Nat :=
  let idx := get_free_index asize
  find_fit_loop s asize (s.brk - s.heap_base) (Int.toNat ((FREE_LIST_NUM : Int) - idx)) idx NULL
    0xffffffff

/-- The function `place`: place a block of `asize` bytes at the start of free block `bp`
and split if the remainder would be at least the minimum block size. -/
def place (s : State) (bp asize : Nat) : State :=
  let csize := GET_SIZE s.mem (HDRP bp)
  let s := remove_free s bp
  if (csize + 2 ^ 64 - asize) % 2 ^ 64 ≥ MIN_FREE_SIZE then
    let s := put s (HDRP bp) (PACK asize 1 (GET_PRED_ALLOC s.mem (HDRP bp)))
    let new_bp := NEXT_BLKP s.mem bp
    let s := put s (HDRP new_bp) (PACK ((csize + 2 ^ 64 - asize) % 2 ^ 64) 0 2)
    let s := put s (FTRP s.mem new_bp) (PACK ((csize + 2 ^ 64 - asize) % 2 ^ 64) 0 2)
    push_first_free s new_bp
  else
    let s := put s (HDRP bp) (PACK csize 1 (GET_PRED_ALLOC s.mem (HDRP bp)))
    { s with mem := SET_PRED_ALLOC s.mem (HDRP (NEXT_BLKP s.mem bp)) 2 }

/-- The adjusted block size computed by `malloc` for a request of `size` bytes. -/
def adjusted_size (size : Nat) : Nat :=
  if size ≤ MIN_FREE_SIZE - WSIZE then MIN_FREE_SIZE
  else DSIZE * ((size + WSIZE + (DSIZE - 1)) % 2 ^ 64 / DSIZE)

/-- The function `malloc`. `none` stands for undefined behaviour or a chain walk that
exceeded its bound; otherwise the returned pointer (`NULL` on failure) and the new state. -/
def malloc (env : Env) (s : State) (size : Nat) : Option (Nat × State) :=
  match (if s.heap_base = NULL then (mm_init env s).map Prod.snd else some s) with
  | none => none
  | some s =>
    if size = 0 then some (NULL, s)
    else
      let asize := adjusted_size size
      match find_fit s asize with
      | none => none
      | some bp =>
        if bp ≠ NULL then some (bp, place s bp asize)
        else
          let extendsize := MAX asize CHUNKSIZE
          let r := extend_heap env s (extendsize / WSIZE)
          if r.1 = NULL then some (NULL, r.2)
          else some (r.1, place r.2 r.1 asize)

/-- The function `free`. -/
def free (s : State) (bp : Nat) : State :=
  if bp = 0 then s
  else
    let pred_alloc := GET_PRED_ALLOC s.mem (HDRP bp)
    let size := GET_SIZE s.mem (HDRP bp)
    let s := put s (HDRP bp) (PACK size 0 pred_alloc)
    let s := put s (FTRP s.mem bp) (PACK size 0 pred_alloc)
    let s := { s with mem := SET_PRED_ALLOC s.mem (HDRP (NEXT_BLKP s.mem bp)) 0 }
    (coalesce s bp).2

/-- The function `realloc`. -/
def realloc (env : Env) (s : State) (ptr size : Nat) : Option (Nat × State) :=
  if size = 0 then some (0, free s ptr)
  else if ptr = NULL then malloc env s size
  else
    match malloc env s size with
    | none => none
    | some r =>
      if r.1 = 0 then some (0, r.2)
      else
        let oldsize := GET_SIZE r.2.mem (HDRP ptr)
        let oldsize := if size < oldsize then size else oldsize
        let s := { r.2 with mem := memcpy r.2.mem r.1 ptr oldsize }
        some (r.1, free s ptr)

/-! ## Abstract view of the heap -/

/-- Abstract view of a block: its size and whether it is allocated. -/
abbrev Blk := Nat × Bool

/-- The header word of a block of size `sz` with the given allocated and
predecessor-allocated flags. -/
def hdr (sz : Nat) (al pa : Bool) : Nat :=
  sz + (if al then 1 else 0) + (if pa then 2 else 0)

/-- Total size of a run of blocks. -/
def tot : List Blk → Nat
  | [] => 0
  | b :: r => b.1 + tot r

/-- Allocated flag of the last block of a run (`pa` for an empty run). -/
def outAlloc (pa : Bool) : List Blk → Bool
  | [] => pa
  | b :: r => outAlloc b.2 r

/-- Block pointers, sizes and flags of a run of blocks whose first block pointer is `p`. -/
def layout (p : Nat) : List Blk → List (Nat × Nat × Bool)
  | [] => []
  | b :: r => (p, b.1, b.2) :: layout (p + b.1) r

/-- Memory `m` holds the run of blocks `bs` starting at block pointer `p`, the block
before the run being allocated iff `pa`: sizes are legal, every header is right, and
every free block has a footer that repeats its size and allocated bit and, unless the
block is listed in `W`, its predecessor-allocated bit too (so footer and header are the
same word). -/
def Seg (m : Mem) (W : Nat → Prop) : Nat → Bool → List Blk → Prop
  | _, _, [] => True
  | p, pa, b :: r =>
    16 ≤ b.1 ∧ b.1 % 8 = 0 ∧ GET m (p - 4) = hdr b.1 b.2 pa ∧
      (b.2 = false → ∃ pa', GET m (p + b.1 - 8) = hdr b.1 false pa' ∧ (¬ W p → pa' = pa)) ∧
      Seg m W (p + b.1) b.2 r

/-- No two neighbours of the run are both free (`pa`: the block before the run is
allocated). -/
def NoAdj : Bool → List Blk → Prop
  | _, [] => True
  | pa, b :: r => (pa = true ∨ b.2 = true) ∧ NoAdj b.2 r

/-- The doubly linked chain starting at `cur`, whose predecessor link should be `prev`,
visits exactly the nodes `l` and ends with `NULL`. -/
def Chain (m : Mem) (hb : Nat) : Nat → Nat → List Nat → Prop
  | _, cur, [] => cur = NULL
  | prev, cur, x :: r =>
    cur = x ∧ x ≠ NULL ∧ GET_PRED m hb x = prev ∧ Chain m hb x (GET_SUCC m hb x) r

/-- The 27 chains of the table at `hb` are well formed and chain `i` holds exactly the
blocks `x` with `F x sz` for a size `sz` of class `i`. -/
def Lists (m : Mem) (hb : Nat) (F : Nat → Nat → Prop) : Prop :=
  ∀ i : Nat, i < 27 → ∃ l : List Nat,
    Chain m hb NULL (GET_PTR m (hb + 8 * i)) l ∧ l.Nodup ∧
      ∀ x, x ∈ l ↔ ∃ sz, F x sz ∧ get_free_index sz = (i : Int)

/-- The free blocks of a run, as a relation between block pointer and size. -/
def FreeIn (p : Nat) (bs : List Blk) : Nat → Nat → Prop :=
  fun x sz => (x, sz, false) ∈ layout p bs

/-- Geometry of a set of chained blocks: they lie in the block area, are at least 16
bytes long, have one size each and do not overlap. -/
structure FWf (hb : Nat) (F : Nat → Nat → Prop) : Prop where
  range : ∀ x sz, F x sz → hb + 224 ≤ x ∧ x + sz ≤ hb + 4294967296 ∧ 16 ≤ sz
  func : ∀ x s1 s2, F x s1 → F x s2 → s1 = s2
  sep : ∀ x sx y sy, F x sx → F y sy → x = y ∨ x + sx ≤ y ∨ y + sy ≤ x

/-- Assumptions on the environment: the heap does not start at address 0, holds at most
`2 ^ 32` bytes (block sizes and link offsets are 32-bit words) and fits the address
space. -/
def Env.ok (env : Env) : Prop :=
  0 < env.lo ∧ env.max_heap ≤ 4294967296 ∧ env.lo + 4294967296 ≤ 2 ^ 64

/-- A run of blocks without a trailing free block, and the size of that block (0 if the
run does not end with a free block). -/
def splitLast (L : List Blk) : List Blk × Nat :=
  match L.getLast? with
  | some (lsz, false) => (L.dropLast, lsz)
  | _ => (L, 0)

/-- The size of a leading free block of a run (0 if there is none), and the rest. -/
def splitHead (R : List Blk) : Nat × List Blk :=
  match R with
  | (rsz, false) :: R2 => (rsz, R2)
  | _ => (0, R)

/-- The run of blocks that results from coalescing a free block of size `sz` lying
between the runs `L` and `R` with its free neighbours. -/
def coalesced (L : List Blk) (sz : Nat) (R : List Blk) : List Blk :=
  (splitLast L).1 ++ ((splitLast L).2 + sz + (splitHead R).1, false) :: (splitHead R).2

/-- The run of blocks after placing `asize` bytes in the free block of size `c` lying
between the runs `L` and `R`. -/
def placed (L : List Blk) (c : Nat) (R : List Blk) (asize : Nat) : List Blk :=
  if c - asize ≥ 16 then L ++ (asize, true) :: (c - asize, false) :: R
  else L ++ (c, true) :: R

/-- The number of bytes by which `extend_heap words` grows the heap. -/
def ext_size (words : Nat) : Nat := if words % 2 ≠ 0 then (words + 1) * 4 else words * 4

/-- The header word that follows a block with allocated flag `al` when the run after
it is `R` (the epilogue header if `R` is empty). -/
def nextHdr (al : Bool) (R : List Blk) : Nat :=
  match R with
  | [] => hdr 0 true al
  | b :: _ => hdr b.1 b.2 al

/-- The second state has the same globals and growth-primitive state as the first. -/
def SameFields (s s' : State) : Prop :=
  s'.heap_base = s.heap_base ∧ s'.free_lists = s.free_lists ∧ s'.brk = s.brk ∧
    s'.calls = s.calls

/-- The empty set of block pointers. -/
def none_of : Nat → Prop := fun _ => False

/-- The state of the heap in the middle of an operation, relative to the abstract run of
blocks `bs`: the blocks tile the heap up to the epilogue, and the chains hold exactly the
free blocks that are not listed in `U`; the footers of the blocks in `W` may carry a stale
predecessor-allocated bit. -/
structure Heap (env : Env) (s : State) (bs : List Blk) (U W : Nat → Prop) : Prop where
  hb : s.heap_base = env.lo
  fl : s.free_lists = env.lo
  brk : s.brk = env.lo + 224 + tot bs
  le : s.brk ≤ env.lo + env.max_heap
  seg : Seg s.mem W (env.lo + 224) true bs
  epi : GET s.mem (s.brk - 4) = hdr 0 true (outAlloc true bs)
  lists : Lists s.mem env.lo (fun x sz => FreeIn (env.lo + 224) bs x sz ∧ ¬ U x)

/-- The heap invariant between operations, relative to the abstract run of blocks `bs`. -/
def HeapInv (env : Env) (s : State) (bs : List Blk) : Prop :=
  Heap env s bs none_of none_of ∧ NoAdj true bs

/-! ## Runs of the allocator and observations on the concrete heap -/

/-- Ghost record of the live allocations: returned pointer and requested size. -/
abbrev Live := List (Nat × Nat)

/-- A store by the client of the byte `v` at address `a`. -/
def store_byte (s : State) (a v : Nat) : State :=
  { s with mem := fun x => if x = a then v else s.mem x }

/-- The live allocations after `realloc(ptr, size)` returned `q`. -/
def realloc_live (live : Live) (ptr size q : Nat) : Live :=
  if size = 0 then live.filter (fun e => decide (e.1 ≠ ptr))
  else if ptr = NULL then (if q = NULL then live else (q, size) :: live)
  else if q = NULL then live
  else (q, size) :: live.filter (fun e => decide (e.1 ≠ ptr))

/-- The states reachable from `mm_init` (run on a heap that is still empty) by calls of
`malloc`, `free` and `realloc` whose request sizes satisfy `P`, with `free` and `realloc`
applied to null or to live pointers only, and by stores of the client into the requested
bytes of live allocations. The second index is the ghost record of live allocations.
Whether a call of the growth primitive succeeds is decided by the environment. -/
inductive Reach (env : Env) (P : Nat → Prop) : State → Live → Prop
  | init (s0 s1 : State) (r : Int) : s0.heap_base = NULL → s0.brk = env.lo →
      mm_init env s0 = some (r, s1) → Reach env P s1 []
  | malloc (s s' : State) (live : Live) (size p : Nat) : Reach env P s live → P size →
      malloc env s size = some (p, s') →
      Reach env P s' (if p = NULL then live else (p, size) :: live)
  | free (s : State) (live : Live) (p : Nat) : Reach env P s live →
      (p = NULL ∨ p ∈ live.map Prod.fst) →
      Reach env P (free s p) (live.filter (fun e => decide (e.1 ≠ p)))
  | realloc (s s' : State) (live : Live) (ptr size q : Nat) : Reach env P s live →
      (ptr = NULL ∨ ptr ∈ live.map Prod.fst) → P size →
      realloc env s ptr size = some (q, s') → Reach env P s' (realloc_live live ptr size q)
  | store (s : State) (live : Live) (p n i v : Nat) : Reach env P s live → (p, n) ∈ live →
      i < n → Reach env P (store_byte s (p + i) v) live

/-- Request sizes whose adjustment does not wrap around in `size_t`. -/
def any_size (n : Nat) : Prop := n + 11 < 2 ^ 64

/-- Request sizes between 1 and `CHUNKSIZE`. -/
def chunk_sizes (n : Nat) : Prop := 1 ≤ n ∧ n ≤ CHUNKSIZE

/-- The live allocations lie in distinct allocated blocks that are large enough. -/
def LiveOK (env : Env) (bs : List Blk) (live : Live) : Prop :=
  (live.map Prod.fst).Nodup ∧
    ∀ p n, (p, n) ∈ live → ∃ sz, (p, sz, true) ∈ layout (env.lo + 224) bs ∧ n + 4 ≤ sz

/-- The block pointer at which the heap walk of `mm_checkheap` starts. -/
def first_bp (s : State) : Nat := s.free_lists + DSIZE * (FREE_LIST_NUM + 1)

/-- The heap walk of `mm_checkheap`: the block pointers visited from `ptr`, each next one
being `NEXT_BLKP` of the previous, up to the first header with size 0 and the allocated
bit set. The first argument bounds the number of blocks visited. -/
def heap_walk (m : Mem) : Nat → Nat → List Nat
  | 0, _ => []
  | fuel + 1, ptr =>
    if GET_SIZE m (HDRP ptr) = 0 ∧ GET_ALLOC m (HDRP ptr) = 1 then []
    else ptr :: heap_walk m fuel (NEXT_BLKP m ptr)

/-- The block pointer at which the heap walk stops (the epilogue), `none` if it does not
stop within the bound. -/
def heap_walk_end (m : Mem) : Nat → Nat → Option Nat
  | 0, _ => none
  | fuel + 1, ptr =>
    if GET_SIZE m (HDRP ptr) = 0 ∧ GET_ALLOC m (HDRP ptr) = 1 then some ptr
    else heap_walk_end m fuel (NEXT_BLKP m ptr)

/-- The blocks of the heap, in address order. -/
def blocks (s : State) : List Nat := heap_walk s.mem (s.brk - s.heap_base) (first_bp s)

/-- The nodes visited from `p` along successor links, up to `NULL`. The first argument
bounds the number of nodes visited. -/
def chain_walk (m : Mem) (hb : Nat) : Nat → Nat → List Nat
  | 0, _ => []
  | fuel + 1, p => if p = NULL then [] else p :: chain_walk m hb fuel (GET_SUCC m hb p)

/-- Whether the successor links from `p` reach `NULL` within the bound. -/
def chain_ends (m : Mem) (hb : Nat) : Nat → Nat → Bool
  | 0, _ => false
  | fuel + 1, p => if p = NULL then true else chain_ends m hb fuel (GET_SUCC m hb p)

/-- The members of free list `i`, in chain order. -/
def chain (s : State) (i : Nat) : List Nat :=
  chain_walk s.mem s.heap_base (s.brk - s.heap_base) (free_list_get s (i : Int))

/-! ## Payload bytes -/

/-- Byte `a` lies in the payload of an allocated block of the run `bs` (the bytes of the
block after its header). -/
def Prot (env : Env) (bs : List Blk) (a : Nat) : Prop :=
  ∃ q sq, (q, sq, true) ∈ layout (env.lo + 224) bs ∧ q ≤ a ∧ a + 4 < q + sq

/-- The second state holds the same values as the first at every address in `P`. -/
def Kept (P : Nat → Prop) (s s' : State) : Prop := ∀ a, P a → s'.mem a = s.mem a

/-- No two blocks that are neighbours in the heap walk are both free. -/
def no_adjacent_free (s : State) : Prop :=
  (blocks s).Chain'
    (fun a b => ¬ (GET_ALLOC s.mem (HDRP a) = 0 ∧ GET_ALLOC s.mem (HDRP b) = 0))

/-! ## A concrete run -/

/-- A concrete environment: the heap starts at address 8, may hold `2 ^ 32` bytes, and
the growth primitive never refuses. -/
def env0 : Env := ⟨8, 4294967296, fun _ => true⟩

/-- The state before `mm_init`: both globals null, zeroed memory, an empty heap. -/
def state0 : State := ⟨NULL, NULL, fun _ => 0, 8, 0⟩

/-- The result of `mm_init` on `state0`. -/
def init0 : Int × State := (mm_init env0 state0).getD (0, state0)

/-- The result of `malloc(100)` on the freshly initialised heap. -/
def malloc0 : Nat × State := (malloc env0 init0.2 100).getD (NULL, init0.2)

/-- The result of a second `malloc(100)`. -/
def malloc1 : Nat × State := (malloc env0 malloc0.2 100).getD (NULL, malloc0.2)

/-! ## The heap validator -/

/-- The first loop of `mm_checkheap`, at block pointer `ptr` with the current value of
`prev_ptr` (which the loop never assigns). The result is `some true` when the loop reaches
the epilogue without a report, `some false` when a violation is reported (the program
exits), `none` when more blocks are visited than the first argument allows. -/
def checkheap_blocks (env : Env) (s : State) : Nat → Nat → Nat → Option Bool
  | 0, _, _ => none
  | fuel + 1, ptr, prev_ptr =>
    if GET_SIZE s.mem (HDRP ptr) = 0 ∧ GET_ALLOC s.mem (HDRP ptr) = 1 then
      if (ptr + 2 ^ 64 - 1) % 2 ^ 64 ≠ mem_heap_hi s then some false else some true
    else if ptr % 8 ≠ 0 then some false
    else if ptr < mem_heap_lo env ∨ ptr > mem_heap_hi s then some false
    else if GET s.mem (HDRP ptr) ≠ GET s.mem (FTRP s.mem ptr) ∧
        GET_ALLOC s.mem (HDRP ptr) = 0 then some false
    else if GET_SIZE s.mem (HDRP ptr) < MIN_FREE_SIZE then some false
    else if prev_ptr ≠ NULL ∧ GET_PRED_ALLOC s.mem (HDRP ptr) ≠
        (GET_ALLOC s.mem (FTRP s.mem prev_ptr) <<< 1) % 2 ^ 32 then some false
    else if prev_ptr ≠ NULL ∧ GET_ALLOC s.mem (HDRP ptr) = 0 ∧
        GET_ALLOC s.mem (HDRP prev_ptr) = 0 then some false
    else checkheap_blocks env s fuel (NEXT_BLKP s.mem ptr) prev_ptr

/-- The inner loop of the second part of `mm_checkheap`, for chain `i`, at node `ptr` with
previous node `prev_ptr`. -/
def checkheap_chain (env : Env) (s : State) (i : Int) : Nat → Nat → Nat → Option Bool
  | 0, _, _ => none
  | fuel + 1, ptr, prev_ptr =>
    if ptr ≠ NULL then
      if prev_ptr ≠ NULL ∧ prev_ptr ≠ GET_PRED s.mem s.heap_base ptr then some false
      else if ptr < mem_heap_lo env ∨ ptr > mem_heap_hi s then some false
      else if i ≠ get_free_index (GET_SIZE s.mem (HDRP ptr)) then some false
      else checkheap_chain env s i fuel (GET_SUCC s.mem s.heap_base ptr) ptr
    else some true

/-- The `for` loop of `mm_checkheap` over the chains `i, i + 1, ...`, `n` of them. -/
def checkheap_lists (env : Env) (s : State) (fuel : Nat) : Nat → Int → Option Bool
  | 0, _ => some true
  | n + 1, i =>
    match checkheap_chain env s i fuel (free_list_get s i) NULL with
    | none => none
    | some false => some false
    | some true => checkheap_lists env s fuel n (i + 1)

/-- The function `mm_checkheap`. Loops visit at most as many blocks or nodes as the heap has
bytes. -/
def mm_checkheap (env : Env) (s : State) (_lineno : Int) : Option Bool :=
  if s.heap_base ≠ mem_heap_lo env then some false
  else
    match checkheap_blocks env s (s.brk - s.heap_base)
        (s.free_lists + DSIZE * (FREE_LIST_NUM + 1)) NULL with
    | none => none
    | some false => some false
    | some true => checkheap_lists env s (s.brk - s.heap_base) FREE_LIST_NUM 0

/-- The state after the client has stored the byte 42 at offset 7 of the block returned by
the first `malloc(100)`. -/
def stored0 : State := store_byte malloc0.2 (malloc0.1 + 7) 42

/-- The result of `realloc(p, 200)` for that block `p`. -/
def realloc0 : Nat × State := (realloc env0 stored0 malloc0.1 200).getD (NULL, stored0)

/-- The memory of a heap of 256 bytes that starts at address 8: the table of chain heads
(head of chain 0 at address 8 pointing to 232), a free block of 16 bytes at block pointer
232 (header at 228 and footer at 240 both `16 | 2`, successor link at 236 holding the
offset 240 of the next node) followed by a second free block of 16 bytes at block pointer
248 (header at 244 and footer at 256 both `16`, predecessor link at 248 holding the offset
224 of the first node), and the epilogue header `1` at 260. -/
def adj_mem : Mem := fun a =>
  if a = 8 then 232
  else if a = 228 then 18
  else if a = 236 then 240
  else if a = 240 then 18
  else if a = 244 then 16
  else if a = 248 then 224
  else if a = 256 then 16
  else if a = 260 then 1
  else 0

/-- A heap state with two physically adjacent free blocks, both members of chain 0. -/
def adj_state : State := ⟨8, 8, adj_mem, 264, 0⟩

/-- The memory of a heap of 256 bytes that starts at address 8: all chains empty, an
allocated block of 16 bytes at block pointer 232 (header `16 | 1 | 2` at 228), an allocated
block of 16 bytes at block pointer 248 whose header at 244 is `16 | 1`, with the
predecessor-allocated bit clear although the block before it is allocated, and the
epilogue header `1 | 2` at 260. -/
def predbit_mem : Mem := fun a =>
  if a = 228 then 19
  else if a = 244 then 17
  else if a = 260 then 3
  else 0

/-- A heap state in which a block has a wrong predecessor-allocated bit. -/
def predbit_state : State := ⟨8, 8, predbit_mem, 264, 0⟩

/-! ## Calls that leave one allocation alone -/

theorem GET_lt (m : Mem) (p : Nat) : GET m p < 4294967296 := by
  unfold GET; omega

theorem GET_PUT_same (m : Mem) (p v : Nat) : GET (PUT m p v) p = v % 4294967296 := by
  unfold GET PUT
  simp
  omega

theorem PUT_other_byte (m : Mem) (p v a : Nat) (h : a < p ∨ p + 4 ≤ a) : PUT m p v a = m a := by
  unfold PUT
  have h1 : a ≠ p := by omega
  have h2 : a ≠ p + 1 := by omega
  have h3 : a ≠ p + 2 := by omega
  have h4 : a ≠ p + 3 := by omega
  simp [h1, h2, h3, h4]

theorem GET_congr (m m' : Mem) (p : Nat) (h : ∀ a, p ≤ a → a < p + 4 → m' a = m a) :
    GET m' p = GET m p := by
  unfold GET
  rw [h p (by omega) (by omega), h (p + 1) (by omega) (by omega),
    h (p + 2) (by omega) (by omega), h (p + 3) (by omega) (by omega)]

theorem GET_PUT_other (m : Mem) (p q v : Nat) (h : p + 4 ≤ q ∨ q + 4 ≤ p) :
    GET (PUT m p v) q = GET m q := by
  apply GET_congr
  intro a h1 h2
  apply PUT_other_byte
  omega

theorem GET_PTR_lt (m : Mem) (p : Nat) : GET_PTR m p < 2 ^ 64 := by
  unfold GET_PTR
  have h1 := GET_lt m p
  have h2 := GET_lt m (p + 4)
  omega

theorem GET_PTR_PUT_PTR_same (m : Mem) (p v : Nat) (hv : v < 2 ^ 64) :
    GET_PTR (PUT_PTR m p v) p = v := by
  unfold GET_PTR PUT_PTR
  rw [GET_PUT_same, GET_PUT_other _ _ _ _ (by omega), GET_PUT_same]
  omega

theorem PUT_PTR_other_byte (m : Mem) (p v a : Nat) (h : a < p ∨ p + 8 ≤ a) :
    PUT_PTR m p v a = m a := by
  unfold PUT_PTR
  rw [PUT_other_byte _ _ _ _ (by omega), PUT_other_byte _ _ _ _ (by omega)]

theorem GET_PTR_congr (m m' : Mem) (p : Nat) (h : ∀ a, p ≤ a → a < p + 8 → m' a = m a) :
    GET_PTR m' p = GET_PTR m p := by
  unfold GET_PTR
  rw [GET_congr m m' p (fun a h1 h2 => h a h1 (by omega)),
    GET_congr m m' (p + 4) (fun a h1 h2 => h a (by omega) (by omega))]

theorem GET_PTR_PUT_PTR_other (m : Mem) (p q v : Nat) (h : p + 8 ≤ q ∨ q + 8 ≤ p) :
    GET_PTR (PUT_PTR m p v) q = GET_PTR m q := by
  apply GET_PTR_congr
  intro a h1 h2
  apply PUT_PTR_other_byte
  omega

/-! ## Bit masks as arithmetic -/

theorem and_split (k a b c d : Nat) (hb : b < 2 ^ k) (hd : d < 2 ^ k) :
    (2 ^ k * a + b) &&& (2 ^ k * c + d) = 2 ^ k * (a &&& c) + (b &&& d) := by
  apply Nat.eq_of_testBit_eq
  intro j
  have hbd : b &&& d < 2 ^ k := Nat.and_lt_two_pow b hd
  rw [Nat.testBit_and, Nat.testBit_mul_pow_two_add a hb, Nat.testBit_mul_pow_two_add c hd,
    Nat.testBit_mul_pow_two_add _ hbd]
  by_cases h : j < k <;> simp [h]

theorem or_split (k a b c d : Nat) (hb : b < 2 ^ k) (hd : d < 2 ^ k) :
    (2 ^ k * a + b) ||| (2 ^ k * c + d) = 2 ^ k * (a ||| c) + (b ||| d) := by
  apply Nat.eq_of_testBit_eq
  intro j
  have hbd : b ||| d < 2 ^ k := Nat.or_lt_two_pow hb hd
  rw [Nat.testBit_or, Nat.testBit_mul_pow_two_add a hb, Nat.testBit_mul_pow_two_add c hd,
    Nat.testBit_mul_pow_two_add _ hbd]
  by_cases h : j < k <;> simp [h]

theorem and_size_mask (w : Nat) (h : w < 4294967296) : w &&& 0xFFFFFFF8 = w - w % 8 := by
  have e := and_split 3 (w / 8) (w % 8) (2 ^ 29 - 1) 0 (by omega) (by norm_num)
  rw [Nat.and_pow_two_sub_one_eq_mod] at e
  norm_num at e
  have e1 : 8 * (w / 8) + w % 8 = w := by omega
  rw [e1] at e
  rw [e]
  omega

theorem and_alloc_mask (w : Nat) : w &&& 1 = w % 2 := Nat.and_one_is_mod w

theorem and_pa_mask (w : Nat) : w &&& 2 = w % 4 - w % 2 := by
  have e := and_split 1 (w / 2) (w % 2) 1 0 (by omega) (by norm_num)
  norm_num at e
  have e1 : 2 * (w / 2) + w % 2 = w := by omega
  rw [e1] at e
  rw [e]
  omega

theorem and_npa_mask (w : Nat) (h : w < 4294967296) :
    w &&& 0xFFFFFFFD = w - (w % 4 - w % 2) := by
  have e := and_split 2 (w / 4) (w % 4) (2 ^ 30 - 1) 1 (by omega) (by norm_num)
  rw [Nat.and_pow_two_sub_one_eq_mod] at e
  norm_num at e
  have e1 : 4 * (w / 4) + w % 4 = w := by omega
  rw [e1] at e
  rw [e]
  omega

theorem or_flag (x v : Nat) (hx : x % 4 < 2) (hv : v = 0 ∨ v = 2) : x ||| v = x + v := by
  have e := or_split 2 (x / 4) (x % 4) 0 v (by omega) (by rcases hv with rfl | rfl <;> norm_num)
  norm_num at e
  have e1 : 4 * (x / 4) + x % 4 = x := by omega
  rw [e1] at e
  rw [e]
  have : x % 4 ||| v = x % 4 + v := by
    have h4 : x % 4 = 0 ∨ x % 4 = 1 := by omega
    rcases hv with rfl | rfl <;> rcases h4 with h | h <;> rw [h] <;> decide
  omega

theorem PACK_eq (sz a p : Nat) (hsz : sz % 8 = 0) (ha : a < 2) (hp : p = 0 ∨ p = 2) :
    PACK sz a p = sz + a + p := by
  unfold PACK
  have e : sz = 2 ^ 3 * (sz / 8) := by omega
  have hap : a ||| p < 2 ^ 3 := by
    rcases hp with rfl | rfl <;> interval_cases a <;> decide
  have hap2 : a ||| p = a + p := by
    rcases hp with rfl | rfl <;> interval_cases a <;> decide
  rw [Nat.or_assoc, e, ← Nat.mul_add_lt_is_or hap, hap2]
  omega

/-! ## Header words -/

theorem hdr_lt (sz : Nat) (al pa : Bool) : hdr sz al pa < sz + 4 := by
  unfold hdr; cases al <;> cases pa <;> simp

theorem PACK_hdr (sz : Nat) (al pa : Bool) (hsz : sz % 8 = 0) :
    PACK sz (if al then 1 else 0) (if pa then 2 else 0) = hdr sz al pa := by
  rw [PACK_eq _ _ _ hsz (by cases al <;> simp) (by cases pa <;> simp)]
  rfl

theorem GET_SIZE_eq (m : Mem) (p : Nat) : GET_SIZE m p = GET m p - GET m p % 8 := by
  unfold GET_SIZE
  exact and_size_mask _ (GET_lt m p)

theorem GET_SIZE_hdr (m : Mem) (p sz : Nat) (al pa : Bool) (h : GET m p = hdr sz al pa)
    (hsz : sz % 8 = 0) : GET_SIZE m p = sz := by
  rw [GET_SIZE_eq, h]
  unfold hdr
  cases al <;> cases pa <;> simp <;> omega

theorem GET_ALLOC_hdr (m : Mem) (p sz : Nat) (al pa : Bool) (h : GET m p = hdr sz al pa)
    (hsz : sz % 8 = 0) : GET_ALLOC m p = if al then 1 else 0 := by
  unfold GET_ALLOC
  rw [and_alloc_mask, h]
  unfold hdr
  cases al <;> cases pa <;> simp <;> omega

theorem GET_PRED_ALLOC_hdr (m : Mem) (p sz : Nat) (al pa : Bool) (h : GET m p = hdr sz al pa)
    (hsz : sz % 8 = 0) : GET_PRED_ALLOC m p = if pa then 2 else 0 := by
  unfold GET_PRED_ALLOC
  rw [and_pa_mask, h]
  unfold hdr
  cases al <;> cases pa <;> simp <;> omega

theorem SET_PRED_ALLOC_hdr (m : Mem) (p sz : Nat) (al pa pa' : Bool)
    (h : GET m p = hdr sz al pa) (hsz : sz % 8 = 0) :
    SET_PRED_ALLOC m p (if pa' then 2 else 0) = PUT m p (hdr sz al pa') := by
  unfold SET_PRED_ALLOC
  rw [and_npa_mask _ (GET_lt m p), h]
  have e : hdr sz al pa - (hdr sz al pa % 4 - hdr sz al pa % 2) = sz + (if al then 1 else 0) := by
    unfold hdr
    cases al <;> cases pa <;> simp <;> omega
  rw [e, or_flag _ _ (by cases al <;> simp <;> omega) (by cases pa' <;> simp)]
  rfl

theorem hdr_mod (sz : Nat) (al pa : Bool) (h : hdr sz al pa < 4294967296) :
    hdr sz al pa % 4294967296 = hdr sz al pa := Nat.mod_eq_of_lt h

/-! ## Runs of blocks -/

@[simp] theorem tot_nil : tot [] = 0 := rfl
@[simp] theorem tot_cons (b : Blk) (r : List Blk) : tot (b :: r) = b.1 + tot r := rfl
@[simp] theorem outAlloc_nil (pa : Bool) : outAlloc pa [] = pa := rfl
@[simp] theorem outAlloc_cons (pa : Bool) (b : Blk) (r : List Blk) :
    outAlloc pa (b :: r) = outAlloc b.2 r := rfl
@[simp] theorem layout_nil (p : Nat) : layout p [] = [] := rfl
@[simp] theorem layout_cons (p : Nat) (b : Blk) (r : List Blk) :
    layout p (b :: r) = (p, b.1, b.2) :: layout (p + b.1) r := rfl

@[simp] theorem tot_append (l1 l2 : List Blk) : tot (l1 ++ l2) = tot l1 + tot l2 := by
  induction l1 with
  | nil => simp
  | cons b r ih => simp [ih]; omega

@[simp] theorem outAlloc_append (pa : Bool) (l1 l2 : List Blk) :
    outAlloc pa (l1 ++ l2) = outAlloc (outAlloc pa l1) l2 := by
  induction l1 generalizing pa with
  | nil => simp
  | cons b r ih => simp [ih]

theorem layout_append (p : Nat) (l1 l2 : List Blk) :
    layout p (l1 ++ l2) = layout p l1 ++ layout (p + tot l1) l2 := by
  induction l1 generalizing p with
  | nil => simp
  | cons b r ih => simp [ih, Nat.add_assoc]

theorem Seg_nil (m : Mem) (W : Nat → Prop) (p : Nat) (pa : Bool) : Seg m W p pa [] ↔ True :=
  Iff.rfl
theorem Seg_cons (m : Mem) (W : Nat → Prop) (p : Nat) (pa : Bool) (b : Blk) (r : List Blk) :
    Seg m W p pa (b :: r) ↔ (16 ≤ b.1 ∧ b.1 % 8 = 0 ∧ GET m (p - 4) = hdr b.1 b.2 pa ∧
      (b.2 = false → ∃ pa', GET m (p + b.1 - 8) = hdr b.1 false pa' ∧ (¬ W p → pa' = pa)) ∧
      Seg m W (p + b.1) b.2 r) := Iff.rfl
theorem NoAdj_nil (pa : Bool) : NoAdj pa [] ↔ True := Iff.rfl
theorem NoAdj_cons (pa : Bool) (b : Blk) (r : List Blk) :
    NoAdj pa (b :: r) ↔ ((pa = true ∨ b.2 = true) ∧ NoAdj b.2 r) := Iff.rfl

theorem Seg_append (m : Mem) (W : Nat → Prop) (p : Nat) (pa : Bool) (l1 l2 : List Blk) :
    Seg m W p pa (l1 ++ l2) ↔ Seg m W p pa l1 ∧ Seg m W (p + tot l1) (outAlloc pa l1) l2 := by
  induction l1 generalizing p pa with
  | nil => simp [Seg_nil]
  | cons b r ih =>
    simp only [List.cons_append, Seg_cons, ih, tot_cons, outAlloc_cons, Nat.add_assoc]
    tauto

theorem NoAdj_append (pa : Bool) (l1 l2 : List Blk) :
    NoAdj pa (l1 ++ l2) ↔ NoAdj pa l1 ∧ NoAdj (outAlloc pa l1) l2 := by
  induction l1 generalizing pa with
  | nil => simp [NoAdj_nil]
  | cons b r ih =>
    simp only [List.cons_append, NoAdj_cons, ih, outAlloc_cons]
    tauto

theorem layout_mem_bounds (p : Nat) (bs : List Blk) (q sz : Nat) (al : Bool)
    (h : (q, sz, al) ∈ layout p bs) : p ≤ q ∧ q + sz ≤ p + tot bs := by
  induction bs generalizing p with
  | nil => simp at h
  | cons b r ih =>
    simp only [layout_cons, List.mem_cons, Prod.mk.injEq] at h
    rcases h with ⟨rfl, rfl, rfl⟩ | h
    · simp
    · have := ih _ h
      simp only [tot_cons]
      omega

theorem layout_mem_split (p : Nat) (bs : List Blk) (q sz : Nat) (al : Bool)
    (h : (q, sz, al) ∈ layout p bs) :
    ∃ l1 l2, bs = l1 ++ (sz, al) :: l2 ∧ q = p + tot l1 := by
  induction bs generalizing p with
  | nil => simp at h
  | cons b r ih =>
    simp only [layout_cons, List.mem_cons, Prod.mk.injEq] at h
    rcases h with ⟨rfl, rfl, rfl⟩ | h
    · exact ⟨[], r, by simp, by simp⟩
    · obtain ⟨l1, l2, e, hq⟩ := ih _ h
      refine ⟨b :: l1, l2, by simp [e], ?_⟩
      simp only [tot_cons]
      omega

theorem layout_mem_mid (p : Nat) (l1 l2 : List Blk) (sz : Nat) (al : Bool) :
    (p + tot l1, sz, al) ∈ layout p (l1 ++ (sz, al) :: l2) := by
  rw [layout_append]
  simp

theorem Seg_mem (m : Mem) (W : Nat → Prop) (p : Nat) (pa : Bool) (bs : List Blk)
    (h : Seg m W p pa bs) (q sz : Nat) (al : Bool) (hq : (q, sz, al) ∈ layout p bs) :
    16 ≤ sz ∧ sz % 8 = 0 ∧ (∃ pa0, GET m (q - 4) = hdr sz al pa0 ∧
      (al = false → ∃ pa', GET m (q + sz - 8) = hdr sz false pa' ∧ (¬ W q → pa' = pa0))) := by
  induction bs generalizing p pa with
  | nil => simp at hq
  | cons b r ih =>
    simp only [layout_cons, List.mem_cons, Prod.mk.injEq] at hq
    obtain ⟨h1, h2, h3, h4, h5⟩ := h
    rcases hq with ⟨rfl, rfl, rfl⟩ | hq
    · exact ⟨h1, h2, pa, h3, h4⟩
    · exact ih _ _ h5 hq

theorem layout_sep (m : Mem) (W : Nat → Prop) (p : Nat) (pa : Bool) (bs : List Blk)
    (h : Seg m W p pa bs)
    (q1 s1 : Nat) (a1 : Bool) (q2 s2 : Nat) (a2 : Bool)
    (h1 : (q1, s1, a1) ∈ layout p bs) (h2 : (q2, s2, a2) ∈ layout p bs) :
    (q1 = q2 ∧ s1 = s2 ∧ a1 = a2) ∨ q1 + s1 ≤ q2 ∨ q2 + s2 ≤ q1 := by
  induction bs generalizing p pa with
  | nil => simp at h1
  | cons b r ih =>
    simp only [layout_cons, List.mem_cons, Prod.mk.injEq] at h1 h2
    obtain ⟨hs, _, _, _, hr⟩ := h
    rcases h1 with ⟨rfl, rfl, rfl⟩ | h1 <;> rcases h2 with ⟨rfl, rfl, rfl⟩ | h2
    · simp
    · have := layout_mem_bounds _ _ _ _ _ h2
      omega
    · have := layout_mem_bounds _ _ _ _ _ h1
      omega
    · exact ih _ _ hr h1 h2

theorem Seg_frame (m m' : Mem) (W W' : Nat → Prop) (p : Nat) (pa : Bool) (bs : List Blk)
    (h : Seg m W p pa bs) (hW : ∀ q sz, (q, sz, false) ∈ layout p bs → W q → W' q)
    (hm : ∀ q sz al, (q, sz, al) ∈ layout p bs →
      (∀ a, q - 4 ≤ a → a < q - 4 + 4 → m' a = m a) ∧
      (al = false → ∀ a, q + sz - 8 ≤ a → a < q + sz - 8 + 4 → m' a = m a)) :
    Seg m' W' p pa bs := by
  induction bs generalizing p pa with
  | nil => trivial
  | cons b r ih =>
    obtain ⟨h1, h2, h3, h4, h5⟩ := h
    have hb := hm p b.1 b.2 (by simp)
    refine ⟨h1, h2, ?_, ?_, ?_⟩
    · rw [GET_congr m m' _ hb.1]; exact h3
    · intro hf
      obtain ⟨pa', e1, e2⟩ := h4 hf
      refine ⟨pa', ?_, ?_⟩
      · rw [GET_congr m m' _ (hb.2 hf)]; exact e1
      · intro hw'
        apply e2
        intro hw
        exact hw' (hW p b.1 (by rw [← hf]; simp) hw)
    · apply ih _ _ h5
      · intro q sz hq
        exact hW q sz (by simp [hq])
      · intro q sz al hq
        exact hm q sz al (by simp [hq])

theorem Seg_frame_range (m m' : Mem) (W : Nat → Prop) (p : Nat) (pa : Bool) (bs : List Blk)
    (h : Seg m W p pa bs) (hp : 4 ≤ p)
    (hm : ∀ a, p - 4 ≤ a → a < p + tot bs - 4 → m' a = m a) : Seg m' W p pa bs := by
  apply Seg_frame m m' W W p pa bs h (fun _ _ _ hw => hw)
  intro q sz al hq
  have hb := layout_mem_bounds _ _ _ _ _ hq
  have hs := Seg_mem m W p pa bs h q sz al hq
  constructor
  · intro a h1 h2
    apply hm <;> omega
  · intro _ a h1 h2
    apply hm <;> omega

theorem Seg_sizes (m : Mem) (W : Nat → Prop) (p : Nat) (pa : Bool) (bs : List Blk)
    (h : Seg m W p pa bs) : ∀ b ∈ bs, 16 ≤ b.1 ∧ b.1 % 8 = 0 := by
  induction bs generalizing p pa with
  | nil => simp
  | cons b r ih =>
    obtain ⟨h1, h2, _, _, h5⟩ := h
    intro c hc
    rcases List.mem_cons.1 hc with rfl | hc
    · exact ⟨h1, h2⟩
    · exact ih _ _ h5 c hc

theorem tot_mod (m : Mem) (W : Nat → Prop) (p : Nat) (pa : Bool) (bs : List Blk)
    (h : Seg m W p pa bs) : tot bs % 8 = 0 := by
  induction bs generalizing p pa with
  | nil => simp
  | cons b r ih =>
    obtain ⟨_, h2, _, _, h5⟩ := h
    have := ih _ _ h5
    simp only [tot_cons]
    omega

theorem outAlloc_false_split (bs : List Blk) (h : outAlloc true bs = false) :
    ∃ l sz, bs = l ++ [(sz, false)] := by
  induction bs using List.reverseRecOn with
  | nil => simp at h
  | append_singleton l b _ =>
    simp at h
    exact ⟨l, b.1, by rw [← h]⟩

theorem FreeIn_FWf (m : Mem) (W : Nat → Prop) (hb : Nat) (bs : List Blk)
    (h : Seg m W (hb + 224) true bs)
    (hle : hb + 224 + tot bs ≤ hb + 4294967296) : FWf hb (FreeIn (hb + 224) bs) := by
  constructor
  · intro x sz hx
    have h1 := layout_mem_bounds _ _ _ _ _ hx
    have h2 := Seg_mem _ _ _ _ _ h _ _ _ hx
    omega
  · intro x s1 s2 h1 h2
    have := layout_sep _ _ _ _ _ h _ _ _ _ _ _ h1 h2
    have h3 := Seg_mem _ _ _ _ _ h _ _ _ h1
    have h4 := Seg_mem _ _ _ _ _ h _ _ _ h2
    omega
  · intro x sx y sy h1 h2
    have := layout_sep _ _ _ _ _ h _ _ _ _ _ _ h1 h2
    omega

theorem FWf_sub (hb : Nat) (F G : Nat → Nat → Prop) (h : FWf hb F)
    (hsub : ∀ x sz, G x sz → F x sz) : FWf hb G :=
  ⟨fun x sz hx => h.range x sz (hsub x sz hx),
   fun x s1 s2 h1 h2 => h.func x s1 s2 (hsub _ _ h1) (hsub _ _ h2),
   fun x sx y sy h1 h2 => h.sep x sx y sy (hsub _ _ h1) (hsub _ _ h2)⟩

/-! ## Size classes -/

theorem get_free_index_loop_range (fuel size : Nat) (idx : Int) (h1 : 6 ≤ idx) (h2 : idx ≤ 26) :
    idx ≤ get_free_index_loop fuel size idx ∧ get_free_index_loop fuel size idx ≤ 26 := by
  induction fuel generalizing size idx with
  | zero => simp [get_free_index_loop]; omega
  | succ n ih =>
    unfold get_free_index_loop
    simp only [FREE_LIST_NUM]
    split
    · split
      · norm_num; omega
      · rename_i h3
        norm_num at h3
        have := ih (size >>> 1) (idx + 1) (by omega) (by omega)
        omega
    · omega

theorem to_int_small (x : Nat) (h : x < 2147483648) : to_int x = (x : Int) := by
  unfold to_int
  have : x % 2 ^ 32 = x := Nat.mod_eq_of_lt (by omega)
  rw [this, if_pos (by omega)]

theorem get_free_index_range (sz : Nat) (h : 16 ≤ sz) :
    0 ≤ get_free_index sz ∧ get_free_index sz ≤ 26 := by
  unfold get_free_index
  split
  · rename_i h1
    simp only [MIN_FREE_SIZE, DSIZE]
    have e : (sz + 2 ^ 64 - 16) % 2 ^ 64 = sz - 16 := by omega
    rw [e, to_int_small _ (by omega)]
    omega
  · have := get_free_index_loop_range 64 sz 6 (by norm_num) (by norm_num)
    omega

theorem get_free_index_nat (sz : Nat) (h : 16 ≤ sz) :
    ∃ k : Nat, k < 27 ∧ get_free_index sz = (k : Int) := by
  have := get_free_index_range sz h
  refine ⟨(get_free_index sz).toNat, by omega, by omega⟩

theorem free_list_addr_nat (s : State) (k : Nat) :
    free_list_addr s (k : Int) = s.free_lists + 8 * k := by
  unfold free_list_addr
  omega

/-! ## Link words -/

theorem GET_PRED_congr (m m' : Mem) (hb p : Nat) (h : GET m' p = GET m p) :
    GET_PRED m' hb p = GET_PRED m hb p := by
  unfold GET_PRED; rw [h]

theorem GET_SUCC_congr (m m' : Mem) (hb p : Nat) (h : GET m' (p + 4) = GET m (p + 4)) :
    GET_SUCC m' hb p = GET_SUCC m hb p := by
  unfold GET_SUCC; simp only [WSIZE]; rw [h]

theorem GET_PRED_SET_PRED (m : Mem) (hb p ptr : Nat)
    (h : ptr = 0 ∨ (hb < ptr ∧ ptr < hb + 4294967296)) :
    GET_PRED (SET_PRED m hb p ptr) hb p = ptr := by
  unfold GET_PRED SET_PRED
  rw [GET_PUT_same]
  simp only [NULL]
  rcases h with rfl | h
  · simp
  · have : (ptr - hb) % 4294967296 = ptr - hb := Nat.mod_eq_of_lt (by omega)
    have h0 : ptr ≠ 0 := by omega
    simp only [h0, ne_eq, not_false_eq_true, if_true, this]
    have : ptr - hb ≠ 0 := by omega
    simp only [this, not_false_eq_true, if_true]
    omega

theorem GET_SUCC_SET_SUCC (m : Mem) (hb p ptr : Nat)
    (h : ptr = 0 ∨ (hb < ptr ∧ ptr < hb + 4294967296)) :
    GET_SUCC (SET_SUCC m hb p ptr) hb p = ptr := by
  unfold GET_SUCC SET_SUCC
  rw [GET_PUT_same]
  simp only [NULL]
  rcases h with rfl | h
  · simp
  · have : (ptr - hb) % 4294967296 = ptr - hb := Nat.mod_eq_of_lt (by omega)
    have h0 : ptr ≠ 0 := by omega
    simp only [h0, ne_eq, not_false_eq_true, if_true, this]
    have : ptr - hb ≠ 0 := by omega
    simp only [this, not_false_eq_true, if_true]
    omega

theorem SET_PRED_other_byte (m : Mem) (hb p ptr a : Nat) (h : a < p ∨ p + 4 ≤ a) :
    SET_PRED m hb p ptr a = m a := by
  unfold SET_PRED; exact PUT_other_byte _ _ _ _ h

theorem SET_SUCC_other_byte (m : Mem) (hb p ptr a : Nat) (h : a < p + 4 ∨ p + 8 ≤ a) :
    SET_SUCC m hb p ptr a = m a := by
  unfold SET_SUCC; simp only [WSIZE]; exact PUT_other_byte _ _ _ _ (by omega)

/-! ## Chains -/

theorem Chain_nil (m : Mem) (hb prev cur : Nat) : Chain m hb prev cur [] ↔ cur = 0 := Iff.rfl
theorem Chain_cons (m : Mem) (hb prev cur x : Nat) (r : List Nat) :
    Chain m hb prev cur (x :: r) ↔
      (cur = x ∧ x ≠ 0 ∧ GET_PRED m hb x = prev ∧ Chain m hb x (GET_SUCC m hb x) r) := Iff.rfl

theorem Chain_frame (m m' : Mem) (hb prev cur : Nat) (l : List Nat)
    (h : Chain m hb prev cur l)
    (hm : ∀ x ∈ l, ∀ a, x ≤ a → a < x + 8 → m' a = m a) : Chain m' hb prev cur l := by
  induction l generalizing prev cur with
  | nil => exact h
  | cons x r ih =>
    obtain ⟨h1, h2, h3, h4⟩ := h
    have hx := hm x (by simp)
    have e1 : GET m' x = GET m x := GET_congr _ _ _ (fun a h1 h2 => hx a h1 (by omega))
    have e2 : GET m' (x + 4) = GET m (x + 4) :=
      GET_congr _ _ _ (fun a h1 h2 => hx a (by omega) (by omega))
    refine ⟨h1, h2, ?_, ?_⟩
    · rw [GET_PRED_congr _ _ _ _ e1]; exact h3
    · rw [GET_SUCC_congr _ _ _ _ e2]
      exact ih _ _ h4 (fun y hy => hm y (by simp [hy]))

/-- Re-pointing the predecessor link of the first node of a chain. -/
theorem Chain_set_head_pred (m : Mem) (hb prev cur pred : Nat) (l : List Nat)
    (h : Chain m hb prev cur l) (hnd : l.Nodup)
    (hsep : ∀ y ∈ l, ∀ z ∈ l, y = z ∨ y + 8 ≤ z ∨ z + 8 ≤ y)
    (hpred : pred = 0 ∨ (hb < pred ∧ pred < hb + 4294967296)) :
    Chain (if cur ≠ NULL then SET_PRED m hb cur pred else m) hb pred cur l := by
  cases l with
  | nil =>
    have : cur = 0 := h
    simp [this, NULL, Chain_nil]
  | cons x r =>
    obtain ⟨h1, h2, h3, h4⟩ := h
    subst h1
    rw [if_pos h2]
    refine ⟨rfl, h2, GET_PRED_SET_PRED _ _ _ _ hpred, ?_⟩
    have e : GET_SUCC (SET_PRED m hb cur pred) hb cur = GET_SUCC m hb cur := by
      apply GET_SUCC_congr
      apply GET_congr
      intro a h1 h2
      apply SET_PRED_other_byte
      omega
    rw [e]
    apply Chain_frame _ _ _ _ _ _ h4
    intro y hy a h1 h2
    apply SET_PRED_other_byte
    have hne : cur ≠ y := by
      intro e; subst e
      exact (List.nodup_cons.1 hnd).1 hy
    have := hsep cur (by simp) y (by simp [hy])
    omega

/-- Unlinking node `x` that has a predecessor node in the chain. -/
theorem Chain_unlink (m : Mem) (hb x succ : Nat) (l2 : List Nat) (l1 : List Nat)
    (prev cur z : Nat)
    (h : Chain m hb prev cur (z :: l1 ++ x :: l2)) (hnd : (z :: l1 ++ x :: l2).Nodup)
    (hsep : ∀ y ∈ z :: l1 ++ x :: l2, ∀ w ∈ z :: l1 ++ x :: l2, y = w ∨ y + 8 ≤ w ∨ w + 8 ≤ y)
    (hrng : ∀ y ∈ z :: l1 ++ x :: l2, hb < y ∧ y < hb + 4294967296)
    (hsucc : GET_SUCC m hb x = succ) :
    GET_PRED m hb x ≠ 0 ∧ GET_PRED m hb x ∈ z :: l1 ∧
    Chain (if succ ≠ NULL then
        SET_PRED (SET_SUCC m hb (GET_PRED m hb x) succ) hb succ (GET_PRED m hb x)
      else SET_SUCC m hb (GET_PRED m hb x) succ) hb prev cur (z :: l1 ++ l2) := by
  induction l1 generalizing prev cur z with
  | nil =>
    simp only [List.cons_append, List.nil_append] at h hnd hsep hrng ⊢
    obtain ⟨h1, h2, h3, h4, h5, h6, h7⟩ := h
    subst h1
    have hpx : GET_PRED m hb x = cur := h6
    rw [hpx]
    have hcr := hrng cur (by simp)
    have hxr := hrng x (by simp)
    have hcx : cur ≠ x := by
      intro e
      rw [e] at hnd
      simp at hnd
    have hsx := hsep cur (by simp) x (by simp)
    refine ⟨h2, by simp, ?_⟩
    -- the chain after x in the memory where cur's successor link is rewritten
    have hnd2 : l2.Nodup := by
      have := List.nodup_cons.1 hnd
      exact (List.nodup_cons.1 this.2).2
    have hl2 : ∀ y ∈ l2, y ≠ cur ∧ (cur + 8 ≤ y ∨ y + 8 ≤ cur) := by
      intro y hy
      have hne : y ≠ cur := by
        intro e; subst e
        have := (List.nodup_cons.1 hnd).1
        simp [hy] at this
      have := hsep cur (by simp) y (by simp [hy])
      exact ⟨hne, by omega⟩
    have hc1 : Chain (SET_SUCC m hb cur succ) hb x succ l2 := by
      rw [hsucc] at h7
      apply Chain_frame _ _ _ _ _ _ h7
      intro y hy a h1 h2
      apply SET_SUCC_other_byte
      have := hl2 y hy
      omega
    have hc2 := Chain_set_head_pred _ hb x succ cur l2 hc1 hnd2
      (fun y hy w hw => hsep y (by simp [hy]) w (by simp [hw])) (Or.inr hcr)
    have hsucc_ne : succ = 0 ∨ (succ ≠ cur ∧ (cur + 8 ≤ succ ∨ succ + 8 ≤ cur) ∧ hb < succ ∧
        succ < hb + 4294967296) := by
      cases l2 with
      | nil => left; rw [hsucc] at h7; exact h7
      | cons y r =>
        right
        rw [hsucc] at h7
        have : succ = y := h7.1
        subst this
        have := hl2 succ (by simp)
        have := hrng succ (by simp)
        omega
    refine ⟨rfl, h2, ?_, ?_⟩
    · -- predecessor link of cur is untouched
      have : ∀ a, cur ≤ a → a < cur + 4 →
          (if succ ≠ NULL then SET_PRED (SET_SUCC m hb cur succ) hb succ cur
            else SET_SUCC m hb cur succ) a = m a := by
        intro a h1 h2
        split
        · rw [SET_PRED_other_byte _ _ _ _ _ (by rcases hsucc_ne with h | h <;> [(simp [NULL, h] at *); omega]),
            SET_SUCC_other_byte _ _ _ _ _ (by omega)]
        · rw [SET_SUCC_other_byte _ _ _ _ _ (by omega)]
      rw [GET_PRED_congr _ _ _ _ (GET_congr _ _ _ this)]
      exact h3
    · have e : GET_SUCC (if succ ≠ NULL then SET_PRED (SET_SUCC m hb cur succ) hb succ cur
            else SET_SUCC m hb cur succ) hb cur = succ := by
        have hs : succ = 0 ∨ (hb < succ ∧ succ < hb + 4294967296) := by
          rcases hsucc_ne with h | h
          · left; exact h
          · right; omega
        split
        · rename_i hne
          have : GET_SUCC (SET_PRED (SET_SUCC m hb cur succ) hb succ cur) hb cur
              = GET_SUCC (SET_SUCC m hb cur succ) hb cur := by
            apply GET_SUCC_congr
            apply GET_congr
            intro a h1 h2
            apply SET_PRED_other_byte
            rcases hsucc_ne with h | h
            · simp [NULL, h] at hne
            · omega
          rw [this, GET_SUCC_SET_SUCC _ _ _ _ hs]
        · exact GET_SUCC_SET_SUCC _ _ _ _ hs
      rw [e]
      exact hc2
  | cons w l1 ih =>
    simp only [List.cons_append] at h hnd hsep hrng ⊢
    obtain ⟨h1, h2, h3, h4⟩ := h
    subst h1
    have hnd' := (List.nodup_cons.1 hnd).2
    have ih' := ih cur (GET_SUCC m hb cur) w h4 hnd'
      (fun y hy v hv => hsep y (by simp at hy ⊢; tauto) v (by simp at hv ⊢; tauto))
      (fun y hy => hrng y (by simp at hy ⊢; tauto))
    obtain ⟨i1, i2, i3⟩ := ih'
    refine ⟨i1, by simp at i2 ⊢; tauto, ?_⟩
    -- cur is neither the predecessor of x nor its successor
    have hpne : GET_PRED m hb x ≠ cur ∧ (cur + 8 ≤ GET_PRED m hb x ∨ GET_PRED m hb x + 8 ≤ cur) := by
      have hmem : GET_PRED m hb x ∈ w :: l1 := i2
      have hne : GET_PRED m hb x ≠ cur := by
        intro e
        rw [e] at hmem
        have := (List.nodup_cons.1 hnd).1
        simp at hmem this
        tauto
      have := hsep cur (by simp) (GET_PRED m hb x) (by simp at hmem ⊢; tauto)
      exact ⟨hne, by omega⟩
    have hsne : succ = 0 ∨ (cur + 8 ≤ succ ∨ succ + 8 ≤ cur) := by
      by_cases hs : succ = 0
      · left; exact hs
      · right
        -- succ is the head of l2
        have hmem : succ ∈ l2 := by
          have hx : Chain m hb (GET_PRED m hb x) x (x :: l2) ∧ True := by
            clear ih i3
            -- walk down to x
            have key : ∀ (l : List Nat) (p c : Nat), Chain m hb p c (l ++ x :: l2) →
                Chain m hb (GET_PRED m hb x) x (x :: l2) := by
              intro l
              induction l with
              | nil =>
                intro p c hc
                obtain ⟨c1, c2, c3, c4⟩ := hc
                exact ⟨rfl, c2, rfl, c4⟩
              | cons v l ihl =>
                intro p c hc
                exact ihl _ _ hc.2.2.2
            exact ⟨key (w :: l1) _ _ h4, trivial⟩
          have h7 := hx.1.2.2.2
          rw [hsucc] at h7
          cases l2 with
          | nil => exact absurd h7 hs
          | cons y r =>
            have : succ = y := h7.1
            simp [this]
        have hne : succ ≠ cur := by
          intro e
          rw [e] at hmem
          have := (List.nodup_cons.1 hnd).1
          simp at this
          tauto
        have := hsep cur (by simp) succ (by simp; tauto)
        omega
    have hbytes : ∀ a, cur ≤ a → a < cur + 8 →
        (if succ ≠ NULL then
          SET_PRED (SET_SUCC m hb (GET_PRED m hb x) succ) hb succ (GET_PRED m hb x)
        else SET_SUCC m hb (GET_PRED m hb x) succ) a = m a := by
      intro a h1 h2
      split
      · rename_i hne
        rw [SET_PRED_other_byte _ _ _ _ _ (by rcases hsne with h | h <;> [(simp [NULL, h] at hne); omega]),
          SET_SUCC_other_byte _ _ _ _ _ (by omega)]
      · rw [SET_SUCC_other_byte _ _ _ _ _ (by omega)]
    refine ⟨rfl, h2, ?_, ?_⟩
    · rw [GET_PRED_congr _ _ _ _ (GET_congr _ _ _ (fun a h1 h2 => hbytes a h1 (by omega)))]
      exact h3
    · rw [GET_SUCC_congr _ _ _ _ (GET_congr _ _ _ (fun a h1 h2 => hbytes a (by omega) (by omega)))]
      exact i3

/-! ## The free-list table and the two chain operations -/

theorem free_list_get_nat (s : State) (k : Nat) :
    free_list_get s (k : Int) = GET_PTR s.mem (s.free_lists + 8 * k) := by
  unfold free_list_get
  rw [free_list_addr_nat]

theorem free_list_set_mem (s : State) (k ptr : Nat) :
    (free_list_set s (k : Int) ptr).mem = PUT_PTR s.mem (s.free_lists + 8 * k) ptr := by
  unfold free_list_set
  rw [free_list_addr_nat]

theorem free_list_set_heap_base (s : State) (idx : Int) (ptr : Nat) :
    (free_list_set s idx ptr).heap_base = s.heap_base := rfl

theorem remove_free_fields (s : State) (x : Nat) :
    (remove_free s x).heap_base = s.heap_base ∧ (remove_free s x).free_lists = s.free_lists ∧
    (remove_free s x).brk = s.brk ∧ (remove_free s x).calls = s.calls := by
  unfold remove_free
  split
  · simp
  · simp only []
    split <;> split <;> simp [free_list_set]

theorem push_first_free_fields (s : State) (x : Nat) :
    (push_first_free s x).heap_base = s.heap_base ∧
    (push_first_free s x).free_lists = s.free_lists ∧
    (push_first_free s x).brk = s.brk ∧ (push_first_free s x).calls = s.calls := by
  unfold push_first_free
  split
  · simp
  · simp only []
    split <;> simp [free_list_set]

theorem remove_free_mem (s : State) (x i : Nat) (hx : x ≠ 0)
    (ha : GET_ALLOC s.mem (x - 4) = 0)
    (hi : get_free_index (GET_SIZE s.mem (x - 4)) = (i : Int)) :
    (remove_free s x).mem =
      (if GET_SUCC s.mem s.heap_base x ≠ NULL then
        SET_PRED
          (if GET_PRED s.mem s.heap_base x = NULL then
            PUT_PTR s.mem (s.free_lists + 8 * i) (GET_SUCC s.mem s.heap_base x)
          else SET_SUCC s.mem s.heap_base (GET_PRED s.mem s.heap_base x)
            (GET_SUCC s.mem s.heap_base x))
          s.heap_base (GET_SUCC s.mem s.heap_base x) (GET_PRED s.mem s.heap_base x)
      else
        (if GET_PRED s.mem s.heap_base x = NULL then
            PUT_PTR s.mem (s.free_lists + 8 * i) (GET_SUCC s.mem s.heap_base x)
          else SET_SUCC s.mem s.heap_base (GET_PRED s.mem s.heap_base x)
            (GET_SUCC s.mem s.heap_base x))) := by
  unfold remove_free
  have h1 : ¬ (x = NULL ∨ GET_ALLOC s.mem (HDRP x) ≠ 0) := by
    simp only [NULL, HDRP, WSIZE]
    rw [ha]
    simp [hx]
  rw [if_neg h1]
  simp only [HDRP, WSIZE, hi]
  split <;> split <;> simp [free_list_set_mem, free_list_set_heap_base]

/-- Membership in a chain of the table determines the class. -/
theorem Lists_class_unique (hb : Nat) (F : Nat → Nat → Prop) (hF : FWf hb F)
    (i j : Nat) (li lj : List Nat)
    (hi : ∀ x, x ∈ li ↔ ∃ sz, F x sz ∧ get_free_index sz = (i : Int))
    (hj : ∀ x, x ∈ lj ↔ ∃ sz, F x sz ∧ get_free_index sz = (j : Int))
    (x : Nat) (h1 : x ∈ li) (h2 : x ∈ lj) : i = j := by
  obtain ⟨s1, f1, c1⟩ := (hi x).1 h1
  obtain ⟨s2, f2, c2⟩ := (hj x).1 h2
  have := hF.func x s1 s2 f1 f2
  subst this
  rw [c1] at c2
  exact_mod_cast c2

set_option maxHeartbeats 1000000 in
theorem unlink_mem_seq (m : Mem) (hb : Nat) (F : Nat → Nat → Prop) (x sz i : Nat) (m' : Mem)
    (htop : hb + 4294967296 ≤ 2 ^ 64)
    (hF : FWf hb F) (hL : Lists m hb F)
    (hx : F x sz) (hi27 : i < 27) (hci : get_free_index sz = (i : Int))
    (hmem : m' =
      (if GET_SUCC m hb x ≠ NULL then
        SET_PRED
          (if GET_PRED m hb x = NULL then PUT_PTR m (hb + 8 * i) (GET_SUCC m hb x)
          else SET_SUCC m hb (GET_PRED m hb x) (GET_SUCC m hb x))
          hb (GET_SUCC m hb x) (GET_PRED m hb x)
      else
        (if GET_PRED m hb x = NULL then PUT_PTR m (hb + 8 * i) (GET_SUCC m hb x)
          else SET_SUCC m hb (GET_PRED m hb x) (GET_SUCC m hb x)))) :
    ∃ l1 l2 : List Nat, Chain m hb NULL (GET_PTR m (hb + 8 * i)) (l1 ++ x :: l2) ∧
      (l1 ++ x :: l2).Nodup ∧
      (∀ y, y ∈ l1 ++ x :: l2 ↔ ∃ sy, F y sy ∧ get_free_index sy = (i : Int)) ∧
      Chain m' hb NULL (GET_PTR m' (hb + 8 * i)) (l1 ++ l2) ∧
      (l1 = [] → GET_PTR m' (hb + 8 * i) = GET_SUCC m hb x) ∧
      (∀ j, j < 27 → j ≠ i → ∀ lj : List Nat,
        Chain m hb NULL (GET_PTR m (hb + 8 * j)) lj →
        (∀ y, y ∈ lj ↔ ∃ sy, F y sy ∧ get_free_index sy = (j : Int)) →
        Chain m' hb NULL (GET_PTR m' (hb + 8 * j)) lj ∧
          GET_PTR m' (hb + 8 * j) = GET_PTR m (hb + 8 * j)) ∧
      (∀ a, hb + 216 ≤ a → (∀ y sy, F y sy → y ≠ x → a < y ∨ y + 8 ≤ a) → m' a = m a) := by
  obtain ⟨l, hch, hnd, hmemb⟩ := hL i hi27
  have hxl : x ∈ l := (hmemb x).2 ⟨sz, hx, hci⟩
  obtain ⟨l1, l2, hl⟩ := List.append_of_mem hxl
  subst hl
  -- geometry of the members of chain i
  have hrng : ∀ y ∈ l1 ++ x :: l2, hb < y ∧ y < hb + 4294967296 ∧
      hb + 224 ≤ y := by
    intro y hy
    obtain ⟨sy, fy, _⟩ := (hmemb y).1 hy
    have := hF.range y sy fy
    omega
  have hsep : ∀ y ∈ l1 ++ x :: l2, ∀ w ∈ l1 ++ x :: l2, y = w ∨ y + 8 ≤ w ∨ w + 8 ≤ y := by
    intro y hy w hw
    obtain ⟨sy, fy, _⟩ := (hmemb y).1 hy
    obtain ⟨sw, fw, _⟩ := (hmemb w).1 hw
    have h1 := hF.range y sy fy
    have h2 := hF.range w sw fw
    have := hF.sep y sy w sw fy fw
    omega
  -- the successor of x
  have hxc : ∀ (l : List Nat) (p c : Nat), Chain m hb p c (l ++ x :: l2) →
      Chain m hb (GET_PRED m hb x) x (x :: l2) := by
    intro l
    induction l with
    | nil =>
      intro p c hc
      obtain ⟨c1, c2, c3, c4⟩ := hc
      exact ⟨rfl, c2, rfl, c4⟩
    | cons v l ihl =>
      intro p c hc
      exact ihl _ _ hc.2.2.2
  have hxch := hxc l1 _ _ hch
  have hsucc : GET_SUCC m hb x = 0 ∨ (GET_SUCC m hb x ∈ l2) := by
    have h7 := hxch.2.2.2
    cases l2 with
    | nil => left; exact h7
    | cons y r => right; rw [h7.1]; simp
  have hnd2 : l2.Nodup := by
    have := (List.nodup_append.1 hnd).2.1
    exact (List.nodup_cons.1 this).2
  have hxl2 : x ∉ l2 := by
    have := (List.nodup_append.1 hnd).2.1
    exact (List.nodup_cons.1 this).1
  have hxl1 : x ∉ l1 := by
    intro h
    have := (List.nodup_append.1 hnd).2.2
    exact this h (by simp) 
  -- frame of the new memory, and the new chain i
  have hsr : GET_SUCC m hb x < 2 ^ 64 := by
    unfold GET_SUCC
    have := GET_lt m (x + WSIZE)
    simp only [NULL]
    split <;> omega
  have hpredmem : l1 ≠ [] → GET_PRED m hb x ≠ 0 ∧ GET_PRED m hb x ∈ l1 := by
    intro hne
    cases l1 with
    | nil => exact absurd rfl hne
    | cons z l1 =>
      have hu := Chain_unlink m hb x (GET_SUCC m hb x) l2 l1 _ _ z hch
        hnd hsep (fun y hy => ⟨(hrng y hy).1, (hrng y hy).2.1⟩) rfl
      exact ⟨hu.1, hu.2.1⟩
  have hunlink : ∀ z l1', l1 = z :: l1' →
      Chain (if GET_SUCC m hb x ≠ NULL then
        SET_PRED (SET_SUCC m hb (GET_PRED m hb x)
          (GET_SUCC m hb x)) hb (GET_SUCC m hb x)
          (GET_PRED m hb x)
      else SET_SUCC m hb (GET_PRED m hb x)
        (GET_SUCC m hb x)) hb NULL
        (GET_PTR m (hb + 8 * i)) (l1 ++ l2) := by
    intro z l1' e
    subst e
    exact (Chain_unlink m hb x (GET_SUCC m hb x) l2 l1' _ _ z hch
        hnd hsep (fun y hy => ⟨(hrng y hy).1, (hrng y hy).2.1⟩) rfl).2.2
  have hhead : l1 = [] → GET_PRED m hb x = NULL ∧
      Chain m hb x (GET_SUCC m hb x) l2 := by
    intro e
    subst e
    exact ⟨hch.2.2.1, hch.2.2.2⟩
  generalize hsd : GET_SUCC m hb x = succ at *
  generalize hpd : GET_PRED m hb x = pred at *
  have hsucc' : succ ≠ NULL → succ ∈ l2 ∧ succ ≠ x ∧ succ ∈ l1 ++ x :: l2 := by
    intro hne
    rcases hsucc with h | h
    · exact absurd h hne
    · exact ⟨h, by intro e; rw [e] at h; exact hxl2 h, by simp [h]⟩
  have key : (∀ a, (a < hb + 8 * i ∨ hb + 8 * i + 8 ≤ a) →
        (∀ y ∈ l1 ++ x :: l2, y ≠ x → a < y ∨ y + 8 ≤ a) → m' a = m a) ∧
      Chain m' hb NULL
        (GET_PTR m' (hb + 8 * i)) (l1 ++ l2) ∧
      (l1 = [] → GET_PTR m' (hb + 8 * i) = succ) := by
    subst hmem
    cases l1 with
    | nil =>
      obtain ⟨c3, c4⟩ := hhead rfl
      simp only [List.nil_append] at hnd hrng hsep ⊢
      rw [if_pos c3]
      have hcA : Chain (PUT_PTR m (hb + 8 * i) succ) hb x succ l2 := by
        apply Chain_frame _ _ _ _ _ _ c4
        intro y hy a h1 h2
        apply PUT_PTR_other_byte
        have := hrng y (by simp [hy])
        omega
      have hcB := Chain_set_head_pred _ hb x succ NULL l2 hcA
        hnd2 (fun y hy w hw => hsep y (by simp [hy]) w (by simp [hw])) (Or.inl rfl)
      constructor
      · intro a ha1 ha2
        split
        · rename_i hne
          rw [SET_PRED_other_byte, PUT_PTR_other_byte _ _ _ _ ha1]
          have := ha2 succ (hsucc' hne).2.2 (hsucc' hne).2.1
          omega
        · exact PUT_PTR_other_byte _ _ _ _ ha1
      · have e : GET_PTR (if succ ≠ NULL then
              SET_PRED (PUT_PTR m (hb + 8 * i) succ) hb succ pred
            else PUT_PTR m (hb + 8 * i) succ)
            (hb + 8 * i) = succ := by
          split
          · rename_i hne
            rw [GET_PTR_congr (PUT_PTR m (hb + 8 * i) succ) _]
            · exact GET_PTR_PUT_PTR_same _ _ _ hsr
            · intro a h1 h2
              apply SET_PRED_other_byte
              have := hrng succ (hsucc' hne).2.2
              omega
          · exact GET_PTR_PUT_PTR_same _ _ _ hsr
        exact ⟨by rw [e, c3]; exact hcB, fun _ => e⟩
    | cons z l1 =>
      obtain ⟨u1, u2⟩ := hpredmem (by simp)
      have u3 := hunlink z l1 rfl
      have u1' : ¬ (pred = NULL) := u1
      rw [if_neg u1']
      have hpne : pred ≠ x := by
        intro e; rw [e] at u2; exact hxl1 u2
      have hpm : pred ∈ z :: l1 ++ x :: l2 := by
        simp only [List.cons_append, List.mem_cons, List.mem_append] at u2 ⊢
        tauto
      constructor
      · intro a ha1 ha2
        have hp := ha2 pred hpm hpne
        split
        · rename_i hne
          rw [SET_PRED_other_byte, SET_SUCC_other_byte _ _ _ _ _ (by omega)]
          have := ha2 succ (hsucc' hne).2.2 (hsucc' hne).2.1
          omega
        · exact SET_SUCC_other_byte _ _ _ _ _ (by omega)
      · have e : GET_PTR (if succ ≠ NULL then
              SET_PRED (SET_SUCC m hb pred succ) hb succ pred
            else SET_SUCC m hb pred succ)
            (hb + 8 * i) = GET_PTR m (hb + 8 * i) := by
          apply GET_PTR_congr
          intro a h1 h2
          have hp := hrng pred hpm
          split
          · rename_i hne
            rw [SET_PRED_other_byte, SET_SUCC_other_byte _ _ _ _ _ (by omega)]
            have := hrng succ (hsucc' hne).2.2
            omega
          · exact SET_SUCC_other_byte _ _ _ _ _ (by omega)
        exact ⟨by rw [e]; exact u3, fun hc => absurd hc (List.cons_ne_nil _ _)⟩
  obtain ⟨kframe, kchain, khead⟩ := key
  refine ⟨l1, l2, hch, hnd, hmemb, kchain, khead, ?_, ?_⟩
  · intro j hj hji lj hchj hmembj
    have hdisj : ∀ y ∈ lj, y ∉ l1 ++ x :: l2 := by
      intro y hy hy'
      exact hji (Lists_class_unique hb F hF j i lj _ hmembj hmemb y hy hy')
    have e : GET_PTR m' (hb + 8 * j)
        = GET_PTR m (hb + 8 * j) := by
      apply GET_PTR_congr
      intro a h1 h2
      apply kframe a (by omega)
      intro y hy _
      have := hrng y hy
      omega
    refine ⟨?_, e⟩
    rw [e]
    apply Chain_frame _ _ _ _ _ _ hchj
    intro y hy a h1 h2
    obtain ⟨sy, fy, _⟩ := (hmembj y).1 hy
    have hyr := hF.range y sy fy
    apply kframe a (by omega)
    intro w hw _
    obtain ⟨sw, fw, _⟩ := (hmemb w).1 hw
    have hwr := hF.range w sw fw
    have hne : y ≠ w := by
      intro e; subst e; exact hdisj y hy hw
    have := hF.sep y sy w sw fy fw
    omega
  · intro a ha1 ha2
    apply kframe a (by omega)
    intro y hy hne
    obtain ⟨sy, fy, _⟩ := (hmemb y).1 hy
    exact ha2 y sy fy hne

theorem unlink_mem_spec (m : Mem) (hb : Nat) (F : Nat → Nat → Prop) (x sz i : Nat) (m' : Mem)
    (htop : hb + 4294967296 ≤ 2 ^ 64)
    (hF : FWf hb F) (hL : Lists m hb F)
    (hx : F x sz) (hi27 : i < 27) (hci : get_free_index sz = (i : Int))
    (hmem : m' =
      (if GET_SUCC m hb x ≠ NULL then
        SET_PRED
          (if GET_PRED m hb x = NULL then PUT_PTR m (hb + 8 * i) (GET_SUCC m hb x)
          else SET_SUCC m hb (GET_PRED m hb x) (GET_SUCC m hb x))
          hb (GET_SUCC m hb x) (GET_PRED m hb x)
      else
        (if GET_PRED m hb x = NULL then PUT_PTR m (hb + 8 * i) (GET_SUCC m hb x)
          else SET_SUCC m hb (GET_PRED m hb x) (GET_SUCC m hb x)))) :
    Lists m' hb (fun y sy => F y sy ∧ y ≠ x) ∧
    (∀ a, hb + 216 ≤ a → (∀ y sy, F y sy → y ≠ x → a < y ∨ y + 8 ≤ a) → m' a = m a) := by
  obtain ⟨l1, l2, _, hnd, hmemb, kchain, _, kother, kfr⟩ :=
    unlink_mem_seq m hb F x sz i m' htop hF hL hx hi27 hci hmem
  have hxl : x ∈ l1 ++ x :: l2 := by simp
  have hnd2 : l2.Nodup := by
    have := (List.nodup_append.1 hnd).2.1
    exact (List.nodup_cons.1 this).2
  refine ⟨?_, kfr⟩
  intro j hj
  by_cases hji : j = i
  · subst hji
    refine ⟨l1 ++ l2, kchain, ?_, ?_⟩
    · have := List.nodup_append.1 hnd
      apply List.nodup_append.2
      refine ⟨this.1, hnd2, ?_⟩
      intro a h1 h2
      exact this.2.2 h1 (by simp [h2])
    · intro y
      constructor
      · intro hy
        have hy' : y ∈ l1 ++ x :: l2 := by
          simp only [List.mem_append, List.mem_cons] at hy ⊢; tauto
        obtain ⟨sy, fy, cy⟩ := (hmemb y).1 hy'
        refine ⟨sy, ⟨fy, ?_⟩, cy⟩
        intro e
        subst e
        have h1 := (List.nodup_append.1 hnd).2.1
        have h2 := (List.nodup_append.1 hnd).2.2
        simp only [List.mem_append] at hy
        rcases hy with hy | hy
        · exact h2 hy (by simp)
        · exact (List.nodup_cons.1 h1).1 hy
      · rintro ⟨sy, ⟨fy, hne⟩, cy⟩
        have := (hmemb y).2 ⟨sy, fy, cy⟩
        simp only [List.mem_append, List.mem_cons] at this ⊢
        tauto
  · obtain ⟨lj, hchj, hndj, hmembj⟩ := hL j hj
    have hdisj : ∀ y ∈ lj, y ∉ l1 ++ x :: l2 := by
      intro y hy hy'
      exact hji (Lists_class_unique hb F hF j i lj _ hmembj hmemb y hy hy')
    refine ⟨lj, (kother j hj hji lj hchj hmembj).1, hndj, ?_⟩
    intro y
    constructor
    · intro hy
      obtain ⟨sy, fy, cy⟩ := (hmembj y).1 hy
      refine ⟨sy, ⟨fy, ?_⟩, cy⟩
      intro e
      subst e
      exact hdisj y hy hxl
    · rintro ⟨sy, ⟨fy, _⟩, cy⟩
      exact (hmembj y).2 ⟨sy, fy, cy⟩

theorem remove_free_spec (s : State) (F : Nat → Nat → Prop) (x sz : Nat) (pa : Bool)
    (hfl : s.free_lists = s.heap_base) (htop : s.heap_base + 4294967296 ≤ 2 ^ 64)
    (hF : FWf s.heap_base F) (hL : Lists s.mem s.heap_base F)
    (hx : F x sz) (hh : GET s.mem (x - 4) = hdr sz false pa) (hsz : sz % 8 = 0) :
    Lists (remove_free s x).mem s.heap_base (fun y sy => F y sy ∧ y ≠ x) ∧
    (∀ a, s.heap_base + 216 ≤ a → (∀ y sy, F y sy → y ≠ x → a < y ∨ y + 8 ≤ a) →
      (remove_free s x).mem a = s.mem a) := by
  have hxr := hF.range x sz hx
  obtain ⟨i, hi27, hci⟩ := get_free_index_nat sz hxr.2.2
  have hx0 : x ≠ 0 := by omega
  have hal : GET_ALLOC s.mem (x - 4) = 0 := by
    rw [GET_ALLOC_hdr _ _ _ _ _ hh hsz]; rfl
  have hgs : GET_SIZE s.mem (x - 4) = sz := GET_SIZE_hdr _ _ _ _ _ hh hsz
  have hmem := remove_free_mem s x i hx0 hal (by rw [hgs]; exact hci)
  rw [hfl] at hmem
  exact unlink_mem_spec s.mem s.heap_base F x sz i _ htop hF hL hx hi27 hci hmem

theorem push_first_free_mem (s : State) (x i : Nat) (hx : x ≠ 0)
    (hfl : s.free_lists = s.heap_base)
    (hi : get_free_index (GET_SIZE s.mem (x - 4)) = (i : Int)) :
    (push_first_free s x).mem =
      PUT_PTR
        (if GET_PTR (SET_PRED (SET_SUCC s.mem s.heap_base x (GET_PTR s.mem (s.heap_base + 8 * i)))
            s.heap_base x NULL) (s.heap_base + 8 * i) ≠ NULL then
          SET_PRED (SET_PRED (SET_SUCC s.mem s.heap_base x (GET_PTR s.mem (s.heap_base + 8 * i)))
            s.heap_base x NULL) s.heap_base
            (GET_PTR (SET_PRED (SET_SUCC s.mem s.heap_base x (GET_PTR s.mem (s.heap_base + 8 * i)))
              s.heap_base x NULL) (s.heap_base + 8 * i)) x
        else SET_PRED (SET_SUCC s.mem s.heap_base x (GET_PTR s.mem (s.heap_base + 8 * i)))
            s.heap_base x NULL)
        (s.heap_base + 8 * i) x := by
  unfold push_first_free
  have h1 : ¬ (x = NULL) := hx
  rw [if_neg h1]
  simp only [HDRP, WSIZE, hi, free_list_get_nat, free_list_set_mem, hfl]
  split <;> rfl

set_option maxHeartbeats 1000000 in
theorem push_mem_seq (m : Mem) (hb : Nat) (F : Nat → Nat → Prop) (x sz i : Nat) (m' : Mem)
    (htop : hb + 4294967296 ≤ 2 ^ 64)
    (hF : FWf hb F) (hL : Lists m hb F)
    (hnew : ∀ sy, ¬ F x sy)
    (hxr : hb + 224 ≤ x ∧ x + sz ≤ hb + 4294967296 ∧ 16 ≤ sz)
    (hxsep : ∀ y sy, F y sy → x + sz ≤ y ∨ y + sy ≤ x)
    (hi27 : i < 27) (hci : get_free_index sz = (i : Int))
    (hmem : m' =
      PUT_PTR
        (if GET_PTR (SET_PRED (SET_SUCC m hb x (GET_PTR m (hb + 8 * i))) hb x NULL)
            (hb + 8 * i) ≠ NULL then
          SET_PRED (SET_PRED (SET_SUCC m hb x (GET_PTR m (hb + 8 * i))) hb x NULL) hb
            (GET_PTR (SET_PRED (SET_SUCC m hb x (GET_PTR m (hb + 8 * i))) hb x NULL)
              (hb + 8 * i)) x
        else SET_PRED (SET_SUCC m hb x (GET_PTR m (hb + 8 * i))) hb x NULL)
        (hb + 8 * i) x) :
    ∃ l : List Nat, Chain m hb NULL (GET_PTR m (hb + 8 * i)) l ∧ l.Nodup ∧
      (∀ y, y ∈ l ↔ ∃ sy, F y sy ∧ get_free_index sy = (i : Int)) ∧ x ∉ l ∧
      Chain m' hb NULL (GET_PTR m' (hb + 8 * i)) (x :: l) ∧
      (∀ j, j < 27 → j ≠ i → ∀ lj : List Nat,
        Chain m hb NULL (GET_PTR m (hb + 8 * j)) lj →
        (∀ y, y ∈ lj ↔ ∃ sy, F y sy ∧ get_free_index sy = (j : Int)) →
        Chain m' hb NULL (GET_PTR m' (hb + 8 * j)) lj ∧
          GET_PTR m' (hb + 8 * j) = GET_PTR m (hb + 8 * j)) ∧
      (∀ a, hb + 216 ≤ a → (a < x ∨ x + 8 ≤ a) → (∀ y sy, F y sy → a < y ∨ y + 8 ≤ a) →
        m' a = m a) := by
  obtain ⟨l, hch, hnd, hmemb⟩ := hL i hi27
  have hrng : ∀ y ∈ l, hb < y ∧ y < hb + 4294967296 ∧ hb + 224 ≤ y ∧ (x + 16 ≤ y ∨ y + 16 ≤ x) := by
    intro y hy
    obtain ⟨sy, fy, _⟩ := (hmemb y).1 hy
    have := hF.range y sy fy
    have := hxsep y sy fy
    omega
  have hsep : ∀ y ∈ l, ∀ w ∈ l, y = w ∨ y + 8 ≤ w ∨ w + 8 ≤ y := by
    intro y hy w hw
    obtain ⟨sy, fy, _⟩ := (hmemb y).1 hy
    obtain ⟨sw, fw, _⟩ := (hmemb w).1 hw
    have h1 := hF.range y sy fy
    have h2 := hF.range w sw fw
    have := hF.sep y sy w sw fy fw
    omega
  have hxl : x ∉ l := by
    intro h
    obtain ⟨sy, fy, _⟩ := (hmemb x).1 h
    exact hnew sy fy
  have hhead : GET_PTR m (hb + 8 * i) = 0 ∨ GET_PTR m (hb + 8 * i) ∈ l := by
    cases l with
    | nil => left; exact hch
    | cons y r => right; rw [hch.1]; simp
  generalize hhd : GET_PTR m (hb + 8 * i) = head at *
  have hheadr : head = 0 ∨ (hb < head ∧ head < hb + 4294967296) := by
    rcases hhead with h | h
    · left; exact h
    · right; have := hrng head h; omega
  -- the memory after the two stores into the new node
  have hm2 : ∀ a, (a < x ∨ x + 8 ≤ a) → SET_PRED (SET_SUCC m hb x head) hb x NULL a = m a := by
    intro a ha
    rw [SET_PRED_other_byte _ _ _ _ _ (by omega), SET_SUCC_other_byte _ _ _ _ _ (by omega)]
  have hp2 : GET_PRED (SET_PRED (SET_SUCC m hb x head) hb x NULL) hb x = NULL :=
    GET_PRED_SET_PRED _ _ _ _ (Or.inl rfl)
  have hs2 : GET_SUCC (SET_PRED (SET_SUCC m hb x head) hb x NULL) hb x = head := by
    rw [GET_SUCC_congr (SET_SUCC m hb x head) _]
    · exact GET_SUCC_SET_SUCC _ _ _ _ hheadr
    · apply GET_congr
      intro a h1 h2
      apply SET_PRED_other_byte
      omega
  have ht2 : GET_PTR (SET_PRED (SET_SUCC m hb x head) hb x NULL) (hb + 8 * i) = head := by
    refine Eq.trans (GET_PTR_congr m _ _ ?_) hhd
    intro a h1 h2
    apply hm2
    omega
  rw [ht2] at hmem
  generalize hm2d : SET_PRED (SET_SUCC m hb x head) hb x NULL = m2 at *
  have hc2 : Chain m2 hb NULL head l := by
    apply Chain_frame _ _ _ _ _ _ hch
    intro y hy a h1 h2
    apply hm2
    have := hrng y hy
    omega
  have hc3 := Chain_set_head_pred m2 hb NULL head x l hc2 hnd hsep (Or.inr (by omega))
  have hm3 : ∀ a, (head = 0 ∨ a < head ∨ head + 4 ≤ a) →
      (if head ≠ NULL then SET_PRED m2 hb head x else m2) a = m2 a := by
    intro a ha
    split
    · rename_i hne
      apply SET_PRED_other_byte
      rcases ha with h | h
      · exact absurd h hne
      · exact h
    · rfl
  generalize hm3d : (if head ≠ NULL then SET_PRED m2 hb head x else m2) = m3 at *
  have hheadx : head = 0 ∨ (x + 16 ≤ head ∨ head + 16 ≤ x) := by
    rcases hhead with h | h
    · left; exact h
    · right; exact (hrng head h).2.2.2
  subst hmem
  have hframe : ∀ a, (a < hb + 8 * i ∨ hb + 8 * i + 8 ≤ a) → (a < x ∨ x + 8 ≤ a) →
      (head = 0 ∨ a < head ∨ head + 4 ≤ a) → PUT_PTR m3 (hb + 8 * i) x a = m a := by
    intro a h1 h2 h3
    rw [PUT_PTR_other_byte _ _ _ _ h1, hm3 a h3, hm2 a h2]
  have kchain : Chain (PUT_PTR m3 (hb + 8 * i) x) hb NULL
      (GET_PTR (PUT_PTR m3 (hb + 8 * i) x) (hb + 8 * i)) (x :: l) := by
    refine ⟨GET_PTR_PUT_PTR_same _ _ _ (by omega), by simp only [NULL]; omega, ?_, ?_⟩
    · rw [← hp2]
      apply GET_PRED_congr
      apply GET_congr
      intro a h1 h2
      rw [PUT_PTR_other_byte _ _ _ _ (by omega), hm3 a (by omega)]
    · have e : GET_SUCC (PUT_PTR m3 (hb + 8 * i) x) hb x = head := by
        rw [← hs2]
        apply GET_SUCC_congr
        apply GET_congr
        intro a h1 h2
        rw [PUT_PTR_other_byte _ _ _ _ (by omega), hm3 a (by omega)]
      rw [e]
      apply Chain_frame _ _ _ _ _ _ hc3
      intro y hy a h1 h2
      apply PUT_PTR_other_byte
      have := hrng y hy
      omega
  refine ⟨l, hch, hnd, hmemb, hxl, kchain, ?_, ?_⟩
  · intro j hj hji lj hchj hmembj
    have hdisj : ∀ y ∈ lj, y ∉ l := by
      intro y hy hy'
      exact hji (Lists_class_unique hb F hF j i lj _ hmembj hmemb y hy hy')
    have e : GET_PTR (PUT_PTR m3 (hb + 8 * i) x) (hb + 8 * j) = GET_PTR m (hb + 8 * j) := by
      apply GET_PTR_congr
      intro a h1 h2
      apply hframe a (by omega) (by omega)
      rcases hhead with h | h
      · left; exact h
      · right; have := hrng head h; omega
    refine ⟨?_, e⟩
    rw [e]
    apply Chain_frame _ _ _ _ _ _ hchj
    intro y hy a h1 h2
    obtain ⟨sy, fy, _⟩ := (hmembj y).1 hy
    have hyr := hF.range y sy fy
    have hyx := hxsep y sy fy
    apply hframe a (by omega) (by omega)
    rcases hhead with h | h
    · left; exact h
    · right
      obtain ⟨sw, fw, _⟩ := (hmemb head).1 h
      have hwr := hF.range head sw fw
      have hne : y ≠ head := by
        intro e; subst e; exact hdisj y hy h
      have := hF.sep y sy head sw fy fw
      omega
  · intro a ha1 ha2 ha3
    apply hframe a (by omega) ha2
    rcases hhead with h | h
    · left; exact h
    · right
      obtain ⟨sw, fw, _⟩ := (hmemb head).1 h
      have := ha3 head sw fw
      omega

theorem push_mem_spec (m : Mem) (hb : Nat) (F : Nat → Nat → Prop) (x sz i : Nat) (m' : Mem)
    (htop : hb + 4294967296 ≤ 2 ^ 64)
    (hF : FWf hb F) (hL : Lists m hb F)
    (hnew : ∀ sy, ¬ F x sy)
    (hxr : hb + 224 ≤ x ∧ x + sz ≤ hb + 4294967296 ∧ 16 ≤ sz)
    (hxsep : ∀ y sy, F y sy → x + sz ≤ y ∨ y + sy ≤ x)
    (hi27 : i < 27) (hci : get_free_index sz = (i : Int))
    (hmem : m' =
      PUT_PTR
        (if GET_PTR (SET_PRED (SET_SUCC m hb x (GET_PTR m (hb + 8 * i))) hb x NULL)
            (hb + 8 * i) ≠ NULL then
          SET_PRED (SET_PRED (SET_SUCC m hb x (GET_PTR m (hb + 8 * i))) hb x NULL) hb
            (GET_PTR (SET_PRED (SET_SUCC m hb x (GET_PTR m (hb + 8 * i))) hb x NULL)
              (hb + 8 * i)) x
        else SET_PRED (SET_SUCC m hb x (GET_PTR m (hb + 8 * i))) hb x NULL)
        (hb + 8 * i) x) :
    Lists m' hb (fun y sy => F y sy ∨ (y = x ∧ sy = sz)) ∧
    (∀ a, hb + 216 ≤ a → (a < x ∨ x + 8 ≤ a) → (∀ y sy, F y sy → a < y ∨ y + 8 ≤ a) →
      m' a = m a) := by
  obtain ⟨l, _, hnd, hmemb, hxl, kchain, kother, kfr⟩ :=
    push_mem_seq m hb F x sz i m' htop hF hL hnew hxr hxsep hi27 hci hmem
  refine ⟨?_, kfr⟩
  intro j hj
  by_cases hji : j = i
  · subst hji
    refine ⟨x :: l, kchain, List.nodup_cons.2 ⟨hxl, hnd⟩, ?_⟩
    intro y
    simp only [List.mem_cons]
    constructor
    · rintro (rfl | hy)
      · exact ⟨sz, Or.inr ⟨rfl, rfl⟩, hci⟩
      · obtain ⟨sy, fy, cy⟩ := (hmemb y).1 hy
        exact ⟨sy, Or.inl fy, cy⟩
    · rintro ⟨sy, (fy | ⟨rfl, rfl⟩), cy⟩
      · right; exact (hmemb y).2 ⟨sy, fy, cy⟩
      · left; rfl
  · obtain ⟨lj, hchj, hndj, hmembj⟩ := hL j hj
    refine ⟨lj, (kother j hj hji lj hchj hmembj).1, hndj, ?_⟩
    intro y
    constructor
    · intro hy
      obtain ⟨sy, fy, cy⟩ := (hmembj y).1 hy
      exact ⟨sy, Or.inl fy, cy⟩
    · rintro ⟨sy, (fy | ⟨rfl, rfl⟩), cy⟩
      · exact (hmembj y).2 ⟨sy, fy, cy⟩
      · rw [hci] at cy
        exact absurd (by exact_mod_cast cy) (Ne.symm hji)

theorem push_first_free_spec (s : State) (F : Nat → Nat → Prop) (x sz : Nat) (pa : Bool)
    (hfl : s.free_lists = s.heap_base) (htop : s.heap_base + 4294967296 ≤ 2 ^ 64)
    (hF : FWf s.heap_base F) (hL : Lists s.mem s.heap_base F)
    (hnew : ∀ sy, ¬ F x sy)
    (hxr : s.heap_base + 224 ≤ x ∧ x + sz ≤ s.heap_base + 4294967296 ∧ 16 ≤ sz)
    (hxsep : ∀ y sy, F y sy → x + sz ≤ y ∨ y + sy ≤ x)
    (hh : GET s.mem (x - 4) = hdr sz false pa) (hsz : sz % 8 = 0) :
    Lists (push_first_free s x).mem s.heap_base (fun y sy => F y sy ∨ (y = x ∧ sy = sz)) ∧
    (∀ a, s.heap_base + 216 ≤ a → (a < x ∨ x + 8 ≤ a) →
      (∀ y sy, F y sy → a < y ∨ y + 8 ≤ a) → (push_first_free s x).mem a = s.mem a) := by
  obtain ⟨i, hi27, hci⟩ := get_free_index_nat sz hxr.2.2
  have hx0 : x ≠ 0 := by omega
  have hgs : GET_SIZE s.mem (x - 4) = sz := GET_SIZE_hdr _ _ _ _ _ hh hsz
  have hmem := push_first_free_mem s x i hx0 hfl (by rw [hgs]; exact hci)
  exact push_mem_spec s.mem s.heap_base F x sz i _ htop hF hL hnew hxr hxsep hi27 hci hmem

/-! ## Frame properties of the heap description -/

theorem Lists_congr (m : Mem) (hb : Nat) (F G : Nat → Nat → Prop)
    (h : ∀ x sz, F x sz ↔ G x sz) (hL : Lists m hb F) : Lists m hb G := by
  intro i hi
  obtain ⟨l, h1, h2, h3⟩ := hL i hi
  refine ⟨l, h1, h2, ?_⟩
  intro x
  rw [h3 x]
  constructor
  · rintro ⟨sz, f, c⟩; exact ⟨sz, (h x sz).1 f, c⟩
  · rintro ⟨sz, f, c⟩; exact ⟨sz, (h x sz).2 f, c⟩

theorem Lists_frame (m m' : Mem) (hb : Nat) (F : Nat → Nat → Prop)
    (h1 : ∀ a, a < hb + 216 → m' a = m a)
    (h2 : ∀ y sy, F y sy → ∀ a, y ≤ a → a < y + 8 → m' a = m a)
    (hL : Lists m hb F) : Lists m' hb F := by
  intro i hi
  obtain ⟨l, c1, c2, c3⟩ := hL i hi
  refine ⟨l, ?_, c2, c3⟩
  have e : GET_PTR m' (hb + 8 * i) = GET_PTR m (hb + 8 * i) := by
    apply GET_PTR_congr
    intro a ha1 ha2
    apply h1
    omega
  rw [e]
  apply Chain_frame _ _ _ _ _ _ c1
  intro y hy a ha1 ha2
  obtain ⟨sy, fy, _⟩ := (c3 y).1 hy
  exact h2 y sy fy a ha1 ha2

theorem Seg_links_frame (m m' : Mem) (W : Nat → Prop) (hb p : Nat) (pa : Bool) (bs : List Blk)
    (h : Seg m W p pa bs) (hp : hb + 224 ≤ p) (G : Nat → Nat → Prop)
    (hG : ∀ y sy, G y sy → 16 ≤ sy ∧
      ∀ q sq al, (q, sq, al) ∈ layout p bs → y = q ∨ q + sq ≤ y ∨ y + sy ≤ q)
    (hm : ∀ a, hb + 216 ≤ a → (∀ y sy, G y sy → a < y ∨ y + 8 ≤ a) → m' a = m a) :
    Seg m' W p pa bs := by
  apply Seg_frame m m' W W p pa bs h (fun _ _ _ hw => hw)
  intro q sz al hq
  have hb1 := layout_mem_bounds _ _ _ _ _ hq
  have hs := Seg_mem m W p pa bs h q sz al hq
  constructor
  · intro a h1 h2
    apply hm a (by omega)
    intro y sy gy
    have := hG y sy gy
    have := this.2 q sz al hq
    omega
  · intro _ a h1 h2
    apply hm a (by omega)
    intro y sy gy
    have := hG y sy gy
    have := this.2 q sz al hq
    omega

theorem Heap_tot_le (env : Env) (henv : env.ok) (s : State) (bs : List Blk) (U W : Nat → Prop)
    (h : Heap env s bs U W) : env.lo + 224 + tot bs ≤ env.lo + 4294967296 := by
  have := h.brk
  have := h.le
  have := henv.2.1
  omega

theorem Heap_FWf (env : Env) (henv : env.ok) (s : State) (bs : List Blk) (U W : Nat → Prop)
    (h : Heap env s bs U W) (V : Nat → Prop) :
    FWf env.lo (fun x sz => FreeIn (env.lo + 224) bs x sz ∧ ¬ V x) :=
  FWf_sub _ _ _ (FreeIn_FWf _ _ _ _ h.seg (Heap_tot_le env henv s bs U W h))
    (fun _ _ hx => hx.1)

theorem Heap_links_frame (env : Env) (henv : env.ok) (s s' : State) (bs : List Blk)
    (U U' W : Nat → Prop) (h : Heap env s bs U W)
    (hf1 : s'.heap_base = s.heap_base) (hf2 : s'.free_lists = s.free_lists)
    (hf3 : s'.brk = s.brk)
    (hm : ∀ a, env.lo + 216 ≤ a →
      (∀ y sy, FreeIn (env.lo + 224) bs y sy → a < y ∨ y + 8 ≤ a) → s'.mem a = s.mem a)
    (hl : Lists s'.mem env.lo (fun x sz => FreeIn (env.lo + 224) bs x sz ∧ ¬ U' x)) :
    Heap env s' bs U' W := by
  have hF := FreeIn_FWf _ _ _ _ h.seg (Heap_tot_le env henv s bs U W h)
  refine ⟨by rw [hf1, h.hb], by rw [hf2, h.fl], by rw [hf3, h.brk], by rw [hf3]; exact h.le,
    ?_, ?_, hl⟩
  · apply Seg_links_frame _ _ _ env.lo _ _ _ h.seg (le_refl _) (FreeIn (env.lo + 224) bs) _ hm
    intro y sy gy
    refine ⟨(hF.range y sy gy).2.2, ?_⟩
    intro q sq al hq
    have := layout_sep _ _ _ _ _ h.seg _ _ _ _ _ _ gy hq
    omega
  · rw [hf3, ← h.epi]
    apply GET_congr
    intro a h1 h2
    have hbrk := h.brk
    apply hm a (by omega)
    intro y sy gy
    have := hF.range y sy gy
    have := layout_mem_bounds _ _ _ _ _ gy
    omega

theorem remove_step (env : Env) (henv : env.ok) (s : State) (bs : List Blk)
    (U W : Nat → Prop) (h : Heap env s bs U W) (x sz : Nat)
    (hx : (x, sz, false) ∈ layout (env.lo + 224) bs) (hU : ¬ U x) :
    Heap env (remove_free s x) bs (fun y => U y ∨ y = x) W := by
  have hF := Heap_FWf env henv s bs U W h U
  obtain ⟨_, hsz, pa0, hh, _⟩ := Seg_mem _ _ _ _ _ h.seg _ _ _ hx
  have hl := h.lists
  have hhb := h.hb
  have hsp := remove_free_spec s (fun x sz => FreeIn (env.lo + 224) bs x sz ∧ ¬ U x) x sz pa0
    (by rw [h.fl, h.hb]) (by rw [hhb]; exact henv.2.2) (by rw [hhb]; exact hF)
    (by rw [hhb]; exact hl) ⟨hx, hU⟩ hh hsz
  obtain ⟨f1, f2, f3, _⟩ := remove_free_fields s x
  rw [hhb] at hsp
  apply Heap_links_frame env henv s _ bs U _ W h f1 f2 f3
  · intro a ha1 ha2
    apply hsp.2 a ha1
    intro y sy fy _
    exact ha2 y sy fy.1
  · apply Lists_congr _ _ _ _ _ hsp.1
    intro y sy
    constructor
    · rintro ⟨⟨g1, g2⟩, g3⟩
      exact ⟨g1, fun hc => hc.elim g2 g3⟩
    · rintro ⟨g1, g2⟩
      exact ⟨⟨g1, fun hc => g2 (Or.inl hc)⟩, fun hc => g2 (Or.inr hc)⟩

theorem push_step (env : Env) (henv : env.ok) (s : State) (bs : List Blk)
    (U W : Nat → Prop) (h : Heap env s bs U W) (x sz : Nat)
    (hx : (x, sz, false) ∈ layout (env.lo + 224) bs) (hU : U x) :
    Heap env (push_first_free s x) bs (fun y => U y ∧ y ≠ x) W := by
  have hF0 := FreeIn_FWf _ _ _ _ h.seg (Heap_tot_le env henv s bs U W h)
  have hF := Heap_FWf env henv s bs U W h U
  obtain ⟨_, hsz, pa0, hh, _⟩ := Seg_mem _ _ _ _ _ h.seg _ _ _ hx
  have hl := h.lists
  have hhb := h.hb
  have hsp := push_first_free_spec s (fun x sz => FreeIn (env.lo + 224) bs x sz ∧ ¬ U x) x sz pa0
    (by rw [h.fl, h.hb])
    (by rw [hhb]; exact henv.2.2) (by rw [hhb]; exact hF) (by rw [hhb]; exact hl)
    (fun sy hc => hc.2 hU)
    (by rw [hhb]; exact hF0.range x sz hx)
    (by
      intro y sy fy
      have := hF0.sep x sz y sy hx fy.1
      rcases this with e | e
      · exact absurd (e ▸ hU) fy.2
      · exact e) hh hsz
  obtain ⟨f1, f2, f3, _⟩ := push_first_free_fields s x
  rw [hhb] at hsp
  apply Heap_links_frame env henv s _ bs U _ W h f1 f2 f3
  · intro a ha1 ha2
    apply hsp.2 a ha1 (ha2 x sz hx)
    intro y sy fy
    exact ha2 y sy fy.1
  · apply Lists_congr _ _ _ _ _ hsp.1
    intro y sy
    constructor
    · rintro (⟨g1, g2⟩ | ⟨rfl, rfl⟩)
      · exact ⟨g1, fun hc => g2 hc.1⟩
      · exact ⟨hx, fun hc => hc.2 rfl⟩
    · rintro ⟨g1, g2⟩
      by_cases e : y = x
      · subst e
        right
        exact ⟨rfl, hF0.func y sy sz g1 hx⟩
      · left
        exact ⟨g1, fun hc => g2 ⟨hc, e⟩⟩

theorem FreeIn_append (p : Nat) (l1 l2 : List Blk) (x sz : Nat) :
    FreeIn p (l1 ++ l2) x sz ↔ FreeIn p l1 x sz ∨ FreeIn (p + tot l1) l2 x sz := by
  unfold FreeIn
  rw [layout_append, List.mem_append]

theorem mem_layout_append (p : Nat) (l1 l2 : List Blk) (e : Nat × Nat × Bool) :
    e ∈ layout p (l1 ++ l2) ↔ e ∈ layout p l1 ∨ e ∈ layout (p + tot l1) l2 := by
  rw [layout_append, List.mem_append]

/-- Replacing the run of blocks `Z` in the middle of the heap by a run `Z'` of the same
total size, when memory changes only inside the replaced zone (header of the first
block of `Z` up to and including the header that follows `Z`). -/
theorem Heap_replace (env : Env) (s s' : State) (L Z Z' R : List Blk)
    (U U' W W' : Nat → Prop) (h : Heap env s (L ++ Z ++ R) U W)
    (hf1 : s'.heap_base = s.heap_base) (hf2 : s'.free_lists = s.free_lists)
    (hf3 : s'.brk = s.brk)
    (hm : ∀ a, (a + 4 < env.lo + 224 + tot L ∨ env.lo + 224 + tot L + tot Z ≤ a) →
      s'.mem a = s.mem a)
    (htot : tot Z' = tot Z)
    (hZ : Seg s'.mem W' (env.lo + 224 + tot L) (outAlloc true L) Z')
    (hR : Seg s'.mem W' (env.lo + 224 + tot L + tot Z) (outAlloc (outAlloc true L) Z') R)
    (hepi : GET s'.mem (s.brk - 4) = hdr 0 true (outAlloc (outAlloc (outAlloc true L) Z') R))
    (hUZ : ∀ x sz, FreeIn (env.lo + 224 + tot L) Z x sz → U x)
    (hUZ' : ∀ x sz, FreeIn (env.lo + 224 + tot L) Z' x sz → U' x)
    (hUo : ∀ x, (x < env.lo + 224 + tot L ∨ env.lo + 224 + tot L + tot Z ≤ x) → (U' x ↔ U x))
    (hWo : ∀ x, x < env.lo + 224 + tot L → W x → W' x) :
    Heap env s' (L ++ Z' ++ R) U' W' := by
  have hseg := h.seg
  rw [Seg_append, Seg_append] at hseg
  obtain ⟨⟨hsL, hsZ⟩, hsR⟩ := hseg
  have hLb : ∀ q sz al, (q, sz, al) ∈ layout (env.lo + 224) L →
      env.lo + 224 ≤ q ∧ q + sz ≤ env.lo + 224 + tot L ∧ 16 ≤ sz := by
    intro q sz al hq
    have := layout_mem_bounds _ _ _ _ _ hq
    have := Seg_mem _ _ _ _ _ hsL _ _ _ hq
    omega
  have hRb : ∀ q sz al, (q, sz, al) ∈ layout (env.lo + 224 + tot L + tot Z) R →
      env.lo + 224 + tot L + tot Z ≤ q := by
    intro q sz al hq
    have := layout_mem_bounds _ _ _ _ _ hq
    omega
  refine ⟨by rw [hf1, h.hb], by rw [hf2, h.fl], ?_, by rw [hf3]; exact h.le, ?_, ?_, ?_⟩
  · rw [hf3, h.brk]
    simp only [tot_append]
    omega
  · rw [Seg_append, Seg_append]
    refine ⟨⟨?_, hZ⟩, ?_⟩
    · apply Seg_frame _ _ W W' _ _ _ hsL
      · intro q sz hq hw
        have := hLb q sz false hq
        exact hWo q (by omega) hw
      · intro q sz al hq
        have := hLb q sz al hq
        constructor
        · intro a h1 h2
          apply hm; omega
        · intro _ a h1 h2
          apply hm; omega
    · simp only [tot_append, outAlloc_append, htot]
      rw [← Nat.add_assoc]
      exact hR
  · rw [hf3]
    simp only [outAlloc_append]
    exact hepi
  · have hl := h.lists
    have hl2 : Lists s'.mem env.lo
        (fun x sz => FreeIn (env.lo + 224) (L ++ Z ++ R) x sz ∧ ¬ U x) := by
      apply Lists_frame _ _ _ _ _ _ hl
      · intro a ha
        apply hm; omega
      · rintro y sy ⟨fy, hu⟩ a h1 h2
        rw [FreeIn_append, FreeIn_append] at fy
        rcases fy with (fy | fy) | fy
        · have := hLb y sy false fy
          apply hm; omega
        · exact absurd (hUZ y sy fy) hu
        · simp only [tot_append] at fy
          rw [← Nat.add_assoc] at fy
          have := hRb y sy false fy
          apply hm; omega
    apply Lists_congr _ _ _ _ _ hl2
    intro x sz
    rw [FreeIn_append, FreeIn_append, FreeIn_append, FreeIn_append]
    simp only [tot_append, htot]
    rw [← Nat.add_assoc]
    constructor
    · rintro ⟨(fx | fx) | fx, hu⟩
      · have := hLb x sz false fx
        exact ⟨Or.inl (Or.inl fx), fun hc => hu ((hUo x (by omega)).1 hc)⟩
      · exact absurd (hUZ x sz fx) hu
      · have := hRb x sz false fx
        exact ⟨Or.inr fx, fun hc => hu ((hUo x (by omega)).1 hc)⟩
    · rintro ⟨(fx | fx) | fx, hu⟩
      · have := hLb x sz false fx
        exact ⟨Or.inl (Or.inl fx), fun hc => hu ((hUo x (by omega)).2 hc)⟩
      · exact absurd (hUZ' x sz fx) hu
      · have := hRb x sz false fx
        exact ⟨Or.inr fx, fun hc => hu ((hUo x (by omega)).2 hc)⟩

/-- The run after the zone and the epilogue header, when memory from the header after
the zone onwards is unchanged. -/
theorem Heap_right_unchanged (env : Env) (s s' : State) (L Z R : List Blk)
    (U W : Nat → Prop) (h : Heap env s (L ++ Z ++ R) U W) (W' : Nat → Prop)
    (hm : ∀ a, env.lo + 224 + tot L + tot Z ≤ a + 4 → s'.mem a = s.mem a)
    (hW : ∀ x, env.lo + 224 + tot L + tot Z ≤ x → W x → W' x) :
    Seg s'.mem W' (env.lo + 224 + tot L + tot Z) (outAlloc (outAlloc true L) Z) R ∧
    GET s'.mem (s.brk - 4) = hdr 0 true (outAlloc (outAlloc (outAlloc true L) Z) R) := by
  have hseg := h.seg
  rw [Seg_append, Seg_append] at hseg
  obtain ⟨⟨hsL, hsZ⟩, hsR⟩ := hseg
  simp only [tot_append, outAlloc_append] at hsR
  rw [← Nat.add_assoc] at hsR
  constructor
  · apply Seg_frame _ _ W W' _ _ _ hsR
    · intro q sz hq hw
      have := layout_mem_bounds _ _ _ _ _ hq
      exact hW q (by omega) hw
    · intro q sz al hq
      have := layout_mem_bounds _ _ _ _ _ hq
      have := Seg_mem _ _ _ _ _ hsR _ _ _ hq
      constructor
      · intro a h1 h2
        apply hm; omega
      · intro _ a h1 h2
        apply hm; omega
  · have := h.epi
    simp only [outAlloc_append] at this
    rw [← this]
    apply GET_congr
    intro a h1 h2
    apply hm
    have := h.brk
    simp only [tot_append] at this
    omega

/-! ## Steps on headers and footers -/

theorem put_fields (s : State) (p v : Nat) :
    (put s p v).heap_base = s.heap_base ∧ (put s p v).free_lists = s.free_lists ∧
    (put s p v).brk = s.brk ∧ (put s p v).calls = s.calls ∧ (put s p v).mem = PUT s.mem p v :=
  ⟨rfl, rfl, rfl, rfl, rfl⟩

theorem outAlloc_all_free (pa : Bool) (Z : List Blk) (hne : Z ≠ [])
    (hfree : ∀ b ∈ Z, b.2 = false) : outAlloc pa Z = false := by
  induction Z generalizing pa with
  | nil => exact absurd rfl hne
  | cons b r ih =>
    simp only [outAlloc_cons]
    cases r with
    | nil => simpa using hfree b (by simp)
    | cons c r' => exact ih _ (by simp) (fun x hx => hfree x (by simp [hx]))

theorem tot_pos (m : Mem) (W : Nat → Prop) (p : Nat) (pa : Bool) (Z : List Blk)
    (h : Seg m W p pa Z) (hne : Z ≠ []) : 16 ≤ tot Z := by
  cases Z with
  | nil => exact absurd rfl hne
  | cons b r =>
    have := h.1
    simp only [tot_cons]
    omega

theorem hdr_word (sz : Nat) (al pa : Bool) (h : sz + 4 ≤ 4294967296) :
    hdr sz al pa % 4294967296 = hdr sz al pa := by
  apply Nat.mod_eq_of_lt
  have := hdr_lt sz al pa
  omega

/-- The header that follows block `(sz, al)` located after the run `L`. -/
theorem Heap_next_hdr (env : Env) (s : State) (L : List Blk) (sz : Nat) (al : Bool)
    (R : List Blk) (U W : Nat → Prop) (h : Heap env s (L ++ (sz, al) :: R) U W) :
    GET s.mem (env.lo + 224 + tot L + sz - 4) = nextHdr al R := by
  cases R with
  | nil =>
    have := h.epi
    rw [h.brk] at this
    simp only [tot_append, tot_cons, tot_nil, outAlloc_append, outAlloc_cons, outAlloc_nil,
      Nat.add_zero, ← Nat.add_assoc] at this
    exact this
  | cons b r =>
    have hseg := h.seg
    rw [Seg_append] at hseg
    have := hseg.2.2.2.2.2.2.2.1
    simpa [nextHdr] using this

theorem Heap_mid (env : Env) (s : State) (L : List Blk) (sz : Nat) (al : Bool)
    (R : List Blk) (U W : Nat → Prop) (h : Heap env s (L ++ (sz, al) :: R) U W) :
    16 ≤ sz ∧ sz % 8 = 0 ∧ GET s.mem (env.lo + 224 + tot L - 4) = hdr sz al (outAlloc true L) ∧
    (al = false → ∃ pa', GET s.mem (env.lo + 224 + tot L + sz - 8) = hdr sz false pa' ∧
      (¬ W (env.lo + 224 + tot L) → pa' = outAlloc true L)) := by
  have hseg := h.seg
  rw [Seg_append] at hseg
  obtain ⟨h1, h2, h3, h4, _⟩ := hseg.2
  exact ⟨h1, h2, h3, h4⟩

theorem nextHdr_mod (m : Mem) (W : Nat → Prop) (p : Nat) (pa al : Bool) (R : List Blk)
    (h : Seg m W p pa R) :
    ∃ nsz nal, nextHdr al R = hdr nsz nal al ∧ nsz % 8 = 0 ∧
      (R = [] → nsz = 0 ∧ nal = true) ∧ (∀ b r, R = b :: r → nsz = b.1 ∧ nal = b.2) := by
  cases R with
  | nil => exact ⟨0, true, rfl, by norm_num, fun _ => ⟨rfl, rfl⟩, fun b r e => by simp at e⟩
  | cons b r =>
    refine ⟨b.1, b.2, rfl, h.2.1, fun e => by simp at e, fun b' r' e => ?_⟩
    simp at e
    rw [e.1]
    exact ⟨rfl, rfl⟩

/-- Merging a run `Z` of unchained free blocks into one free block. -/
theorem merge_step (env : Env) (henv : env.ok) (s s' : State) (L Z R : List Blk)
    (U W : Nat → Prop) (h : Heap env s (L ++ Z ++ R) U W) (hne : Z ≠ [])
    (hfree : ∀ b ∈ Z, b.2 = false)
    (hUZ : ∀ x sz, FreeIn (env.lo + 224 + tot L) Z x sz → U x)
    (hf1 : s'.heap_base = s.heap_base) (hf2 : s'.free_lists = s.free_lists)
    (hf3 : s'.brk = s.brk)
    (hmem : s'.mem = PUT (PUT s.mem (env.lo + 224 + tot L - 4)
        (hdr (tot Z) false (outAlloc true L)))
      (env.lo + 224 + tot L + tot Z - 8) (hdr (tot Z) false (outAlloc true L))) :
    Heap env s' (L ++ [(tot Z, false)] ++ R) U
      (fun y => W y ∧ ¬ (env.lo + 224 + tot L ≤ y ∧ y < env.lo + 224 + tot L + tot Z)) := by
  have hseg := h.seg
  rw [Seg_append, Seg_append] at hseg
  obtain ⟨⟨hsL, hsZ⟩, hsR⟩ := hseg
  have hz16 := tot_pos _ _ _ _ _ hsZ hne
  have hz8 := tot_mod _ _ _ _ _ hsZ
  have htl := Heap_tot_le env henv s _ U W h
  simp only [tot_append] at htl
  have hw := hdr_word (tot Z) false (outAlloc true L) (by omega)
  have hout : outAlloc (outAlloc true L) Z = false := outAlloc_all_free _ _ hne hfree
  have hr := Heap_right_unchanged env s s' L Z R U W h
    (fun y => W y ∧ ¬ (env.lo + 224 + tot L ≤ y ∧ y < env.lo + 224 + tot L + tot Z))
    (by
      intro a ha
      rw [hmem, PUT_other_byte _ _ _ _ (by omega), PUT_other_byte _ _ _ _ (by omega)])
    (by
      intro x hx hwx
      exact ⟨hwx, by omega⟩)
  rw [hout] at hr
  apply Heap_replace env s s' L Z [(tot Z, false)] R U U W _ h hf1 hf2 hf3
  · intro a ha
    rw [hmem, PUT_other_byte _ _ _ _ (by omega), PUT_other_byte _ _ _ _ (by omega)]
  · simp
  · refine ⟨hz16, hz8, ?_, ?_, trivial⟩
    · rw [hmem, GET_PUT_other _ _ _ _ (by omega), GET_PUT_same, hw]
    · intro _
      refine ⟨outAlloc true L, ?_, fun _ => rfl⟩
      rw [hmem, GET_PUT_same, hw]
  · simpa using hr.1
  · simpa using hr.2
  · exact hUZ
  · intro x sz hx
    simp only [FreeIn, layout_cons, layout_nil, List.mem_singleton, Prod.mk.injEq] at hx
    cases Z with
    | nil => exact absurd rfl hne
    | cons b r =>
      apply hUZ x b.1
      have hb := hfree b (by simp)
      simp [FreeIn, hx.1, hb]
  · intro x _
    exact Iff.rfl
  · intro x hx hwx
    exact ⟨hwx, by omega⟩

/-! ## Coalescing -/

theorem splitLast_of_alloc (L : List Blk) (h : outAlloc true L = true) : splitLast L = (L, 0) := by
  unfold splitLast
  induction L using List.reverseRecOn with
  | nil => simp
  | append_singleton l b _ =>
    simp only [outAlloc_append, outAlloc_cons, outAlloc_nil] at h
    rw [List.getLast?_append]
    obtain ⟨b1, b2⟩ := b
    simp only at h
    subst h
    simp

theorem splitLast_snoc (L1 : List Blk) (lsz : Nat) :
    splitLast (L1 ++ [(lsz, false)]) = (L1, lsz) := by
  unfold splitLast
  rw [List.getLast?_append]
  simp

theorem splitHead_nil : splitHead [] = (0, []) := rfl
theorem splitHead_alloc (rsz : Nat) (R2 : List Blk) :
    splitHead ((rsz, true) :: R2) = (0, (rsz, true) :: R2) := rfl
theorem splitHead_free (rsz : Nat) (R2 : List Blk) :
    splitHead ((rsz, false) :: R2) = (rsz, R2) := rfl

theorem Heap_finish (env : Env) (s : State) (bs : List Blk) (U W : Nat → Prop)
    (h : Heap env s bs U W) (hU : ∀ x sz, FreeIn (env.lo + 224) bs x sz → ¬ U x)
    (hW : ∀ x sz, FreeIn (env.lo + 224) bs x sz → ¬ W x) : Heap env s bs none_of none_of := by
  refine ⟨h.hb, h.fl, h.brk, h.le, ?_, h.epi, ?_⟩
  · apply Seg_frame _ _ W none_of _ _ _ h.seg
    · intro q sz hq hw
      exact absurd hw (hW q sz hq)
    · intro q sz al _
      exact ⟨fun a _ _ => rfl, fun _ a _ _ => rfl⟩
  · apply Lists_congr _ _ _ _ _ h.lists
    intro x sz
    constructor
    · rintro ⟨f, _⟩; exact ⟨f, fun hc => hc⟩
    · rintro ⟨f, _⟩; exact ⟨f, hU x sz f⟩

theorem SameFields.rfl' (s : State) : SameFields s s := ⟨rfl, rfl, rfl, rfl⟩

theorem SameFields.trans {s1 s2 s3 : State} (h1 : SameFields s1 s2) (h2 : SameFields s2 s3) :
    SameFields s1 s3 :=
  ⟨h2.1.trans h1.1, h2.2.1.trans h1.2.1, h2.2.2.1.trans h1.2.2.1, h2.2.2.2.trans h1.2.2.2⟩

theorem put_same (s : State) (p v : Nat) : SameFields s (put s p v) := ⟨rfl, rfl, rfl, rfl⟩

theorem set_mem_same (s : State) (m : Mem) : SameFields s { s with mem := m } :=
  ⟨rfl, rfl, rfl, rfl⟩

theorem remove_same (s : State) (x : Nat) : SameFields s (remove_free s x) :=
  remove_free_fields s x

theorem push_same (s : State) (x : Nat) : SameFields s (push_first_free s x) :=
  push_first_free_fields s x

theorem coalesce_same (s : State) (bp : Nat) : SameFields s (coalesce s bp).2 := by
  unfold coalesce
  simp only []
  split
  · exact push_same _ _
  · split
    · exact ((remove_same _ _).trans ((put_same _ _ _).trans (put_same _ _ _))).trans
        (push_same _ _)
    · split
      · exact ((remove_same _ _).trans ((put_same _ _ _).trans (put_same _ _ _))).trans
          (push_same _ _)
      · exact ((remove_same _ _).trans ((remove_same _ _).trans
          ((put_same _ _ _).trans (put_same _ _ _)))).trans (push_same _ _)

/-! ## Payload bytes are not written -/

theorem Kept_refl (P : Nat → Prop) (s : State) : Kept P s s := fun _ _ => rfl

theorem Kept.trans_kept {P : Nat → Prop} {s1 s2 s3 : State} (h1 : Kept P s1 s2)
    (h2 : Kept P s2 s3) : Kept P s1 s3 :=
  fun a ha => (h2 a ha).trans (h1 a ha)

theorem Kept.mono {P Q : Nat → Prop} {s1 s2 : State} (h : Kept Q s1 s2)
    (hPQ : ∀ a, P a → Q a) : Kept P s1 s2 :=
  fun a ha => h a (hPQ a ha)

theorem Prot_sep (env : Env) (s : State) (bs : List Blk) (U W : Nat → Prop)
    (h : Heap env s bs U W) (a : Nat) (ha : Prot env bs a) :
    env.lo + 224 ≤ a ∧ ∀ y sy, FreeIn (env.lo + 224) bs y sy → a + 4 < y ∨ y + sy ≤ a := by
  obtain ⟨q, sq, hq, h1, h2⟩ := ha
  have hb := layout_mem_bounds _ _ _ _ _ hq
  refine ⟨by omega, ?_⟩
  intro y sy fy
  rcases layout_sep _ _ _ _ _ h.seg _ _ _ _ _ _ hq fy with ⟨_, _, e⟩ | e | e
  · exact Bool.noConfusion e
  · left
    omega
  · right
    omega

theorem remove_kept (env : Env) (henv : env.ok) (s : State) (bs : List Blk)
    (U W : Nat → Prop) (h : Heap env s bs U W) (x sz : Nat)
    (hx : (x, sz, false) ∈ layout (env.lo + 224) bs) (hU : ¬ U x) :
    Kept (Prot env bs) s (remove_free s x) := by
  have hF := Heap_FWf env henv s bs U W h U
  obtain ⟨_, hsz, pa0, hh, _⟩ := Seg_mem _ _ _ _ _ h.seg _ _ _ hx
  have hl := h.lists
  have hhb := h.hb
  have hsp := remove_free_spec s (fun x sz => FreeIn (env.lo + 224) bs x sz ∧ ¬ U x) x sz pa0
    (by rw [h.fl, h.hb]) (by rw [hhb]; exact henv.2.2) (by rw [hhb]; exact hF)
    (by rw [hhb]; exact hl) ⟨hx, hU⟩ hh hsz
  rw [hhb] at hsp
  intro a ha
  obtain ⟨b1, b2⟩ := Prot_sep env s bs U W h a ha
  apply hsp.2 a (by omega)
  intro y sy fy _
  have := b2 y sy fy.1
  have := (Seg_mem _ _ _ _ _ h.seg _ _ _ fy.1).1
  omega

theorem push_kept (env : Env) (henv : env.ok) (s : State) (bs : List Blk)
    (U W : Nat → Prop) (h : Heap env s bs U W) (x sz : Nat)
    (hx : (x, sz, false) ∈ layout (env.lo + 224) bs) (hU : U x) :
    Kept (Prot env bs) s (push_first_free s x) := by
  have hF0 := FreeIn_FWf _ _ _ _ h.seg (Heap_tot_le env henv s bs U W h)
  have hF := Heap_FWf env henv s bs U W h U
  obtain ⟨_, hsz, pa0, hh, _⟩ := Seg_mem _ _ _ _ _ h.seg _ _ _ hx
  have hl := h.lists
  have hhb := h.hb
  have hsp := push_first_free_spec s (fun x sz => FreeIn (env.lo + 224) bs x sz ∧ ¬ U x) x sz pa0
    (by rw [h.fl, h.hb])
    (by rw [hhb]; exact henv.2.2) (by rw [hhb]; exact hF) (by rw [hhb]; exact hl)
    (fun sy hc => hc.2 hU)
    (by rw [hhb]; exact hF0.range x sz hx)
    (by
      intro y sy fy
      have := hF0.sep x sz y sy hx fy.1
      rcases this with e | e
      · exact absurd (e ▸ hU) fy.2
      · exact e) hh hsz
  rw [hhb] at hsp
  intro a ha
  obtain ⟨b1, b2⟩ := Prot_sep env s bs U W h a ha
  have hxs := b2 x sz hx
  have := (Seg_mem _ _ _ _ _ h.seg _ _ _ hx).1
  apply hsp.2 a (by omega) (by omega)
  intro y sy fy
  have := b2 y sy fy.1
  have := (Seg_mem _ _ _ _ _ h.seg _ _ _ fy.1).1
  omega

theorem alloc_not_mem_free (p : Nat) (Z : List Blk) (hfree : ∀ b ∈ Z, b.2 = false)
    (q sq : Nat) : (q, sq, true) ∉ layout p Z := by
  induction Z generalizing p with
  | nil => simp
  | cons b r ih =>
    simp only [layout_cons, List.mem_cons, Prod.mk.injEq, not_or]
    refine ⟨?_, ih _ (fun x hx => hfree x (by simp [hx]))⟩
    intro hc
    have := hfree b (by simp)
    rw [this] at hc
    simp at hc

theorem Prot_split (env : Env) (L Z R : List Blk) (hZ : ∀ b ∈ Z, b.2 = false) (a : Nat) :
    Prot env (L ++ Z ++ R) a ↔
      ((∃ q sq, (q, sq, true) ∈ layout (env.lo + 224) L ∧ q ≤ a ∧ a + 4 < q + sq) ∨
        ∃ q sq, (q, sq, true) ∈ layout (env.lo + 224 + tot L + tot Z) R ∧ q ≤ a ∧
          a + 4 < q + sq) := by
  unfold Prot
  constructor
  · rintro ⟨q, sq, hq, h1, h2⟩
    rw [mem_layout_append, mem_layout_append] at hq
    rcases hq with (hq | hq) | hq
    · exact Or.inl ⟨q, sq, hq, h1, h2⟩
    · exact absurd hq (alloc_not_mem_free _ _ hZ _ _)
    · right
      refine ⟨q, sq, ?_, h1, h2⟩
      simpa [tot_append, Nat.add_assoc] using hq
  · rintro (⟨q, sq, hq, h1, h2⟩ | ⟨q, sq, hq, h1, h2⟩)
    · exact ⟨q, sq, by rw [mem_layout_append, mem_layout_append]; exact Or.inl (Or.inl hq),
        h1, h2⟩
    · refine ⟨q, sq, ?_, h1, h2⟩
      rw [mem_layout_append]
      right
      simpa [tot_append, Nat.add_assoc] using hq

theorem Prot_zone (env : Env) (L Z Z' R : List Blk) (hZ : ∀ b ∈ Z, b.2 = false)
    (ht : tot Z' = tot Z) (a : Nat) (ha : Prot env (L ++ Z ++ R) a) :
    Prot env (L ++ Z' ++ R) a := by
  rw [Prot_split env L Z R hZ] at ha
  rcases ha with ⟨q, sq, hq, h1, h2⟩ | ⟨q, sq, hq, h1, h2⟩
  · exact ⟨q, sq, by rw [mem_layout_append, mem_layout_append]; exact Or.inl (Or.inl hq),
      h1, h2⟩
  · refine ⟨q, sq, ?_, h1, h2⟩
    rw [mem_layout_append]
    right
    rw [tot_append, ht]
    simpa [Nat.add_assoc] using hq

theorem Prot_outside (env : Env) (L Z R : List Blk) (hZ : ∀ b ∈ Z, b.2 = false) (a : Nat)
    (ha : Prot env (L ++ Z ++ R) a) :
    a + 4 < env.lo + 224 + tot L ∨ env.lo + 224 + tot L + tot Z ≤ a := by
  rw [Prot_split env L Z R hZ] at ha
  rcases ha with ⟨q, sq, hq, h1, h2⟩ | ⟨q, sq, hq, h1, h2⟩
  · have := layout_mem_bounds _ _ _ _ _ hq
    left
    omega
  · have := layout_mem_bounds _ _ _ _ _ hq
    right
    omega

/-- After `push_first_free(x)` the head slot of the class of the size of `x` holds `x`. -/
theorem push_head (env : Env) (henv : env.ok) (s : State) (bs : List Blk)
    (U W : Nat → Prop) (h : Heap env s bs U W) (x sz : Nat)
    (hx : (x, sz, false) ∈ layout (env.lo + 224) bs) (hU : U x) :
    free_list_get (push_first_free s x) (get_free_index sz) = x := by
  have hF0 := FreeIn_FWf _ _ _ _ h.seg (Heap_tot_le env henv s bs U W h)
  have hF := Heap_FWf env henv s bs U W h U
  obtain ⟨h16, hsz8, pa0, hh, _⟩ := Seg_mem _ _ _ _ _ h.seg _ _ _ hx
  have hbd := layout_mem_bounds _ _ _ _ _ hx
  have hlo := henv.1
  obtain ⟨i, hi27, hi⟩ := get_free_index_nat sz h16
  have hx0 : x ≠ 0 := by omega
  have hgs : GET_SIZE s.mem (x - 4) = sz := GET_SIZE_hdr _ _ _ _ _ hh hsz8
  have hmem := push_first_free_mem s x i hx0 (by rw [h.fl, h.hb]) (by rw [hgs]; exact hi)
  rw [h.hb] at hmem
  obtain ⟨l, _, _, _, _, kchain, _⟩ :=
    push_mem_seq s.mem env.lo (fun x sz => FreeIn (env.lo + 224) bs x sz ∧ ¬ U x) x sz i _
      henv.2.2 hF h.lists (fun sy hc => hc.2 hU) (hF0.range x sz hx)
      (by
        intro y sy fy
        have := hF0.sep x sz y sy hx fy.1
        rcases this with e | e
        · exact absurd (e ▸ hU) fy.2
        · exact e) hi27 hi hmem
  have hstep := push_step env henv s bs U W h x sz hx hU
  rw [hi, free_list_get_nat, hstep.fl]
  exact kchain.1

theorem PACK_free (sz : Nat) (pa : Bool) (hsz : sz % 8 = 0) :
    PACK sz 0 (if pa then 2 else 0) = hdr sz false pa := by
  have := PACK_hdr sz false pa hsz
  simpa using this

theorem PACK_free_two (sz : Nat) (hsz : sz % 8 = 0) : PACK sz 0 2 = hdr sz false true := by
  have := PACK_hdr sz false true hsz
  simpa using this

theorem PACK_alloc (sz : Nat) (pa : Bool) (hsz : sz % 8 = 0) :
    PACK sz 1 (if pa then 2 else 0) = hdr sz true pa := by
  have := PACK_hdr sz true pa hsz
  simpa using this

theorem next_not_free (env : Env) (s : State) (L : List Blk) (sz : Nat) (al : Bool)
    (R : List Blk) (U W : Nat → Prop) (h : Heap env s (L ++ (sz, al) :: R) U W)
    (hR : ∀ rsz R2, R ≠ (rsz, false) :: R2) (sx : Nat) :
    ¬ FreeIn (env.lo + 224) (L ++ (sz, al) :: R) (env.lo + 224 + tot L + sz) sx := by
  intro hc
  cases R with
  | nil =>
    have := layout_mem_bounds _ _ _ _ _ hc
    have := Seg_mem _ _ _ _ _ h.seg _ _ _ hc
    simp only [tot_append, tot_cons, tot_nil] at *
    omega
  | cons b r =>
    have hm : (env.lo + 224 + tot L + sz, b.1, b.2) ∈
        layout (env.lo + 224) (L ++ (sz, al) :: b :: r) := by
      have := layout_mem_mid (env.lo + 224) (L ++ [(sz, al)]) r b.1 b.2
      simpa [Nat.add_assoc] using this
    have := layout_sep _ _ _ _ _ h.seg _ _ _ _ _ _ hc hm
    have h1 := Seg_mem _ _ _ _ _ h.seg _ _ _ hc
    have h2 := Seg_mem _ _ _ _ _ h.seg _ _ _ hm
    have : b.2 = false := by
      rcases this with ⟨_, _, e⟩ | e | e
      · exact e.symm
      · omega
      · omega
    exact hR b.1 r (by rw [← this])

/-- Case 1 of `coalesce`: both neighbours allocated. -/
theorem coalesce_case1_head (env : Env) (henv : env.ok) (s : State) (L : List Blk) (sz : Nat)
    (R : List Blk) (U W : Nat → Prop) (h : Heap env s (L ++ (sz, false) :: R) U W)
    (hU : ∀ y, U y ↔ y = env.lo + 224 + tot L)
    (hW : ∀ y, W y → y = env.lo + 224 + tot L + sz)
    (hL : outAlloc true L = true) (hR : ∀ rsz R2, R ≠ (rsz, false) :: R2) :
    coalesce s (env.lo + 224 + tot L) =
      (env.lo + 224 + tot L, push_first_free s (env.lo + 224 + tot L)) ∧
    Heap env (push_first_free s (env.lo + 224 + tot L)) (L ++ (sz, false) :: R)
      none_of none_of ∧
    Kept (Prot env (L ++ (sz, false) :: R)) s (push_first_free s (env.lo + 224 + tot L)) ∧
    free_list_get (push_first_free s (env.lo + 224 + tot L)) (get_free_index sz) =
      env.lo + 224 + tot L := by
  obtain ⟨m1, m2, m3, m4⟩ := Heap_mid env s L sz false R U W h
  have hn := Heap_next_hdr env s L sz false R U W h
  have hseg := h.seg
  rw [Seg_append] at hseg
  obtain ⟨nsz, nal, n1, n2, n3, n4⟩ := nextHdr_mod _ _ _ _ false R hseg.2.2.2.2.2
  rw [n1] at hn
  have hnal : nal = true := by
    cases R with
    | nil => exact (n3 rfl).2
    | cons b r =>
      have := n4 b r rfl
      rw [this.2]
      obtain ⟨b1, b2⟩ := b
      cases b2
      · exact absurd rfl (hR b1 r)
      · rfl
  subst hnal
  have e1 : GET_PRED_ALLOC s.mem (env.lo + 224 + tot L - 4) = 2 := by
    rw [GET_PRED_ALLOC_hdr _ _ _ _ _ m3 m2, hL]; rfl
  have e2 : GET_SIZE s.mem (env.lo + 224 + tot L - 4) = sz := GET_SIZE_hdr _ _ _ _ _ m3 m2
  have e3 : GET_ALLOC s.mem (env.lo + 224 + tot L + sz - 4) = 1 := by
    rw [GET_ALLOC_hdr _ _ _ _ _ hn n2]; rfl
  refine ⟨?_, ?_, push_kept env henv s _ U W h (env.lo + 224 + tot L) sz
    (layout_mem_mid _ _ _ _ _) ((hU _).2 rfl), push_head env henv s _ U W h
    (env.lo + 224 + tot L) sz (layout_mem_mid _ _ _ _ _) ((hU _).2 rfl)⟩
  · unfold coalesce
    simp only [HDRP, NEXT_BLKP, WSIZE, e1, e2, e3]
    simp
  · have hp := push_step env henv s _ U W h (env.lo + 224 + tot L) sz
      (layout_mem_mid _ _ _ _ _) ((hU _).2 rfl)
    apply Heap_finish env _ _ _ _ hp
    · intro x sx _ hc
      exact hc.2 ((hU x).1 hc.1)
    · intro x sx fx hc
      have := hW x hc
      subst this
      exact next_not_free env s L sz false R U W h hR sx fx

/-- Case 1 of `coalesce`, without the chain head. -/
theorem coalesce_case1_kept (env : Env) (henv : env.ok) (s : State) (L : List Blk) (sz : Nat)
    (R : List Blk) (U W : Nat → Prop) (h : Heap env s (L ++ (sz, false) :: R) U W)
    (hU : ∀ y, U y ↔ y = env.lo + 224 + tot L)
    (hW : ∀ y, W y → y = env.lo + 224 + tot L + sz)
    (hL : outAlloc true L = true) (hR : ∀ rsz R2, R ≠ (rsz, false) :: R2) :
    coalesce s (env.lo + 224 + tot L) =
      (env.lo + 224 + tot L, push_first_free s (env.lo + 224 + tot L)) ∧
    Heap env (push_first_free s (env.lo + 224 + tot L)) (L ++ (sz, false) :: R)
      none_of none_of ∧
    Kept (Prot env (L ++ (sz, false) :: R)) s (push_first_free s (env.lo + 224 + tot L)) :=
  ⟨(coalesce_case1_head env henv s L sz R U W h hU hW hL hR).1,
    (coalesce_case1_head env henv s L sz R U W h hU hW hL hR).2.1,
    (coalesce_case1_head env henv s L sz R U W h hU hW hL hR).2.2.1⟩

theorem coalesce_case1 (env : Env) (henv : env.ok) (s : State) (L : List Blk) (sz : Nat)
    (R : List Blk) (U W : Nat → Prop) (h : Heap env s (L ++ (sz, false) :: R) U W)
    (hU : ∀ y, U y ↔ y = env.lo + 224 + tot L)
    (hW : ∀ y, W y → y = env.lo + 224 + tot L + sz)
    (hL : outAlloc true L = true) (hR : ∀ rsz R2, R ≠ (rsz, false) :: R2) :
    coalesce s (env.lo + 224 + tot L) =
      (env.lo + 224 + tot L, push_first_free s (env.lo + 224 + tot L)) ∧
    Heap env (push_first_free s (env.lo + 224 + tot L)) (L ++ (sz, false) :: R)
      none_of none_of :=
  ⟨(coalesce_case1_kept env henv s L sz R U W h hU hW hL hR).1,
    (coalesce_case1_kept env henv s L sz R U W h hU hW hL hR).2.1⟩

/-- Write of a word at `w`, seen from a byte outside the word. -/
theorem put_kept (P : Nat → Prop) (s : State) (w v : Nat)
    (h : ∀ a, P a → a < w ∨ w + 4 ≤ a) : Kept P s (put s w v) := by
  intro a ha
  exact PUT_other_byte _ _ _ _ (by have := h a ha; omega)

/-- Case 2 of `coalesce`: only the next block is free. -/
theorem coalesce_case2_head (env : Env) (henv : env.ok) (s : State) (L : List Blk) (sz rsz : Nat)
    (R2 : List Blk) (U W : Nat → Prop)
    (h : Heap env s (L ++ (sz, false) :: (rsz, false) :: R2) U W)
    (hU : ∀ y, U y ↔ y = env.lo + 224 + tot L)
    (hW : ∀ y, W y → y = env.lo + 224 + tot L + sz)
    (hL : outAlloc true L = true) :
    (coalesce s (env.lo + 224 + tot L)).1 = env.lo + 224 + tot L ∧
    Heap env (coalesce s (env.lo + 224 + tot L)).2 (L ++ (sz + rsz, false) :: R2)
      none_of none_of ∧
    Kept (Prot env (L ++ (sz, false) :: (rsz, false) :: R2)) s
      (coalesce s (env.lo + 224 + tot L)).2 ∧
    free_list_get (coalesce s (env.lo + 224 + tot L)).2 (get_free_index (sz + rsz)) =
      env.lo + 224 + tot L := by
  obtain ⟨m1, m2, m3, m4⟩ := Heap_mid env s L sz false _ U W h
  have hn := Heap_next_hdr env s L sz false _ U W h
  have hseg := h.seg
  rw [Seg_append] at hseg
  have hsR := hseg.2.2.2.2.2
  obtain ⟨r1, r2, r3, r4, r5⟩ := hsR
  simp only at r1 r2
  simp only [nextHdr] at hn
  have htl := Heap_tot_le env henv s _ U W h
  simp only [tot_append, tot_cons] at htl
  have e1 : GET_PRED_ALLOC s.mem (env.lo + 224 + tot L - 4) = 2 := by
    rw [GET_PRED_ALLOC_hdr _ _ _ _ _ m3 m2, hL]; rfl
  have e2 : GET_SIZE s.mem (env.lo + 224 + tot L - 4) = sz := GET_SIZE_hdr _ _ _ _ _ m3 m2
  have e3 : GET_ALLOC s.mem (env.lo + 224 + tot L + sz - 4) = 0 := by
    rw [GET_ALLOC_hdr _ _ _ _ _ hn r2]; rfl
  have e4 : GET_SIZE s.mem (env.lo + 224 + tot L + sz - 4) = rsz := GET_SIZE_hdr _ _ _ _ _ hn r2
  have hmemn : (env.lo + 224 + tot L + sz, rsz, false) ∈
      layout (env.lo + 224) (L ++ (sz, false) :: (rsz, false) :: R2) := by
    have := layout_mem_mid (env.lo + 224) (L ++ [(sz, false)]) R2 rsz false
    simpa [Nat.add_assoc] using this
  have h1 := remove_step env henv s _ U W h _ rsz hmemn (by rw [hU]; omega)
  have hw := PACK_free_two (sz + rsz) (by omega)
  have hww := hdr_word (sz + rsz) false true (by omega)
  have e5 : ∀ m : Mem, GET_SIZE (PUT m (env.lo + 224 + tot L - 4) (hdr (sz + rsz) false true))
      (env.lo + 224 + tot L - 4) = sz + rsz := by
    intro m
    apply GET_SIZE_hdr _ _ _ false true _ (by omega)
    rw [GET_PUT_same, hww]
  have hcode : coalesce s (env.lo + 224 + tot L) = (env.lo + 224 + tot L,
      push_first_free (put (put (remove_free s (env.lo + 224 + tot L + sz))
        (env.lo + 224 + tot L - 4) (hdr (sz + rsz) false true))
        (env.lo + 224 + tot L + (sz + rsz) - 8) (hdr (sz + rsz) false true))
        (env.lo + 224 + tot L)) := by
    unfold coalesce
    simp only [HDRP, NEXT_BLKP, FTRP, WSIZE, DSIZE, e1, e2, e3, e4, hw, put, e5]
    simp
  rw [hcode]
  have k1 := remove_kept env henv s _ U W h _ rsz hmemn (by rw [hU]; omega)
  have hout : ∀ a, Prot env (L ++ (sz, false) :: (rsz, false) :: R2) a →
      a + 4 < env.lo + 224 + tot L ∨ env.lo + 224 + tot L + (sz + rsz) ≤ a := by
    intro a ha
    have := Prot_outside env L [(sz, false), (rsz, false)] R2 (by simp) a (by simpa using ha)
    simpa [tot_cons, tot_nil] using this
  have hzone : ∀ a, Prot env (L ++ (sz, false) :: (rsz, false) :: R2) a →
      Prot env (L ++ [(sz + rsz, false)] ++ R2) a := by
    intro a ha
    exact Prot_zone env L [(sz, false), (rsz, false)] [(sz + rsz, false)] R2 (by simp)
      (by simp [tot_cons, tot_nil]) a (by simpa using ha)
  refine ⟨rfl, ?_⟩
  generalize remove_free s (env.lo + 224 + tot L + sz) = s1 at h1 k1
  have h1' : Heap env s1 (L ++ [(sz, false), (rsz, false)] ++ R2)
      (fun y => U y ∨ y = env.lo + 224 + tot L + sz) W := by
    simpa using h1
  have h3 := merge_step env henv s1 (put (put s1
        (env.lo + 224 + tot L - 4) (hdr (sz + rsz) false true))
        (env.lo + 224 + tot L + (sz + rsz) - 8) (hdr (sz + rsz) false true))
      L [(sz, false), (rsz, false)] R2 _ W h1' (by simp) (by simp)
      (by
        intro x sx hx
        simp only [FreeIn, layout_cons, layout_nil, List.mem_cons, Prod.mk.injEq,
          List.mem_nil_iff, or_false] at hx
        rcases hx with hx | hx
        · left; rw [hU]; exact hx.1
        · right; exact hx.1) rfl rfl rfl
      (by simp [put, hL])
  simp only [tot_cons, tot_nil, Nat.add_zero] at h3
  have h4 := push_step env henv _ _ _ _ h3 (env.lo + 224 + tot L) (sz + rsz)
    (by
      have := layout_mem_mid (env.lo + 224) L R2 (sz + rsz) false
      simpa using this) (Or.inl ((hU _).2 rfl))
  have h5 := Heap_finish env _ _ _ _ h4 (by
      rintro x sx fx ⟨hc1, hc2⟩
      rcases hc1 with hc1 | hc1
      · exact hc2 ((hU x).1 hc1)
      · subst hc1
        have hm := layout_mem_mid (env.lo + 224) L R2 (sz + rsz) false
        have := layout_sep _ _ _ _ _ h3.seg _ _ _ _ _ _ fx (by simpa using hm)
        omega) (by
      rintro x sx fx ⟨hc1, hc2⟩
      have := hW x hc1
      omega)
  refine ⟨by simpa using h5, ?_⟩
  have k2 := put_kept (Prot env (L ++ (sz, false) :: (rsz, false) :: R2)) s1
    (env.lo + 224 + tot L - 4) (hdr (sz + rsz) false true)
    (fun a ha => by have := hout a ha; omega)
  have k3 := put_kept (Prot env (L ++ (sz, false) :: (rsz, false) :: R2))
    (put s1 (env.lo + 224 + tot L - 4) (hdr (sz + rsz) false true))
    (env.lo + 224 + tot L + (sz + rsz) - 8) (hdr (sz + rsz) false true)
    (fun a ha => by have := hout a ha; omega)
  have k4 := (push_kept env henv _ _ _ _ h3 (env.lo + 224 + tot L) (sz + rsz)
    (by
      have := layout_mem_mid (env.lo + 224) L R2 (sz + rsz) false
      simpa using this) (Or.inl ((hU _).2 rfl))).mono hzone
  exact ⟨((k1.trans_kept k2).trans_kept k3).trans_kept k4,
    push_head env henv _ _ _ _ h3 (env.lo + 224 + tot L) (sz + rsz)
      (by
        have := layout_mem_mid (env.lo + 224) L R2 (sz + rsz) false
        simpa using this) (Or.inl ((hU _).2 rfl))⟩

/-- Case 2 of `coalesce`, without the chain head. -/
theorem coalesce_case2_kept (env : Env) (henv : env.ok) (s : State) (L : List Blk) (sz rsz : Nat)
    (R2 : List Blk) (U W : Nat → Prop)
    (h : Heap env s (L ++ (sz, false) :: (rsz, false) :: R2) U W)
    (hU : ∀ y, U y ↔ y = env.lo + 224 + tot L)
    (hW : ∀ y, W y → y = env.lo + 224 + tot L + sz)
    (hL : outAlloc true L = true) :
    (coalesce s (env.lo + 224 + tot L)).1 = env.lo + 224 + tot L ∧
    Heap env (coalesce s (env.lo + 224 + tot L)).2 (L ++ (sz + rsz, false) :: R2)
      none_of none_of ∧
    Kept (Prot env (L ++ (sz, false) :: (rsz, false) :: R2)) s
      (coalesce s (env.lo + 224 + tot L)).2 :=
  ⟨(coalesce_case2_head env henv s L sz rsz R2 U W h hU hW hL).1,
    (coalesce_case2_head env henv s L sz rsz R2 U W h hU hW hL).2.1,
    (coalesce_case2_head env henv s L sz rsz R2 U W h hU hW hL).2.2.1⟩

theorem coalesce_case2 (env : Env) (henv : env.ok) (s : State) (L : List Blk) (sz rsz : Nat)
    (R2 : List Blk) (U W : Nat → Prop)
    (h : Heap env s (L ++ (sz, false) :: (rsz, false) :: R2) U W)
    (hU : ∀ y, U y ↔ y = env.lo + 224 + tot L)
    (hW : ∀ y, W y → y = env.lo + 224 + tot L + sz)
    (hL : outAlloc true L = true) :
    (coalesce s (env.lo + 224 + tot L)).1 = env.lo + 224 + tot L ∧
    Heap env (coalesce s (env.lo + 224 + tot L)).2 (L ++ (sz + rsz, false) :: R2)
      none_of none_of :=
  ⟨(coalesce_case2_kept env henv s L sz rsz R2 U W h hU hW hL).1,
    (coalesce_case2_kept env henv s L sz rsz R2 U W h hU hW hL).2.1⟩

/-- Case 3 of `coalesce`: only the previous block is free. -/
theorem coalesce_case3_head (env : Env) (henv : env.ok) (s : State) (L1 : List Blk) (lsz sz : Nat)
    (R : List Blk) (U W : Nat → Prop)
    (h : Heap env s (L1 ++ (lsz, false) :: (sz, false) :: R) U W)
    (hU : ∀ y, U y ↔ y = env.lo + 224 + tot L1 + lsz)
    (hW : ∀ y, W y → y = env.lo + 224 + tot L1 + lsz + sz)
    (hR : ∀ rsz R2, R ≠ (rsz, false) :: R2) :
    (coalesce s (env.lo + 224 + tot L1 + lsz)).1 = env.lo + 224 + tot L1 ∧
    Heap env (coalesce s (env.lo + 224 + tot L1 + lsz)).2 (L1 ++ (lsz + sz, false) :: R)
      none_of none_of ∧
    Kept (Prot env (L1 ++ (lsz, false) :: (sz, false) :: R)) s
      (coalesce s (env.lo + 224 + tot L1 + lsz)).2 ∧
    free_list_get (coalesce s (env.lo + 224 + tot L1 + lsz)).2 (get_free_index (lsz + sz)) =
      env.lo + 224 + tot L1 := by
  have hA : Heap env s ((L1 ++ [(lsz, false)]) ++ (sz, false) :: R) U W := by simpa using h
  obtain ⟨m1, m2, m3, m4⟩ := Heap_mid env s _ sz false R U W hA
  have hn := Heap_next_hdr env s _ sz false R U W hA
  simp only [tot_append, tot_cons, tot_nil, Nat.add_zero, outAlloc_append, outAlloc_cons,
    outAlloc_nil, ← Nat.add_assoc] at m3 hn
  obtain ⟨p1, p2, p3, p4⟩ := Heap_mid env s L1 lsz false _ U W h
  obtain ⟨pa', p5, _⟩ := p4 rfl
  have hseg := hA.seg
  rw [Seg_append] at hseg
  obtain ⟨nsz, nal, n1, n2, n3, n4⟩ := nextHdr_mod _ _ _ _ false R hseg.2.2.2.2.2
  rw [n1] at hn
  have hnal : nal = true := by
    cases R with
    | nil => exact (n3 rfl).2
    | cons b r =>
      have := n4 b r rfl
      rw [this.2]
      obtain ⟨b1, b2⟩ := b
      cases b2
      · exact absurd rfl (hR b1 r)
      · rfl
  subst hnal
  have htl := Heap_tot_le env henv s _ U W h
  simp only [tot_append, tot_cons] at htl
  have e1 : GET_PRED_ALLOC s.mem (env.lo + 224 + tot L1 + lsz - 4) = 0 := by
    rw [GET_PRED_ALLOC_hdr _ _ _ _ _ m3 m2]; rfl
  have e2 : GET_SIZE s.mem (env.lo + 224 + tot L1 + lsz - 4) = sz := GET_SIZE_hdr _ _ _ _ _ m3 m2
  have e3 : GET_ALLOC s.mem (env.lo + 224 + tot L1 + lsz + sz - 4) = 1 := by
    rw [GET_ALLOC_hdr _ _ _ _ _ hn n2]; rfl
  have e4 : GET_SIZE s.mem (env.lo + 224 + tot L1 + lsz - 8) = lsz := GET_SIZE_hdr _ _ _ _ _ p5 p2
  have e5 : GET_SIZE s.mem (env.lo + 224 + tot L1 - 4) = lsz := GET_SIZE_hdr _ _ _ _ _ p3 p2
  have hmemp : (env.lo + 224 + tot L1, lsz, false) ∈
      layout (env.lo + 224) (L1 ++ (lsz, false) :: (sz, false) :: R) := layout_mem_mid _ _ _ _ _
  have h1 := remove_step env henv s _ U W h _ lsz hmemp (by rw [hU]; omega)
  obtain ⟨_, _, q3, _⟩ := Heap_mid env _ L1 lsz false _ _ W h1
  have e6 : GET_PRED_ALLOC (remove_free s (env.lo + 224 + tot L1)).mem (env.lo + 224 + tot L1 - 4)
      = if outAlloc true L1 then 2 else 0 := GET_PRED_ALLOC_hdr _ _ _ _ _ q3 p2
  have hw := PACK_free (sz + lsz) (outAlloc true L1) (by omega)
  have hww := hdr_word (sz + lsz) false (outAlloc true L1) (by omega)
  have e7 : ∀ m : Mem, GET (PUT m (env.lo + 224 + tot L1 - 4) (hdr (sz + lsz) false (outAlloc true L1)))
      (env.lo + 224 + tot L1 - 4) = hdr (sz + lsz) false (outAlloc true L1) := by
    intro m
    rw [GET_PUT_same, hww]
  have e8 : ∀ m : Mem, GET_SIZE (PUT m (env.lo + 224 + tot L1 - 4)
      (hdr (sz + lsz) false (outAlloc true L1))) (env.lo + 224 + tot L1 - 4) = sz + lsz :=
    fun m => GET_SIZE_hdr _ _ _ _ _ (e7 m) (by omega)
  have e9 : ∀ m : Mem, GET_PRED_ALLOC (PUT m (env.lo + 224 + tot L1 - 4)
      (hdr (sz + lsz) false (outAlloc true L1))) (env.lo + 224 + tot L1 - 4)
      = if outAlloc true L1 then 2 else 0 :=
    fun m => GET_PRED_ALLOC_hdr _ _ _ _ _ (e7 m) (by omega)
  have hcode : coalesce s (env.lo + 224 + tot L1 + lsz) = (env.lo + 224 + tot L1,
      push_first_free (put (put (remove_free s (env.lo + 224 + tot L1))
        (env.lo + 224 + tot L1 - 4) (hdr (sz + lsz) false (outAlloc true L1)))
        (env.lo + 224 + tot L1 + (sz + lsz) - 8) (hdr (sz + lsz) false (outAlloc true L1)))
        (env.lo + 224 + tot L1)) := by
    unfold coalesce
    simp only [HDRP, NEXT_BLKP, PREV_BLKP, FTRP, WSIZE, DSIZE, e1, e2, e3, e4,
      Nat.add_sub_cancel, e5, put, e6, hw, e8, e9]
    simp
  rw [hcode]
  have k1 := remove_kept env henv s _ U W h _ lsz hmemp (by rw [hU]; omega)
  have hout : ∀ a, Prot env (L1 ++ (lsz, false) :: (sz, false) :: R) a →
      a + 4 < env.lo + 224 + tot L1 ∨ env.lo + 224 + tot L1 + (lsz + sz) ≤ a := by
    intro a ha
    have := Prot_outside env L1 [(lsz, false), (sz, false)] R (by simp) a (by simpa using ha)
    simpa [tot_cons, tot_nil] using this
  have hzone : ∀ a, Prot env (L1 ++ (lsz, false) :: (sz, false) :: R) a →
      Prot env (L1 ++ [(lsz + sz, false)] ++ R) a := by
    intro a ha
    exact Prot_zone env L1 [(lsz, false), (sz, false)] [(lsz + sz, false)] R (by simp)
      (by simp [tot_cons, tot_nil]) a (by simpa using ha)
  refine ⟨rfl, ?_⟩
  generalize remove_free s (env.lo + 224 + tot L1) = s1 at h1 k1
  have h1' : Heap env s1 (L1 ++ [(lsz, false), (sz, false)] ++ R)
      (fun y => U y ∨ y = env.lo + 224 + tot L1) W := by
    simpa using h1
  have h3 := merge_step env henv s1 (put (put s1
        (env.lo + 224 + tot L1 - 4) (hdr (sz + lsz) false (outAlloc true L1)))
        (env.lo + 224 + tot L1 + (sz + lsz) - 8) (hdr (sz + lsz) false (outAlloc true L1)))
      L1 [(lsz, false), (sz, false)] R _ W h1' (by simp) (by simp)
      (by
        intro x sx hx
        simp only [FreeIn, layout_cons, layout_nil, List.mem_cons, Prod.mk.injEq,
          List.mem_nil_iff, or_false] at hx
        rcases hx with hx | hx
        · right; exact hx.1
        · left; rw [hU]; exact hx.1) rfl rfl rfl
      (by simp [put, Nat.add_comm])
  simp only [tot_cons, tot_nil, Nat.add_zero] at h3
  have h4 := push_step env henv _ _ _ _ h3 (env.lo + 224 + tot L1) (lsz + sz)
    (by
      have := layout_mem_mid (env.lo + 224) L1 R (lsz + sz) false
      simpa using this) (Or.inr rfl)
  have h5 := Heap_finish env _ _ _ _ h4 (by
      rintro x sx fx ⟨hc1, hc2⟩
      rcases hc1 with hc1 | hc1
      · have := (hU x).1 hc1
        subst this
        have hm := layout_mem_mid (env.lo + 224) L1 R (lsz + sz) false
        have := layout_sep _ _ _ _ _ h3.seg _ _ _ _ _ _ fx (by simpa using hm)
        omega
      · exact hc2 hc1) (by
      rintro x sx fx ⟨hc1, hc2⟩
      have := hW x hc1
      subst this
      have h3' := h3
      simp only [List.append_assoc, List.cons_append, List.nil_append] at h3'
      apply next_not_free env _ L1 (lsz + sz) false R _ _ h3' hR sx
      simpa [Nat.add_assoc] using fx)
  refine ⟨by simpa using h5, ?_⟩
  have k2 := put_kept (Prot env (L1 ++ (lsz, false) :: (sz, false) :: R)) s1
    (env.lo + 224 + tot L1 - 4) (hdr (sz + lsz) false (outAlloc true L1))
    (fun a ha => by have := hout a ha; omega)
  have k3 := put_kept (Prot env (L1 ++ (lsz, false) :: (sz, false) :: R))
    (put s1 (env.lo + 224 + tot L1 - 4) (hdr (sz + lsz) false (outAlloc true L1)))
    (env.lo + 224 + tot L1 + (sz + lsz) - 8) (hdr (sz + lsz) false (outAlloc true L1))
    (fun a ha => by have := hout a ha; omega)
  have k4 := (push_kept env henv _ _ _ _ h3 (env.lo + 224 + tot L1) (lsz + sz)
    (by
      have := layout_mem_mid (env.lo + 224) L1 R (lsz + sz) false
      simpa using this) (Or.inr rfl)).mono hzone
  exact ⟨((k1.trans_kept k2).trans_kept k3).trans_kept k4,
    push_head env henv _ _ _ _ h3 (env.lo + 224 + tot L1) (lsz + sz)
      (by
        have := layout_mem_mid (env.lo + 224) L1 R (lsz + sz) false
        simpa using this) (Or.inr rfl)⟩

/-- Case 3 of `coalesce`, without the chain head. -/
theorem coalesce_case3_kept (env : Env) (henv : env.ok) (s : State) (L1 : List Blk) (lsz sz : Nat)
    (R : List Blk) (U W : Nat → Prop)
    (h : Heap env s (L1 ++ (lsz, false) :: (sz, false) :: R) U W)
    (hU : ∀ y, U y ↔ y = env.lo + 224 + tot L1 + lsz)
    (hW : ∀ y, W y → y = env.lo + 224 + tot L1 + lsz + sz)
    (hR : ∀ rsz R2, R ≠ (rsz, false) :: R2) :
    (coalesce s (env.lo + 224 + tot L1 + lsz)).1 = env.lo + 224 + tot L1 ∧
    Heap env (coalesce s (env.lo + 224 + tot L1 + lsz)).2 (L1 ++ (lsz + sz, false) :: R)
      none_of none_of ∧
    Kept (Prot env (L1 ++ (lsz, false) :: (sz, false) :: R)) s
      (coalesce s (env.lo + 224 + tot L1 + lsz)).2 :=
  ⟨(coalesce_case3_head env henv s L1 lsz sz R U W h hU hW hR).1,
    (coalesce_case3_head env henv s L1 lsz sz R U W h hU hW hR).2.1,
    (coalesce_case3_head env henv s L1 lsz sz R U W h hU hW hR).2.2.1⟩

theorem coalesce_case3 (env : Env) (henv : env.ok) (s : State) (L1 : List Blk) (lsz sz : Nat)
    (R : List Blk) (U W : Nat → Prop)
    (h : Heap env s (L1 ++ (lsz, false) :: (sz, false) :: R) U W)
    (hU : ∀ y, U y ↔ y = env.lo + 224 + tot L1 + lsz)
    (hW : ∀ y, W y → y = env.lo + 224 + tot L1 + lsz + sz)
    (hR : ∀ rsz R2, R ≠ (rsz, false) :: R2) :
    (coalesce s (env.lo + 224 + tot L1 + lsz)).1 = env.lo + 224 + tot L1 ∧
    Heap env (coalesce s (env.lo + 224 + tot L1 + lsz)).2 (L1 ++ (lsz + sz, false) :: R)
      none_of none_of :=
  ⟨(coalesce_case3_kept env henv s L1 lsz sz R U W h hU hW hR).1,
    (coalesce_case3_kept env henv s L1 lsz sz R U W h hU hW hR).2.1⟩

/-- Case 4 of `coalesce`: both neighbours are free. -/
theorem coalesce_case4_head (env : Env) (henv : env.ok) (s : State) (L1 : List Blk)
    (lsz sz rsz : Nat) (R2 : List Blk) (U W : Nat → Prop)
    (h : Heap env s (L1 ++ (lsz, false) :: (sz, false) :: (rsz, false) :: R2) U W)
    (hU : ∀ y, U y ↔ y = env.lo + 224 + tot L1 + lsz)
    (hW : ∀ y, W y → y = env.lo + 224 + tot L1 + lsz + sz) :
    (coalesce s (env.lo + 224 + tot L1 + lsz)).1 = env.lo + 224 + tot L1 ∧
    Heap env (coalesce s (env.lo + 224 + tot L1 + lsz)).2
      (L1 ++ (lsz + sz + rsz, false) :: R2) none_of none_of ∧
    Kept (Prot env (L1 ++ (lsz, false) :: (sz, false) :: (rsz, false) :: R2)) s
      (coalesce s (env.lo + 224 + tot L1 + lsz)).2 ∧
    free_list_get (coalesce s (env.lo + 224 + tot L1 + lsz)).2
      (get_free_index (lsz + sz + rsz)) = env.lo + 224 + tot L1 := by
  have hA : Heap env s ((L1 ++ [(lsz, false)]) ++ (sz, false) :: (rsz, false) :: R2) U W := by
    simpa using h
  obtain ⟨m1, m2, m3, m4⟩ := Heap_mid env s _ sz false _ U W hA
  have hn := Heap_next_hdr env s _ sz false _ U W hA
  simp only [tot_append, tot_cons, tot_nil, Nat.add_zero, outAlloc_append, outAlloc_cons,
    outAlloc_nil, ← Nat.add_assoc, nextHdr] at m3 hn
  obtain ⟨p1, p2, p3, p4⟩ := Heap_mid env s L1 lsz false _ U W h
  obtain ⟨pa', p5, _⟩ := p4 rfl
  have hseg := hA.seg
  rw [Seg_append] at hseg
  obtain ⟨r1, r2, _⟩ := hseg.2.2.2.2.2
  simp only at r1 r2
  have htl := Heap_tot_le env henv s _ U W h
  simp only [tot_append, tot_cons] at htl
  have e1 : GET_PRED_ALLOC s.mem (env.lo + 224 + tot L1 + lsz - 4) = 0 := by
    rw [GET_PRED_ALLOC_hdr _ _ _ _ _ m3 m2]; rfl
  have e2 : GET_SIZE s.mem (env.lo + 224 + tot L1 + lsz - 4) = sz := GET_SIZE_hdr _ _ _ _ _ m3 m2
  have e3 : GET_ALLOC s.mem (env.lo + 224 + tot L1 + lsz + sz - 4) = 0 := by
    rw [GET_ALLOC_hdr _ _ _ _ _ hn r2]; rfl
  have e3' : GET_SIZE s.mem (env.lo + 224 + tot L1 + lsz + sz - 4) = rsz :=
    GET_SIZE_hdr _ _ _ _ _ hn r2
  have e4 : GET_SIZE s.mem (env.lo + 224 + tot L1 + lsz - 8) = lsz := GET_SIZE_hdr _ _ _ _ _ p5 p2
  have e5 : GET_SIZE s.mem (env.lo + 224 + tot L1 - 4) = lsz := GET_SIZE_hdr _ _ _ _ _ p3 p2
  have hmemp : (env.lo + 224 + tot L1, lsz, false) ∈
      layout (env.lo + 224) (L1 ++ (lsz, false) :: (sz, false) :: (rsz, false) :: R2) :=
    layout_mem_mid _ _ _ _ _
  have hmemn : (env.lo + 224 + tot L1 + lsz + sz, rsz, false) ∈
      layout (env.lo + 224) (L1 ++ (lsz, false) :: (sz, false) :: (rsz, false) :: R2) := by
    have := layout_mem_mid (env.lo + 224) (L1 ++ [(lsz, false), (sz, false)]) R2 rsz false
    simpa [Nat.add_assoc] using this
  have h1 := remove_step env henv s _ U W h _ lsz hmemp (by rw [hU]; omega)
  have h2 := remove_step env henv _ _ _ W h1 _ rsz hmemn (by
    rintro (hc | hc)
    · rw [hU] at hc; omega
    · omega)
  obtain ⟨_, _, q3, _⟩ := Heap_mid env _ L1 lsz false _ _ W h2
  have e6 : GET_PRED_ALLOC (remove_free (remove_free s (env.lo + 224 + tot L1))
      (env.lo + 224 + tot L1 + lsz + sz)).mem (env.lo + 224 + tot L1 - 4)
      = if outAlloc true L1 then 2 else 0 := GET_PRED_ALLOC_hdr _ _ _ _ _ q3 p2
  have hw := PACK_free (sz + lsz + rsz) (outAlloc true L1) (by omega)
  have hww := hdr_word (sz + lsz + rsz) false (outAlloc true L1) (by omega)
  have e7 : ∀ m : Mem, GET (PUT m (env.lo + 224 + tot L1 - 4)
      (hdr (sz + lsz + rsz) false (outAlloc true L1)))
      (env.lo + 224 + tot L1 - 4) = hdr (sz + lsz + rsz) false (outAlloc true L1) := by
    intro m
    rw [GET_PUT_same, hww]
  have e8 : ∀ m : Mem, GET_SIZE (PUT m (env.lo + 224 + tot L1 - 4)
      (hdr (sz + lsz + rsz) false (outAlloc true L1))) (env.lo + 224 + tot L1 - 4)
      = sz + lsz + rsz :=
    fun m => GET_SIZE_hdr _ _ _ _ _ (e7 m) (by omega)
  have e9 : ∀ m : Mem, GET_PRED_ALLOC (PUT m (env.lo + 224 + tot L1 - 4)
      (hdr (sz + lsz + rsz) false (outAlloc true L1))) (env.lo + 224 + tot L1 - 4)
      = if outAlloc true L1 then 2 else 0 :=
    fun m => GET_PRED_ALLOC_hdr _ _ _ _ _ (e7 m) (by omega)
  have hcode : coalesce s (env.lo + 224 + tot L1 + lsz) = (env.lo + 224 + tot L1,
      push_first_free (put (put (remove_free (remove_free s (env.lo + 224 + tot L1))
          (env.lo + 224 + tot L1 + lsz + sz))
        (env.lo + 224 + tot L1 - 4) (hdr (sz + lsz + rsz) false (outAlloc true L1)))
        (env.lo + 224 + tot L1 + (sz + lsz + rsz) - 8)
        (hdr (sz + lsz + rsz) false (outAlloc true L1)))
        (env.lo + 224 + tot L1)) := by
    unfold coalesce
    simp only [HDRP, NEXT_BLKP, PREV_BLKP, FTRP, WSIZE, DSIZE, e1, e2, e3, e3', e4,
      Nat.add_sub_cancel, e5, put, e6, hw, e8, e9]
    simp
  rw [hcode]
  have k1 := remove_kept env henv s _ U W h _ lsz hmemp (by rw [hU]; omega)
  have k1' := remove_kept env henv _ _ _ W h1 _ rsz hmemn (by
    rintro (hc | hc)
    · rw [hU] at hc; omega
    · omega)
  have k12 := k1.trans_kept k1'
  have hout : ∀ a, Prot env (L1 ++ (lsz, false) :: (sz, false) :: (rsz, false) :: R2) a →
      a + 4 < env.lo + 224 + tot L1 ∨ env.lo + 224 + tot L1 + (lsz + sz + rsz) ≤ a := by
    intro a ha
    have := Prot_outside env L1 [(lsz, false), (sz, false), (rsz, false)] R2 (by simp) a
      (by simpa using ha)
    simp only [tot_cons, tot_nil] at this
    omega
  have hzone : ∀ a, Prot env (L1 ++ (lsz, false) :: (sz, false) :: (rsz, false) :: R2) a →
      Prot env (L1 ++ [(lsz + sz + rsz, false)] ++ R2) a := by
    intro a ha
    exact Prot_zone env L1 [(lsz, false), (sz, false), (rsz, false)]
      [(lsz + sz + rsz, false)] R2 (by simp) (by simp only [tot_cons, tot_nil]; omega) a
      (by simpa using ha)
  refine ⟨rfl, ?_⟩
  generalize remove_free (remove_free s (env.lo + 224 + tot L1))
    (env.lo + 224 + tot L1 + lsz + sz) = s2 at h2 k12
  have h2' : Heap env s2 (L1 ++ [(lsz, false), (sz, false), (rsz, false)] ++ R2)
      (fun y => (U y ∨ y = env.lo + 224 + tot L1) ∨ y = env.lo + 224 + tot L1 + lsz + sz)
      W := by
    simpa using h2
  have h3 := merge_step env henv s2 (put (put s2
        (env.lo + 224 + tot L1 - 4) (hdr (sz + lsz + rsz) false (outAlloc true L1)))
        (env.lo + 224 + tot L1 + (sz + lsz + rsz) - 8)
        (hdr (sz + lsz + rsz) false (outAlloc true L1)))
      L1 [(lsz, false), (sz, false), (rsz, false)] R2 _ W h2' (by simp) (by simp)
      (by
        intro x sx hx
        simp only [FreeIn, layout_cons, layout_nil, List.mem_cons, Prod.mk.injEq,
          List.mem_nil_iff, or_false] at hx
        rcases hx with hx | hx | hx
        · left; right; exact hx.1
        · left; left; rw [hU]; exact hx.1
        · right; exact hx.1) rfl rfl rfl
      (by
        have e : lsz + (sz + rsz) = sz + lsz + rsz := by omega
        simp [put, e])
  simp only [tot_cons, tot_nil, Nat.add_zero] at h3
  have e : lsz + (sz + rsz) = lsz + sz + rsz := by omega
  rw [e] at h3
  have h4 := push_step env henv _ _ _ _ h3 (env.lo + 224 + tot L1) (lsz + sz + rsz)
    (by
      have := layout_mem_mid (env.lo + 224) L1 R2 (lsz + sz + rsz) false
      simpa using this) (Or.inl (Or.inr rfl))
  have h5 := Heap_finish env _ _ _ _ h4 (by
      rintro x sx fx ⟨hc1, hc2⟩
      have hm := layout_mem_mid (env.lo + 224) L1 R2 (lsz + sz + rsz) false
      have hsep := layout_sep _ _ _ _ _ h3.seg _ _ _ _ _ _ fx (by simpa using hm)
      rcases hc1 with (hc1 | hc1) | hc1
      · have := (hU x).1 hc1
        omega
      · exact hc2 hc1
      · omega) (by
      rintro x sx fx ⟨hc1, hc2⟩
      have := hW x hc1
      omega)
  refine ⟨by simpa using h5, ?_⟩
  have k2 := put_kept (Prot env (L1 ++ (lsz, false) :: (sz, false) :: (rsz, false) :: R2)) s2
    (env.lo + 224 + tot L1 - 4) (hdr (sz + lsz + rsz) false (outAlloc true L1))
    (fun a ha => by have := hout a ha; omega)
  have k3 := put_kept (Prot env (L1 ++ (lsz, false) :: (sz, false) :: (rsz, false) :: R2))
    (put s2 (env.lo + 224 + tot L1 - 4) (hdr (sz + lsz + rsz) false (outAlloc true L1)))
    (env.lo + 224 + tot L1 + (sz + lsz + rsz) - 8)
    (hdr (sz + lsz + rsz) false (outAlloc true L1))
    (fun a ha => by have := hout a ha; omega)
  have k4 := (push_kept env henv _ _ _ _ h3 (env.lo + 224 + tot L1) (lsz + sz + rsz)
    (by
      have := layout_mem_mid (env.lo + 224) L1 R2 (lsz + sz + rsz) false
      simpa using this) (Or.inl (Or.inr rfl))).mono hzone
  exact ⟨((k12.trans_kept k2).trans_kept k3).trans_kept k4,
    push_head env henv _ _ _ _ h3 (env.lo + 224 + tot L1) (lsz + sz + rsz)
      (by
        have := layout_mem_mid (env.lo + 224) L1 R2 (lsz + sz + rsz) false
        simpa using this) (Or.inl (Or.inr rfl))⟩

/-- Case 4 of `coalesce`, without the chain head. -/
theorem coalesce_case4_kept (env : Env) (henv : env.ok) (s : State) (L1 : List Blk)
    (lsz sz rsz : Nat) (R2 : List Blk) (U W : Nat → Prop)
    (h : Heap env s (L1 ++ (lsz, false) :: (sz, false) :: (rsz, false) :: R2) U W)
    (hU : ∀ y, U y ↔ y = env.lo + 224 + tot L1 + lsz)
    (hW : ∀ y, W y → y = env.lo + 224 + tot L1 + lsz + sz) :
    (coalesce s (env.lo + 224 + tot L1 + lsz)).1 = env.lo + 224 + tot L1 ∧
    Heap env (coalesce s (env.lo + 224 + tot L1 + lsz)).2
      (L1 ++ (lsz + sz + rsz, false) :: R2) none_of none_of ∧
    Kept (Prot env (L1 ++ (lsz, false) :: (sz, false) :: (rsz, false) :: R2)) s
      (coalesce s (env.lo + 224 + tot L1 + lsz)).2 :=
  ⟨(coalesce_case4_head env henv s L1 lsz sz rsz R2 U W h hU hW).1,
    (coalesce_case4_head env henv s L1 lsz sz rsz R2 U W h hU hW).2.1,
    (coalesce_case4_head env henv s L1 lsz sz rsz R2 U W h hU hW).2.2.1⟩

theorem coalesce_case4 (env : Env) (henv : env.ok) (s : State) (L1 : List Blk)
    (lsz sz rsz : Nat) (R2 : List Blk) (U W : Nat → Prop)
    (h : Heap env s (L1 ++ (lsz, false) :: (sz, false) :: (rsz, false) :: R2) U W)
    (hU : ∀ y, U y ↔ y = env.lo + 224 + tot L1 + lsz)
    (hW : ∀ y, W y → y = env.lo + 224 + tot L1 + lsz + sz) :
    (coalesce s (env.lo + 224 + tot L1 + lsz)).1 = env.lo + 224 + tot L1 ∧
    Heap env (coalesce s (env.lo + 224 + tot L1 + lsz)).2
      (L1 ++ (lsz + sz + rsz, false) :: R2) none_of none_of :=
  ⟨(coalesce_case4_kept env henv s L1 lsz sz rsz R2 U W h hU hW).1,
    (coalesce_case4_kept env henv s L1 lsz sz rsz R2 U W h hU hW).2.1⟩

/-! ## The result of `coalesce` -/

theorem coalesce_spec_head (env : Env) (henv : env.ok) (s : State) (L : List Blk) (sz : Nat)
    (R : List Blk) (U W : Nat → Prop) (h : Heap env s (L ++ (sz, false) :: R) U W)
    (hU : ∀ y, U y ↔ y = env.lo + 224 + tot L)
    (hW : ∀ y, W y → y = env.lo + 224 + tot L + sz)
    (hadjL : NoAdj true L) (hadjR : NoAdj true R) :
    (coalesce s (env.lo + 224 + tot L)).1 = env.lo + 224 + tot (splitLast L).1 ∧
    tot (splitLast L).1 + (splitLast L).2 = tot L ∧
    HeapInv env (coalesce s (env.lo + 224 + tot L)).2 (coalesced L sz R) ∧
    Kept (Prot env (L ++ (sz, false) :: R)) s (coalesce s (env.lo + 224 + tot L)).2 ∧
    free_list_get (coalesce s (env.lo + 224 + tot L)).2
      (get_free_index ((splitLast L).2 + sz + (splitHead R).1)) =
      env.lo + 224 + tot (splitLast L).1 := by
  by_cases hL : outAlloc true L = true
  · have hsl := splitLast_of_alloc L hL
    cases R with
    | nil =>
      obtain ⟨c1, c2, c3, c4⟩ := coalesce_case1_head env henv s L sz [] U W h hU hW hL (by simp)
      rw [c1]
      unfold coalesced
      rw [hsl, splitHead_nil]
      refine ⟨rfl, by simp, ⟨by simpa using c2, ?_⟩, by simpa using c3, by simpa using c4⟩
      rw [NoAdj_append]
      exact ⟨hadjL, Or.inl hL, trivial⟩
    | cons b R2 =>
      obtain ⟨rsz, ral⟩ := b
      cases ral with
      | true =>
        obtain ⟨c1, c2, c3, c4⟩ := coalesce_case1_head env henv s L sz _ U W h hU hW hL (by simp)
        rw [c1]
        unfold coalesced
        rw [hsl, splitHead_alloc]
        refine ⟨rfl, by simp, ⟨by simpa using c2, ?_⟩, by simpa using c3, by simpa using c4⟩
        rw [NoAdj_append]
        exact ⟨hadjL, Or.inl hL, Or.inr rfl, hadjR.2⟩
      | false =>
        obtain ⟨c1, c2, c3, c4⟩ := coalesce_case2_head env henv s L sz rsz R2 U W h hU hW hL
        unfold coalesced
        rw [hsl, splitHead_free]
        refine ⟨c1, by simp, ⟨by simpa using c2, ?_⟩, by simpa using c3, by simpa using c4⟩
        rw [NoAdj_append]
        exact ⟨hadjL, Or.inl hL, hadjR.2⟩
  · have hL' : outAlloc true L = false := by simpa using hL
    obtain ⟨L1, lsz, rfl⟩ := outAlloc_false_split L hL'
    have hsl := splitLast_snoc L1 lsz
    rw [NoAdj_append] at hadjL
    have hL1 : outAlloc true L1 = true := by
      have := hadjL.2.1
      simpa using this
    have h' : Heap env s (L1 ++ (lsz, false) :: (sz, false) :: R) U W := by simpa using h
    have hU' : ∀ y, U y ↔ y = env.lo + 224 + tot L1 + lsz := by
      intro y; rw [hU]; simp [Nat.add_assoc]
    have hW' : ∀ y, W y → y = env.lo + 224 + tot L1 + lsz + sz := by
      intro y hy; have := hW y hy; simp at this; omega
    have ebp : env.lo + 224 + tot (L1 ++ [(lsz, false)]) = env.lo + 224 + tot L1 + lsz := by
      simp [Nat.add_assoc]
    rw [ebp]
    cases R with
    | nil =>
      obtain ⟨c1, c2, c3, c4⟩ := coalesce_case3_head env henv s L1 lsz sz [] U W h' hU' hW' (by simp)
      unfold coalesced
      rw [hsl, splitHead_nil]
      refine ⟨c1, by simp, ⟨by simpa using c2, ?_⟩, by simpa using c3, by simpa using c4⟩
      rw [NoAdj_append]
      exact ⟨hadjL.1, Or.inl hL1, trivial⟩
    | cons b R2 =>
      obtain ⟨rsz, ral⟩ := b
      cases ral with
      | true =>
        obtain ⟨c1, c2, c3, c4⟩ := coalesce_case3_head env henv s L1 lsz sz _ U W h' hU' hW' (by simp)
        unfold coalesced
        rw [hsl, splitHead_alloc]
        refine ⟨c1, by simp, ⟨by simpa using c2, ?_⟩, by simpa using c3, by simpa using c4⟩
        rw [NoAdj_append]
        exact ⟨hadjL.1, Or.inl hL1, Or.inr rfl, hadjR.2⟩
      | false =>
        obtain ⟨c1, c2, c3, c4⟩ := coalesce_case4_head env henv s L1 lsz sz rsz R2 U W h' hU' hW'
        unfold coalesced
        rw [hsl, splitHead_free]
        refine ⟨c1, by simp, ⟨by simpa using c2, ?_⟩, by simpa using c3, by simpa using c4⟩
        rw [NoAdj_append]
        exact ⟨hadjL.1, Or.inl hL1, hadjR.2⟩

/-- The result of `coalesce`, without the chain head. -/
theorem coalesce_spec_kept (env : Env) (henv : env.ok) (s : State) (L : List Blk) (sz : Nat)
    (R : List Blk) (U W : Nat → Prop) (h : Heap env s (L ++ (sz, false) :: R) U W)
    (hU : ∀ y, U y ↔ y = env.lo + 224 + tot L)
    (hW : ∀ y, W y → y = env.lo + 224 + tot L + sz)
    (hadjL : NoAdj true L) (hadjR : NoAdj true R) :
    (coalesce s (env.lo + 224 + tot L)).1 = env.lo + 224 + tot (splitLast L).1 ∧
    tot (splitLast L).1 + (splitLast L).2 = tot L ∧
    HeapInv env (coalesce s (env.lo + 224 + tot L)).2 (coalesced L sz R) ∧
    Kept (Prot env (L ++ (sz, false) :: R)) s (coalesce s (env.lo + 224 + tot L)).2 :=
  ⟨(coalesce_spec_head env henv s L sz R U W h hU hW hadjL hadjR).1,
    (coalesce_spec_head env henv s L sz R U W h hU hW hadjL hadjR).2.1,
    (coalesce_spec_head env henv s L sz R U W h hU hW hadjL hadjR).2.2.1,
    (coalesce_spec_head env henv s L sz R U W h hU hW hadjL hadjR).2.2.2.1⟩

theorem coalesce_spec (env : Env) (henv : env.ok) (s : State) (L : List Blk) (sz : Nat)
    (R : List Blk) (U W : Nat → Prop) (h : Heap env s (L ++ (sz, false) :: R) U W)
    (hU : ∀ y, U y ↔ y = env.lo + 224 + tot L)
    (hW : ∀ y, W y → y = env.lo + 224 + tot L + sz)
    (hadjL : NoAdj true L) (hadjR : NoAdj true R) :
    (coalesce s (env.lo + 224 + tot L)).1 = env.lo + 224 + tot (splitLast L).1 ∧
    tot (splitLast L).1 + (splitLast L).2 = tot L ∧
    HeapInv env (coalesce s (env.lo + 224 + tot L)).2 (coalesced L sz R) :=
  ⟨(coalesce_spec_kept env henv s L sz R U W h hU hW hadjL hadjR).1,
    (coalesce_spec_kept env henv s L sz R U W h hU hW hadjL hadjR).2.1,
    (coalesce_spec_kept env henv s L sz R U W h hU hW hadjL hadjR).2.2.1⟩

/-! ## Changing the predecessor-allocated bit of the header after a block -/

theorem Seg_set_pa (m m' : Mem) (W W' : Nat → Prop) (p : Nat) (pa pa' : Bool) (R : List Blk)
    (h : Seg m W p pa R) (hp : 4 ≤ p)
    (hh : R ≠ [] → GET m' (p - 4) = nextHdr pa' R)
    (hm : ∀ a, p ≤ a → m' a = m a) (hW : ∀ x, W x → W' x)
    (hWp : ∀ b r, R = b :: r → b.2 = false → W' p ∨ pa' = pa) : Seg m' W' p pa' R := by
  cases R with
  | nil => trivial
  | cons b r =>
    obtain ⟨h1, h2, h3, h4, h5⟩ := h
    refine ⟨h1, h2, hh (by simp), ?_, ?_⟩
    · intro hf
      obtain ⟨pa'', e1, e2⟩ := h4 hf
      refine ⟨pa'', ?_, ?_⟩
      · rw [GET_congr m m' _ (fun a h1 h2 => hm a (by omega))]
        exact e1
      · intro hw
        rcases hWp b r rfl hf with hc | hc
        · exact absurd hc hw
        · rw [hc]
          exact e2 (fun hc' => hw (hW _ hc'))
    · apply Seg_frame _ _ W W' _ _ _ h5 (fun q _ _ hw => hW q hw)
      intro q sz al hq
      have := layout_mem_bounds _ _ _ _ _ hq
      have := Seg_mem _ _ _ _ _ h5 _ _ _ hq
      constructor
      · intro a h1 h2
        apply hm; omega
      · intro _ a h1 h2
        apply hm; omega

theorem outAlloc_ne_nil (pa pa' : Bool) (R : List Blk) (h : R ≠ []) :
    outAlloc pa R = outAlloc pa' R := by
  cases R with
  | nil => exact absurd rfl h
  | cons b r => rfl

/-- The run after a block and the epilogue, after the header that follows the block has
been rewritten with a new predecessor-allocated bit. -/
theorem right_set_pa (env : Env) (s : State) (m' : Mem) (L : List Blk) (sz : Nat)
    (al al' : Bool) (R : List Blk) (U W W' : Nat → Prop)
    (h : Heap env s (L ++ (sz, al) :: R) U W)
    (hh : GET m' (env.lo + 224 + tot L + sz - 4) = nextHdr al' R)
    (hm : ∀ a, env.lo + 224 + tot L + sz ≤ a → m' a = s.mem a)
    (hW : ∀ x, W x → W' x)
    (hWp : ∀ b r, R = b :: r → b.2 = false → W' (env.lo + 224 + tot L + sz) ∨ al' = al) :
    Seg m' W' (env.lo + 224 + tot L + sz) al' R ∧
    GET m' (s.brk - 4) = hdr 0 true (outAlloc al' R) := by
  have hseg := h.seg
  rw [Seg_append] at hseg
  have hsR := hseg.2.2.2.2.2
  simp only at hsR
  constructor
  · exact Seg_set_pa _ _ W W' _ _ _ _ hsR (by omega) (fun _ => hh) hm hW hWp
  · have hbrk := h.brk
    simp only [tot_append, tot_cons] at hbrk
    cases R with
    | nil =>
      simp only [tot_nil] at hbrk
      rw [hbrk]
      simpa [nextHdr, ← Nat.add_assoc] using hh
    | cons b r =>
      have h16 := hsR.1
      simp only [tot_cons] at hbrk
      rw [GET_congr s.mem m' _ (fun a h1 h2 => hm a (by omega))]
      rw [h.epi]
      simp

/-! ## `free` -/

theorem HeapInv_adj_split (L : List Blk) (b : Blk) (R : List Blk) (h : NoAdj true (L ++ b :: R)) :
    NoAdj true L ∧ (outAlloc true L = true ∨ b.2 = true) ∧ NoAdj b.2 R := by
  rw [NoAdj_append] at h
  exact ⟨h.1, h.2.1, h.2.2⟩

theorem free_spec_kept (env : Env) (henv : env.ok) (s : State) (L : List Blk) (sz : Nat)
    (R : List Blk) (h : HeapInv env s (L ++ (sz, true) :: R)) :
    HeapInv env (free s (env.lo + 224 + tot L)) (coalesced L sz R) ∧
    SameFields s (free s (env.lo + 224 + tot L)) ∧
    Kept (Prot env (L ++ (sz, false) :: R)) s (free s (env.lo + 224 + tot L)) := by
  obtain ⟨hH, hadj⟩ := h
  obtain ⟨hadjL, _, hadjR⟩ := HeapInv_adj_split L _ R hadj
  simp only at hadjR
  obtain ⟨m1, m2, m3, _⟩ := Heap_mid env s L sz true R _ _ hH
  have hn := Heap_next_hdr env s L sz true R _ _ hH
  have hseg := hH.seg
  rw [Seg_append] at hseg
  obtain ⟨nsz, nal, n1, n2, n3, n4⟩ := nextHdr_mod _ _ _ _ true R hseg.2.2.2.2.2
  obtain ⟨nsz', nal', n1', n2', n3', n4'⟩ := nextHdr_mod _ _ _ _ false R hseg.2.2.2.2.2
  have hnn : nsz' = nsz ∧ nal' = nal := by
    cases R with
    | nil => exact ⟨by rw [(n3 rfl).1, (n3' rfl).1], by rw [(n3 rfl).2, (n3' rfl).2]⟩
    | cons b r => exact ⟨by rw [(n4 b r rfl).1, (n4' b r rfl).1],
        by rw [(n4 b r rfl).2, (n4' b r rfl).2]⟩
  rw [hnn.1, hnn.2] at n1'
  rw [n1] at hn
  have htl := Heap_tot_le env henv s _ _ _ hH
  simp only [tot_append, tot_cons] at htl
  have hbp : env.lo + 224 + tot L ≠ 0 := by have := henv.1; omega
  have e1 : GET_PRED_ALLOC s.mem (env.lo + 224 + tot L - 4) = if outAlloc true L then 2 else 0 :=
    GET_PRED_ALLOC_hdr _ _ _ _ _ m3 m2
  have e2 : GET_SIZE s.mem (env.lo + 224 + tot L - 4) = sz := GET_SIZE_hdr _ _ _ _ _ m3 m2
  have hw := PACK_free sz (outAlloc true L) m2
  have hww := hdr_word sz false (outAlloc true L) (by omega)
  have e3 : ∀ m : Mem, GET_SIZE (PUT m (env.lo + 224 + tot L - 4) (hdr sz false (outAlloc true L)))
      (env.lo + 224 + tot L - 4) = sz := by
    intro m
    apply GET_SIZE_hdr _ _ _ false (outAlloc true L) _ m2
    rw [GET_PUT_same, hww]
  have e4 : ∀ m : Mem, GET_SIZE (PUT (PUT m (env.lo + 224 + tot L - 4)
      (hdr sz false (outAlloc true L))) (env.lo + 224 + tot L + sz - 8)
      (hdr sz false (outAlloc true L))) (env.lo + 224 + tot L - 4) = sz := by
    intro m
    apply GET_SIZE_hdr _ _ _ false (outAlloc true L) _ m2
    rw [GET_PUT_other _ _ _ _ (by omega), GET_PUT_same, hww]
  have e5 : SET_PRED_ALLOC (PUT (PUT s.mem (env.lo + 224 + tot L - 4)
      (hdr sz false (outAlloc true L))) (env.lo + 224 + tot L + sz - 8)
      (hdr sz false (outAlloc true L))) (env.lo + 224 + tot L + sz - 4) 0
      = PUT (PUT (PUT s.mem (env.lo + 224 + tot L - 4)
      (hdr sz false (outAlloc true L))) (env.lo + 224 + tot L + sz - 8)
      (hdr sz false (outAlloc true L))) (env.lo + 224 + tot L + sz - 4) (hdr nsz nal false) := by
    have := SET_PRED_ALLOC_hdr (PUT (PUT s.mem (env.lo + 224 + tot L - 4)
      (hdr sz false (outAlloc true L))) (env.lo + 224 + tot L + sz - 8)
      (hdr sz false (outAlloc true L))) (env.lo + 224 + tot L + sz - 4) nsz nal true false
      (by rw [GET_PUT_other _ _ _ _ (by omega), GET_PUT_other _ _ _ _ (by omega)]; exact hn) n2
    simpa using this
  have hcode : free s (env.lo + 224 + tot L) = (coalesce
      { s with mem := PUT (PUT (PUT s.mem (env.lo + 224 + tot L - 4)
        (hdr sz false (outAlloc true L))) (env.lo + 224 + tot L + sz - 8)
        (hdr sz false (outAlloc true L))) (env.lo + 224 + tot L + sz - 4) (hdr nsz nal false) }
      (env.lo + 224 + tot L)).2 := by
    unfold free
    rw [if_neg hbp]
    simp only [HDRP, NEXT_BLKP, FTRP, WSIZE, DSIZE, put, e1, e2, hw, e3, e4, e5]
  rw [hcode]
  generalize hs3 : ({ s with mem := PUT (PUT (PUT s.mem (env.lo + 224 + tot L - 4)
        (hdr sz false (outAlloc true L))) (env.lo + 224 + tot L + sz - 8)
        (hdr sz false (outAlloc true L))) (env.lo + 224 + tot L + sz - 4) (hdr nsz nal false) }
        : State) = s3
  have hm3 : s3.mem = PUT (PUT (PUT s.mem (env.lo + 224 + tot L - 4)
        (hdr sz false (outAlloc true L))) (env.lo + 224 + tot L + sz - 8)
        (hdr sz false (outAlloc true L))) (env.lo + 224 + tot L + sz - 4) (hdr nsz nal false) := by
    rw [← hs3]
  have hsf : SameFields s s3 := by rw [← hs3]; exact ⟨rfl, rfl, rfl, rfl⟩
  have hH' : Heap env s (L ++ [(sz, true)] ++ R) none_of none_of := by simpa using hH
  have hr := right_set_pa env s s3.mem L sz true false R none_of none_of
    (fun y => y = env.lo + 224 + tot L + sz) hH
    (by rw [hm3, GET_PUT_same, n1', hdr_word _ _ _ (by
          cases R with
          | nil => rw [(n3 rfl).1]; norm_num
          | cons b r =>
            rw [(n4 b r rfl).1]
            simp only [tot_cons] at htl
            omega)])
    (by
      intro a ha
      rw [hm3, PUT_other_byte _ _ _ _ (by omega), PUT_other_byte _ _ _ _ (by omega),
        PUT_other_byte _ _ _ _ (by omega)])
    (fun x hx => hx.elim) (fun _ _ _ _ => Or.inl rfl)
  have h3 : Heap env s3 (L ++ [(sz, false)] ++ R) (fun y => y = env.lo + 224 + tot L)
      (fun y => y = env.lo + 224 + tot L + sz) := by
    apply Heap_replace env s s3 L [(sz, true)] [(sz, false)] R none_of _ none_of _ hH'
      hsf.1 hsf.2.1 hsf.2.2.1
    · intro a ha
      simp only [tot_cons, tot_nil, Nat.add_zero] at ha
      rw [hm3, PUT_other_byte _ _ _ _ (by omega), PUT_other_byte _ _ _ _ (by omega),
        PUT_other_byte _ _ _ _ (by omega)]
    · rfl
    · refine ⟨m1, m2, ?_, ?_, trivial⟩
      · rw [hm3, GET_PUT_other _ _ _ _ (by omega), GET_PUT_other _ _ _ _ (by omega),
          GET_PUT_same, hww]
      · intro _
        refine ⟨outAlloc true L, ?_, fun _ => rfl⟩
        rw [hm3, GET_PUT_other _ _ _ _ (by simp only; omega), GET_PUT_same, hww]
    · simpa using hr.1
    · simpa using hr.2
    · intro x sx hx
      simp [FreeIn] at hx
    · intro x sx hx
      simp only [FreeIn, layout_cons, layout_nil, List.mem_singleton, Prod.mk.injEq] at hx
      exact hx.1
    · intro x hx
      simp only [tot_cons, tot_nil, Nat.add_zero] at hx
      simp only [none_of, iff_false]
      omega
    · intro x _ hx
      exact hx.elim
  have h3' : Heap env s3 (L ++ (sz, false) :: R) (fun y => y = env.lo + 224 + tot L)
      (fun y => y = env.lo + 224 + tot L + sz) := by simpa using h3
  obtain ⟨_, _, c3, c4⟩ := coalesce_spec_kept env henv s3 L sz R _ _ h3' (fun _ => Iff.rfl)
    (fun _ hy => hy) hadjL hadjR
  have k0 : Kept (Prot env (L ++ (sz, false) :: R)) s s3 := by
    intro a ha
    have := Prot_outside env L [(sz, false)] R (by simp) a (by simpa using ha)
    simp only [tot_cons, tot_nil, Nat.add_zero] at this
    rw [hm3, PUT_other_byte _ _ _ _ (by omega), PUT_other_byte _ _ _ _ (by omega),
      PUT_other_byte _ _ _ _ (by omega)]
  exact ⟨c3, hsf.trans (coalesce_same _ _), k0.trans_kept c4⟩

theorem free_spec (env : Env) (henv : env.ok) (s : State) (L : List Blk) (sz : Nat)
    (R : List Blk) (h : HeapInv env s (L ++ (sz, true) :: R)) :
    HeapInv env (free s (env.lo + 224 + tot L)) (coalesced L sz R) ∧
    SameFields s (free s (env.lo + 224 + tot L)) :=
  ⟨(free_spec_kept env henv s L sz R h).1, (free_spec_kept env henv s L sz R h).2.1⟩

theorem Prot_other (env : Env) (L : List Blk) (sz : Nat) (R : List Blk) (q sq a : Nat)
    (hq : (q, sq, true) ∈ layout (env.lo + 224) (L ++ (sz, true) :: R))
    (hne : q ≠ env.lo + 224 + tot L) (h1 : q ≤ a) (h2 : a + 4 < q + sq) :
    Prot env (L ++ (sz, false) :: R) a := by
  refine ⟨q, sq, ?_, h1, h2⟩
  rw [mem_layout_append] at hq ⊢
  rcases hq with hq | hq
  · exact Or.inl hq
  · right
    simp only [layout_cons, List.mem_cons, Prod.mk.injEq] at hq ⊢
    rcases hq with ⟨e, _⟩ | hq
    · exact absurd e hne
    · exact Or.inr hq

/-! ## `place` -/

theorem NoAdj_mono (R : List Blk) (h : NoAdj false R) : NoAdj true R := by
  cases R with
  | nil => trivial
  | cons b r => exact ⟨Or.inl rfl, h.2⟩

/-- The splitting case of `place`. -/
theorem place_split_head (env : Env) (henv : env.ok) (s : State) (L : List Blk) (c : Nat)
    (R : List Blk) (asize : Nat) (h : HeapInv env s (L ++ (c, false) :: R))
    (ha : 16 ≤ asize) (ha8 : asize % 8 = 0) (hac : asize + 16 ≤ c) :
    HeapInv env (place s (env.lo + 224 + tot L) asize)
      (L ++ (asize, true) :: (c - asize, false) :: R) ∧
    SameFields s (place s (env.lo + 224 + tot L) asize) ∧
    Kept (Prot env (L ++ (c, false) :: R)) s (place s (env.lo + 224 + tot L) asize) ∧
    free_list_get (place s (env.lo + 224 + tot L) asize) (get_free_index (c - asize)) =
      env.lo + 224 + tot L + asize := by
  obtain ⟨hH, hadj⟩ := h
  obtain ⟨hadjL, _, hadjR⟩ := HeapInv_adj_split L _ R hadj
  simp only at hadjR
  obtain ⟨m1, m2, m3, _⟩ := Heap_mid env s L c false R _ _ hH
  have htl := Heap_tot_le env henv s _ _ _ hH
  simp only [tot_append, tot_cons] at htl
  have e2 : GET_SIZE s.mem (env.lo + 224 + tot L - 4) = c := GET_SIZE_hdr _ _ _ _ _ m3 m2
  have h1 := remove_step env henv s _ _ _ hH (env.lo + 224 + tot L) c
    (layout_mem_mid _ _ _ _ _) (fun hc => hc)
  obtain ⟨_, _, q3, _⟩ := Heap_mid env _ L c false R _ _ h1
  have e1 : GET_PRED_ALLOC (remove_free s (env.lo + 224 + tot L)).mem (env.lo + 224 + tot L - 4)
      = if outAlloc true L then 2 else 0 := GET_PRED_ALLOC_hdr _ _ _ _ _ q3 m2
  have ec : (c + 2 ^ 64 - asize) % 2 ^ 64 = c - asize := by omega
  have hw1 := PACK_alloc asize (outAlloc true L) ha8
  have hw2 := PACK_free_two (c - asize) (by omega)
  have hww1 := hdr_word asize true (outAlloc true L) (by omega)
  have hww2 := hdr_word (c - asize) false true (by omega)
  have e3 : ∀ m : Mem, GET_SIZE (PUT m (env.lo + 224 + tot L - 4) (hdr asize true (outAlloc true L)))
      (env.lo + 224 + tot L - 4) = asize := by
    intro m
    apply GET_SIZE_hdr _ _ _ true (outAlloc true L) _ ha8
    rw [GET_PUT_same, hww1]
  have e4 : ∀ m : Mem, GET_SIZE (PUT m (env.lo + 224 + tot L + asize - 4)
      (hdr (c - asize) false true)) (env.lo + 224 + tot L + asize - 4) = c - asize := by
    intro m
    apply GET_SIZE_hdr _ _ _ false true _ (by omega)
    rw [GET_PUT_same, hww2]
  have hcode : place s (env.lo + 224 + tot L) asize =
      push_first_free (put (put (put (remove_free s (env.lo + 224 + tot L))
        (env.lo + 224 + tot L - 4) (hdr asize true (outAlloc true L)))
        (env.lo + 224 + tot L + asize - 4) (hdr (c - asize) false true))
        (env.lo + 224 + tot L + asize + (c - asize) - 8) (hdr (c - asize) false true))
        (env.lo + 224 + tot L + asize) := by
    unfold place
    simp only [HDRP, NEXT_BLKP, FTRP, WSIZE, DSIZE, MIN_FREE_SIZE, e2, ec, put, e1, hw1, hw2,
      e3, e4]
    rw [if_pos (by omega)]
  rw [hcode]
  have hsf1 : SameFields s (remove_free s (env.lo + 224 + tot L)) ∧ True :=
    ⟨remove_same _ _, trivial⟩
  have k1 := remove_kept env henv s _ _ _ hH (env.lo + 224 + tot L) c
    (layout_mem_mid _ _ _ _ _) (fun hc => hc)
  have hout : ∀ a, Prot env (L ++ (c, false) :: R) a →
      a + 4 < env.lo + 224 + tot L ∨ env.lo + 224 + tot L + c ≤ a := by
    intro a ha
    have := Prot_outside env L [(c, false)] R (by simp) a (by simpa using ha)
    simpa [tot_cons, tot_nil] using this
  have hzone : ∀ a, Prot env (L ++ (c, false) :: R) a →
      Prot env (L ++ [(asize, true), (c - asize, false)] ++ R) a := by
    intro a ha
    exact Prot_zone env L [(c, false)] [(asize, true), (c - asize, false)] R (by simp)
      (by simp only [tot_cons, tot_nil]; omega) a (by simpa using ha)
  generalize remove_free s (env.lo + 224 + tot L) = s1 at h1 hsf1 k1
  have h1' : Heap env s1 (L ++ [(c, false)] ++ R)
      (fun y => none_of y ∨ y = env.lo + 224 + tot L) none_of := by simpa using h1
  generalize hs4 : (put (put (put s1
        (env.lo + 224 + tot L - 4) (hdr asize true (outAlloc true L)))
        (env.lo + 224 + tot L + asize - 4) (hdr (c - asize) false true))
        (env.lo + 224 + tot L + asize + (c - asize) - 8) (hdr (c - asize) false true)) = s4
  have hm4 : s4.mem = PUT (PUT (PUT s1.mem
        (env.lo + 224 + tot L - 4) (hdr asize true (outAlloc true L)))
        (env.lo + 224 + tot L + asize - 4) (hdr (c - asize) false true))
        (env.lo + 224 + tot L + asize + (c - asize) - 8) (hdr (c - asize) false true) := by
    rw [← hs4]; rfl
  have hsf : SameFields s1 s4 := by rw [← hs4]; exact ⟨rfl, rfl, rfl, rfl⟩
  have hr := Heap_right_unchanged env s1 s4 L [(c, false)] R _ _ h1' none_of
    (by
      intro a ha
      simp only [tot_cons, tot_nil, Nat.add_zero] at ha
      rw [hm4, PUT_other_byte _ _ _ _ (by omega), PUT_other_byte _ _ _ _ (by omega),
        PUT_other_byte _ _ _ _ (by omega)])
    (fun _ _ hx => hx)
  have h4 : Heap env s4 (L ++ [(asize, true), (c - asize, false)] ++ R)
      (fun y => y = env.lo + 224 + tot L ∨ y = env.lo + 224 + tot L + asize) none_of := by
    apply Heap_replace env s1 s4 L [(c, false)] _ R _ _ none_of _ h1'
      hsf.1 hsf.2.1 hsf.2.2.1
    · intro a ha
      simp only [tot_cons, tot_nil, Nat.add_zero] at ha
      rw [hm4, PUT_other_byte _ _ _ _ (by omega), PUT_other_byte _ _ _ _ (by omega),
        PUT_other_byte _ _ _ _ (by omega)]
    · simp only [tot_cons, tot_nil]; omega
    · refine ⟨ha, ha8, ?_, by simp, by simp only; omega, by simp only; omega, ?_, ?_, trivial⟩
      · rw [hm4, GET_PUT_other _ _ _ _ (by omega), GET_PUT_other _ _ _ _ (by omega),
          GET_PUT_same, hww1]
      · rw [hm4, GET_PUT_other _ _ _ _ (by simp only; omega), GET_PUT_same, hww2]
      · intro _
        refine ⟨true, ?_, fun _ => rfl⟩
        rw [hm4, GET_PUT_same, hww2]
    · simpa using hr.1
    · simpa using hr.2
    · intro x sx hx
      simp only [FreeIn, layout_cons, layout_nil, List.mem_singleton, Prod.mk.injEq] at hx
      exact Or.inr hx.1
    · intro x sx hx
      simp only [FreeIn, layout_cons, layout_nil, List.mem_cons, Prod.mk.injEq,
        List.mem_nil_iff, or_false] at hx
      rcases hx with hx | hx
      · exact absurd hx.2.2 (by simp)
      · exact Or.inr hx.1
    · intro x hx
      simp only [tot_cons, tot_nil, Nat.add_zero] at hx
      simp only [none_of, false_or]
      constructor
      · rintro (e | e) <;> omega
      · intro e; omega
    · intro x _ hx
      exact hx
  have h5 := push_step env henv _ _ _ _ h4 (env.lo + 224 + tot L + asize) (c - asize)
    (by
      have := layout_mem_mid (env.lo + 224) (L ++ [(asize, true)]) R (c - asize) false
      simpa [Nat.add_assoc] using this) (Or.inr rfl)
  have hmb : (env.lo + 224 + tot L, asize, true) ∈
      layout (env.lo + 224) (L ++ [(asize, true), (c - asize, false)] ++ R) := by
    have := layout_mem_mid (env.lo + 224) L ((c - asize, false) :: R) asize true
    simpa using this
  have h6 := Heap_finish env _ _ _ _ h5 (by
      rintro x sx fx ⟨hc1, hc2⟩
      rcases hc1 with hc1 | hc1
      · subst hc1
        have := layout_sep _ _ _ _ _ h4.seg _ _ _ _ _ _ fx hmb
        have := Seg_mem _ _ _ _ _ h4.seg _ _ _ fx
        simp at *
        omega
      · exact hc2 hc1) (fun _ _ _ hc => hc)
  have k2 : Kept (Prot env (L ++ (c, false) :: R)) s1 s4 := by
    intro a ha
    have := hout a ha
    rw [hm4, PUT_other_byte _ _ _ _ (by omega), PUT_other_byte _ _ _ _ (by omega),
      PUT_other_byte _ _ _ _ (by omega)]
  have k3 := (push_kept env henv _ _ _ _ h4 (env.lo + 224 + tot L + asize) (c - asize)
    (by
      have := layout_mem_mid (env.lo + 224) (L ++ [(asize, true)]) R (c - asize) false
      simpa [Nat.add_assoc] using this) (Or.inr rfl)).mono hzone
  refine ⟨⟨by simpa using h6, ?_⟩, (hsf1.1.trans hsf).trans (push_same _ _),
    (k1.trans_kept k2).trans_kept k3,
    push_head env henv _ _ _ _ h4 (env.lo + 224 + tot L + asize) (c - asize)
      (by
        have := layout_mem_mid (env.lo + 224) (L ++ [(asize, true)]) R (c - asize) false
        simpa [Nat.add_assoc] using this) (Or.inr rfl)⟩
  rw [NoAdj_append]
  exact ⟨hadjL, Or.inr rfl, Or.inl rfl, hadjR⟩

/-- The splitting case of `place`, without the chain head. -/
theorem place_split_kept (env : Env) (henv : env.ok) (s : State) (L : List Blk) (c : Nat)
    (R : List Blk) (asize : Nat) (h : HeapInv env s (L ++ (c, false) :: R))
    (ha : 16 ≤ asize) (ha8 : asize % 8 = 0) (hac : asize + 16 ≤ c) :
    HeapInv env (place s (env.lo + 224 + tot L) asize)
      (L ++ (asize, true) :: (c - asize, false) :: R) ∧
    SameFields s (place s (env.lo + 224 + tot L) asize) ∧
    Kept (Prot env (L ++ (c, false) :: R)) s (place s (env.lo + 224 + tot L) asize) :=
  ⟨(place_split_head env henv s L c R asize h ha ha8 hac).1,
    (place_split_head env henv s L c R asize h ha ha8 hac).2.1,
    (place_split_head env henv s L c R asize h ha ha8 hac).2.2.1⟩

theorem place_split (env : Env) (henv : env.ok) (s : State) (L : List Blk) (c : Nat)
    (R : List Blk) (asize : Nat) (h : HeapInv env s (L ++ (c, false) :: R))
    (ha : 16 ≤ asize) (ha8 : asize % 8 = 0) (hac : asize + 16 ≤ c) :
    HeapInv env (place s (env.lo + 224 + tot L) asize)
      (L ++ (asize, true) :: (c - asize, false) :: R) ∧
    SameFields s (place s (env.lo + 224 + tot L) asize) :=
  ⟨(place_split_kept env henv s L c R asize h ha ha8 hac).1,
    (place_split_kept env henv s L c R asize h ha ha8 hac).2.1⟩

theorem place_nosplit_kept (env : Env) (henv : env.ok) (s : State) (L : List Blk) (c : Nat)
    (R : List Blk) (asize : Nat) (h : HeapInv env s (L ++ (c, false) :: R))
    (hac : asize ≤ c) (hca : c < asize + 16) :
    HeapInv env (place s (env.lo + 224 + tot L) asize) (L ++ (c, true) :: R) ∧
    SameFields s (place s (env.lo + 224 + tot L) asize) ∧
    Kept (Prot env (L ++ (c, false) :: R)) s (place s (env.lo + 224 + tot L) asize) := by
  obtain ⟨hH, hadj⟩ := h
  obtain ⟨hadjL, _, hadjR⟩ := HeapInv_adj_split L _ R hadj
  simp only at hadjR
  obtain ⟨m1, m2, m3, _⟩ := Heap_mid env s L c false R _ _ hH
  have htl := Heap_tot_le env henv s _ _ _ hH
  simp only [tot_append, tot_cons] at htl
  have e2 : GET_SIZE s.mem (env.lo + 224 + tot L - 4) = c := GET_SIZE_hdr _ _ _ _ _ m3 m2
  have h1 := remove_step env henv s _ _ _ hH (env.lo + 224 + tot L) c
    (layout_mem_mid _ _ _ _ _) (fun hc => hc)
  obtain ⟨_, _, q3, _⟩ := Heap_mid env _ L c false R _ _ h1
  have hn := Heap_next_hdr env _ L c false R _ _ h1
  have hseg := h1.seg
  rw [Seg_append] at hseg
  obtain ⟨nsz, nal, n1, n2, n3, n4⟩ := nextHdr_mod _ _ _ _ false R hseg.2.2.2.2.2
  obtain ⟨nsz', nal', n1', n2', n3', n4'⟩ := nextHdr_mod _ _ _ _ true R hseg.2.2.2.2.2
  have hnn : nsz' = nsz ∧ nal' = nal := by
    cases R with
    | nil => exact ⟨by rw [(n3 rfl).1, (n3' rfl).1], by rw [(n3 rfl).2, (n3' rfl).2]⟩
    | cons b r => exact ⟨by rw [(n4 b r rfl).1, (n4' b r rfl).1],
        by rw [(n4 b r rfl).2, (n4' b r rfl).2]⟩
  rw [hnn.1, hnn.2] at n1'
  rw [n1] at hn
  have e1 : GET_PRED_ALLOC (remove_free s (env.lo + 224 + tot L)).mem (env.lo + 224 + tot L - 4)
      = if outAlloc true L then 2 else 0 := GET_PRED_ALLOC_hdr _ _ _ _ _ q3 m2
  have ec : ¬ ((c + 2 ^ 64 - asize) % 2 ^ 64 ≥ 16) := by omega
  have hw1 := PACK_alloc c (outAlloc true L) m2
  have hww1 := hdr_word c true (outAlloc true L) (by omega)
  have e3 : ∀ m : Mem, GET_SIZE (PUT m (env.lo + 224 + tot L - 4) (hdr c true (outAlloc true L)))
      (env.lo + 224 + tot L - 4) = c := by
    intro m
    apply GET_SIZE_hdr _ _ _ true (outAlloc true L) _ m2
    rw [GET_PUT_same, hww1]
  have e5 : SET_PRED_ALLOC (PUT (remove_free s (env.lo + 224 + tot L)).mem
      (env.lo + 224 + tot L - 4) (hdr c true (outAlloc true L))) (env.lo + 224 + tot L + c - 4) 2
      = PUT (PUT (remove_free s (env.lo + 224 + tot L)).mem
      (env.lo + 224 + tot L - 4) (hdr c true (outAlloc true L))) (env.lo + 224 + tot L + c - 4)
        (hdr nsz nal true) := by
    have := SET_PRED_ALLOC_hdr (PUT (remove_free s (env.lo + 224 + tot L)).mem
      (env.lo + 224 + tot L - 4) (hdr c true (outAlloc true L))) (env.lo + 224 + tot L + c - 4)
      nsz nal false true
      (by rw [GET_PUT_other _ _ _ _ (by omega)]; exact hn) n2
    simpa using this
  have hcode : place s (env.lo + 224 + tot L) asize =
      { remove_free s (env.lo + 224 + tot L) with
        mem := PUT (PUT (remove_free s (env.lo + 224 + tot L)).mem
          (env.lo + 224 + tot L - 4) (hdr c true (outAlloc true L)))
          (env.lo + 224 + tot L + c - 4) (hdr nsz nal true) } := by
    unfold place
    simp only [HDRP, NEXT_BLKP, WSIZE, MIN_FREE_SIZE, e2, put, e1, hw1, e3, e5]
    rw [if_neg ec]
  rw [hcode]
  have hsf1 : SameFields s (remove_free s (env.lo + 224 + tot L)) ∧ True :=
    ⟨remove_same _ _, trivial⟩
  have k1 := remove_kept env henv s _ _ _ hH (env.lo + 224 + tot L) c
    (layout_mem_mid _ _ _ _ _) (fun hc => hc)
  have hout : ∀ a, Prot env (L ++ (c, false) :: R) a →
      a + 4 < env.lo + 224 + tot L ∨ env.lo + 224 + tot L + c ≤ a := by
    intro a ha
    have := Prot_outside env L [(c, false)] R (by simp) a (by simpa using ha)
    simpa [tot_cons, tot_nil] using this
  generalize remove_free s (env.lo + 224 + tot L) = s1 at h1 hsf1 hn k1
  have h1' : Heap env s1 (L ++ [(c, false)] ++ R)
      (fun y => none_of y ∨ y = env.lo + 224 + tot L) none_of := by simpa using h1
  generalize hs4 : ({ s1 with mem := (PUT (PUT s1.mem
          (env.lo + 224 + tot L - 4) (hdr c true (outAlloc true L)))
          (env.lo + 224 + tot L + c - 4) (hdr nsz nal true)) } : State) = s4
  have hm4 : s4.mem = PUT (PUT s1.mem
          (env.lo + 224 + tot L - 4) (hdr c true (outAlloc true L)))
          (env.lo + 224 + tot L + c - 4) (hdr nsz nal true) := by
    rw [← hs4]
  have hsf : SameFields s1 s4 := by rw [← hs4]; exact ⟨rfl, rfl, rfl, rfl⟩
  have hr := right_set_pa env s1 s4.mem L c false true R _ none_of none_of h1
    (by rw [hm4, GET_PUT_same, n1', hdr_word _ _ _ (by
          cases R with
          | nil => rw [(n3 rfl).1]; norm_num
          | cons b r =>
            rw [(n4 b r rfl).1]
            simp only [tot_cons] at htl
            omega)])
    (by
      intro a ha
      rw [hm4, PUT_other_byte _ _ _ _ (by omega), PUT_other_byte _ _ _ _ (by omega)])
    (fun x hx => hx) (by
      intro b r e hb
      subst e
      have := hadjR.1
      simp [hb] at this)
  have h4 : Heap env s4 (L ++ [(c, true)] ++ R)
      (fun y => none_of y ∨ y = env.lo + 224 + tot L) none_of := by
    apply Heap_replace env s1 s4 L [(c, false)] _ R _ _ none_of _ h1'
      hsf.1 hsf.2.1 hsf.2.2.1
    · intro a ha
      simp only [tot_cons, tot_nil, Nat.add_zero] at ha
      rw [hm4, PUT_other_byte _ _ _ _ (by omega), PUT_other_byte _ _ _ _ (by omega)]
    · rfl
    · refine ⟨m1, m2, ?_, by simp, trivial⟩
      rw [hm4, GET_PUT_other _ _ _ _ (by omega), GET_PUT_same, hww1]
    · simpa using hr.1
    · simpa using hr.2
    · intro x sx hx
      simp only [FreeIn, layout_cons, layout_nil, List.mem_singleton, Prod.mk.injEq] at hx
      exact Or.inr hx.1
    · intro x sx hx
      simp [FreeIn] at hx
    · intro x _
      exact Iff.rfl
    · intro x _ hx
      exact hx
  have hmb : (env.lo + 224 + tot L, c, true) ∈
      layout (env.lo + 224) (L ++ [(c, true)] ++ R) := by
    have := layout_mem_mid (env.lo + 224) L R c true
    simpa using this
  have h6 := Heap_finish env _ _ _ _ h4 (by
      rintro x sx fx hc1
      rcases hc1 with hc1 | hc1
      · exact hc1
      · subst hc1
        have := layout_sep _ _ _ _ _ h4.seg _ _ _ _ _ _ fx hmb
        have := Seg_mem _ _ _ _ _ h4.seg _ _ _ fx
        simp at *
        omega) (fun _ _ _ hc => hc)
  have k2 : Kept (Prot env (L ++ (c, false) :: R)) s1 s4 := by
    intro a ha
    have := hout a ha
    rw [hm4, PUT_other_byte _ _ _ _ (by omega), PUT_other_byte _ _ _ _ (by omega)]
  refine ⟨⟨by simpa using h6, ?_⟩, hsf1.1.trans hsf, k1.trans_kept k2⟩
  rw [NoAdj_append]
  exact ⟨hadjL, Or.inr rfl, NoAdj_mono R hadjR⟩

theorem place_nosplit (env : Env) (henv : env.ok) (s : State) (L : List Blk) (c : Nat)
    (R : List Blk) (asize : Nat) (h : HeapInv env s (L ++ (c, false) :: R))
    (hac : asize ≤ c) (hca : c < asize + 16) :
    HeapInv env (place s (env.lo + 224 + tot L) asize) (L ++ (c, true) :: R) ∧
    SameFields s (place s (env.lo + 224 + tot L) asize) :=
  ⟨(place_nosplit_kept env henv s L c R asize h hac hca).1,
    (place_nosplit_kept env henv s L c R asize h hac hca).2.1⟩

theorem place_spec_kept (env : Env) (henv : env.ok) (s : State) (L : List Blk) (c : Nat)
    (R : List Blk) (asize : Nat) (h : HeapInv env s (L ++ (c, false) :: R))
    (ha : 16 ≤ asize) (ha8 : asize % 8 = 0) (hac : asize ≤ c) :
    HeapInv env (place s (env.lo + 224 + tot L) asize) (placed L c R asize) ∧
    SameFields s (place s (env.lo + 224 + tot L) asize) ∧
    Kept (Prot env (L ++ (c, false) :: R)) s (place s (env.lo + 224 + tot L) asize) := by
  unfold placed
  split
  · exact place_split_kept env henv s L c R asize h ha ha8 (by omega)
  · exact place_nosplit_kept env henv s L c R asize h hac (by omega)

theorem place_spec (env : Env) (henv : env.ok) (s : State) (L : List Blk) (c : Nat)
    (R : List Blk) (asize : Nat) (h : HeapInv env s (L ++ (c, false) :: R))
    (ha : 16 ≤ asize) (ha8 : asize % 8 = 0) (hac : asize ≤ c) :
    HeapInv env (place s (env.lo + 224 + tot L) asize) (placed L c R asize) ∧
    SameFields s (place s (env.lo + 224 + tot L) asize) :=
  ⟨(place_spec_kept env henv s L c R asize h ha ha8 hac).1,
    (place_spec_kept env henv s L c R asize h ha ha8 hac).2.1⟩

/-! ## Monotonicity of the size-class index -/

theorem get_free_index_loop_mono (fuel s t : Nat) (idx : Int) (h1 : 6 ≤ idx) (h2 : idx ≤ 26)
    (hst : s ≤ t) : get_free_index_loop fuel s idx ≤ get_free_index_loop fuel t idx := by
  induction fuel generalizing s t idx with
  | zero => simp [get_free_index_loop]
  | succ n ih =>
    unfold get_free_index_loop
    simp only [FREE_LIST_NUM]
    by_cases hs : s > 0
    · have ht : t > 0 := by omega
      rw [if_pos hs, if_pos ht]
      split
      · exact le_refl _
      · rename_i h3
        norm_num at h3
        apply ih _ _ _ (by omega) (by omega)
        rw [Nat.shiftRight_eq_div_pow, Nat.shiftRight_eq_div_pow]
        exact Nat.div_le_div_right hst
    · rw [if_neg hs]
      by_cases ht : t > 0
      · rw [if_pos ht]
        split
        · norm_num; omega
        · rename_i h3
          norm_num at h3
          have := get_free_index_loop_range n (t >>> 1) (idx + 1) (by omega) (by omega)
          omega
      · rw [if_neg ht]

theorem get_free_index_large (t : Nat) (h : 128 ≤ t) : 14 ≤ get_free_index t := by
  unfold get_free_index
  rw [if_neg (by omega)]
  have h1 := get_free_index_loop_mono 64 128 t 6 (by norm_num) (by norm_num) h
  have h2 : get_free_index_loop 64 128 6 = 14 := by decide
  omega

theorem get_free_index_small (s : Nat) (h1 : 16 ≤ s) (h2 : s ≤ 127) :
    get_free_index s = ((s - 16) / 8 : Nat) := by
  unfold get_free_index
  rw [if_pos h2]
  simp only [MIN_FREE_SIZE, DSIZE]
  have e : (s + 2 ^ 64 - 16) % 2 ^ 64 = s - 16 := by omega
  rw [e, to_int_small _ (by omega)]

theorem get_free_index_mono (s t : Nat) (h1 : 16 ≤ s) (h2 : s ≤ t) :
    get_free_index s ≤ get_free_index t := by
  by_cases hs : s ≤ 127
  · by_cases ht : t ≤ 127
    · rw [get_free_index_small s h1 hs, get_free_index_small t (by omega) ht]
      have : (s - 16) / 8 ≤ (t - 16) / 8 := Nat.div_le_div_right (by omega)
      exact_mod_cast this
    · have := get_free_index_large t (by omega)
      rw [get_free_index_small s h1 hs]
      have : (s - 16) / 8 ≤ 13 := by omega
      omega
  · unfold get_free_index
    rw [if_neg hs, if_neg (by omega)]
    exact get_free_index_loop_mono 64 s t 6 (by norm_num) (by norm_num) h2

/-! ## Scanning a chain -/

theorem first_fit_scan_spec (s : State) (asize : Nat) (l : List Nat) (fuel prev bp : Nat)
    (h : Chain s.mem s.heap_base prev bp l) (hf : l.length < fuel) :
    ∃ r, first_fit_scan s asize fuel bp = some r ∧
      ((r = 0 ∧ ∀ y ∈ l, GET_SIZE s.mem (y - 4) < asize) ∨
       (r ≠ 0 ∧ ∃ l1 l2, l = l1 ++ r :: l2 ∧ asize ≤ GET_SIZE s.mem (r - 4) ∧
          ∀ y ∈ l1, GET_SIZE s.mem (y - 4) < asize)) := by
  induction l generalizing fuel prev bp with
  | nil =>
    have : bp = 0 := h
    subst this
    cases fuel with
    | zero => simp at hf
    | succ n =>
      refine ⟨0, by simp [first_fit_scan, NULL], Or.inl ⟨rfl, by simp⟩⟩
  | cons x r ih =>
    obtain ⟨h1, h2, h3, h4⟩ := h
    subst h1
    cases fuel with
    | zero => simp at hf
    | succ n =>
      unfold first_fit_scan
      rw [if_pos h2]
      simp only [HDRP, WSIZE]
      by_cases hsz : GET_SIZE s.mem (bp - 4) ≥ asize
      · rw [if_pos hsz]
        exact ⟨bp, rfl, Or.inr ⟨h2, [], r, rfl, hsz, by simp⟩⟩
      · rw [if_neg hsz]
        obtain ⟨r', e, hr⟩ := ih n bp _ h4 (by simp at hf; omega)
        refine ⟨r', e, ?_⟩
        rcases hr with ⟨hr0, hall⟩ | ⟨hr0, l1, l2, hl, hsz', hall⟩
        · left
          refine ⟨hr0, ?_⟩
          intro y hy
          rcases List.mem_cons.1 hy with rfl | hy
          · omega
          · exact hall y hy
        · right
          refine ⟨hr0, bp :: l1, l2, by simp [hl], hsz', ?_⟩
          intro y hy
          rcases List.mem_cons.1 hy with rfl | hy
          · omega
          · exact hall y hy

theorem best_fit_scan_spec (s : State) (asize : Nat) (l : List Nat)
    (fuel prev bp min_bp min_size : Nat)
    (h : Chain s.mem s.heap_base prev bp l) (hf : l.length < fuel) :
    ∃ mb ms, best_fit_scan s asize fuel bp min_bp min_size = some (mb, ms) ∧
      ((mb = min_bp ∧ ms = min_size ∧
          ∀ y ∈ l, ¬ (asize ≤ GET_SIZE s.mem (y - 4) ∧ GET_SIZE s.mem (y - 4) < min_size)) ∨
       (mb ∈ l ∧ ms = GET_SIZE s.mem (mb - 4) ∧ asize ≤ ms ∧ ms < min_size ∧
          ∀ y ∈ l, asize ≤ GET_SIZE s.mem (y - 4) → ms ≤ GET_SIZE s.mem (y - 4))) := by
  induction l generalizing fuel prev bp min_bp min_size with
  | nil =>
    have : bp = 0 := h
    subst this
    cases fuel with
    | zero => simp at hf
    | succ n =>
      exact ⟨min_bp, min_size, by simp [best_fit_scan, NULL], Or.inl ⟨rfl, rfl, by simp⟩⟩
  | cons x r ih =>
    obtain ⟨h1, h2, h3, h4⟩ := h
    subst h1
    cases fuel with
    | zero => simp at hf
    | succ n =>
      unfold best_fit_scan
      rw [if_pos h2]
      simp only [HDRP, WSIZE]
      by_cases hsz : GET_SIZE s.mem (bp - 4) ≥ asize ∧ GET_SIZE s.mem (bp - 4) < min_size
      · rw [if_pos hsz]
        obtain ⟨mb, ms, e, hr⟩ := ih n bp _ bp (GET_SIZE s.mem (bp - 4)) h4
          (by simp at hf; omega)
        refine ⟨mb, ms, e, Or.inr ?_⟩
        rcases hr with ⟨e1, e2, hall⟩ | ⟨e1, e2, e3, e4, hall⟩
        · subst e1 e2
          refine ⟨by simp, rfl, hsz.1, hsz.2, ?_⟩
          intro y hy hya
          rcases List.mem_cons.1 hy with rfl | hy
          · exact le_refl _
          · have := hall y hy
            omega
        · refine ⟨by simp [e1], e2, e3, by omega, ?_⟩
          intro y hy hya
          rcases List.mem_cons.1 hy with rfl | hy
          · omega
          · exact hall y hy hya
      · rw [if_neg hsz]
        obtain ⟨mb, ms, e, hr⟩ := ih n bp _ min_bp min_size h4 (by simp at hf; omega)
        refine ⟨mb, ms, e, ?_⟩
        rcases hr with ⟨e1, e2, hall⟩ | ⟨e1, e2, e3, e4, hall⟩
        · left
          refine ⟨e1, e2, ?_⟩
          intro y hy
          rcases List.mem_cons.1 hy with rfl | hy
          · exact hsz
          · exact hall y hy
        · right
          refine ⟨by simp [e1], e2, e3, e4, ?_⟩
          intro y hy hya
          rcases List.mem_cons.1 hy with rfl | hy
          · omega
          · exact hall y hy hya

theorem nodup_length_le (l : List Nat) (a n : Nat) (hnd : l.Nodup)
    (h : ∀ y ∈ l, a ≤ y ∧ y < a + n) : l.length ≤ n := by
  have h1 : l.toFinset ⊆ Finset.Ico a (a + n) := by
    intro y hy
    rw [List.mem_toFinset] at hy
    rw [Finset.mem_Ico]
    exact h y hy
  have h2 := Finset.card_le_card h1
  rw [List.toFinset_card_of_nodup hnd] at h2
  simpa using h2

/-! ## `find_fit` -/

theorem HeapInv_chain (env : Env) (henv : env.ok) (s : State) (bs : List Blk)
    (h : HeapInv env s bs) (j : Nat) (hj : j < 27) :
    ∃ l : List Nat, Chain s.mem s.heap_base NULL (free_list_get s (j : Int)) l ∧
      l.length < s.brk - s.heap_base ∧ l.Nodup ∧
      (∀ y, y ∈ l ↔ ∃ sz, (y, sz, false) ∈ layout (env.lo + 224) bs ∧
        get_free_index sz = (j : Int)) ∧
      (∀ y sz, (y, sz, false) ∈ layout (env.lo + 224) bs →
        y ≠ 0 ∧ GET_SIZE s.mem (y - 4) = sz ∧ 16 ≤ sz ∧ sz < 4294967295) := by
  obtain ⟨l, h1, h2, h3⟩ := h.1.lists j hj
  have htl := Heap_tot_le env henv s _ _ _ h.1
  refine ⟨l, ?_, ?_, h2, ?_, ?_⟩
  · rw [free_list_get_nat, h.1.fl, h.1.hb]
    exact h1
  · have := nodup_length_le l (env.lo + 224) (tot bs) h2 (by
      intro y hy
      obtain ⟨sz, ⟨f, _⟩, _⟩ := (h3 y).1 hy
      have := layout_mem_bounds _ _ _ _ _ f
      have := Seg_mem _ _ _ _ _ h.1.seg _ _ _ f
      omega)
    rw [h.1.brk, h.1.hb]
    omega
  · intro y
    rw [h3 y]
    constructor
    · rintro ⟨sz, ⟨f, _⟩, c⟩; exact ⟨sz, f, c⟩
    · rintro ⟨sz, f, c⟩; exact ⟨sz, ⟨f, fun hc => hc⟩, c⟩
  · intro y sz f
    have hb := layout_mem_bounds _ _ _ _ _ f
    obtain ⟨s1, s2, pa0, s3, _⟩ := Seg_mem _ _ _ _ _ h.1.seg _ _ _ f
    refine ⟨by have := henv.1; omega, GET_SIZE_hdr _ _ _ _ _ s3 s2, s1, by omega⟩

theorem find_fit_loop_spec (env : Env) (henv : env.ok) (s : State) (bs : List Blk)
    (h : HeapInv env s bs) (asize : Nat) (n k : Nat) (hk : k + n = 27) :
    ∃ r, find_fit_loop s asize (s.brk - s.heap_base) n (k : Int) NULL 0xffffffff = some r ∧
      ((r = 0 ∧ ∀ x sz, (x, sz, false) ∈ layout (env.lo + 224) bs →
          (k : Int) ≤ get_free_index sz → sz < asize) ∨
       (r ≠ 0 ∧ ∃ sz, (r, sz, false) ∈ layout (env.lo + 224) bs ∧ asize ≤ sz)) := by
  induction n generalizing k with
  | zero =>
    refine ⟨0, rfl, Or.inl ⟨rfl, ?_⟩⟩
    intro x sz f hc
    have := Seg_mem _ _ _ _ _ h.1.seg _ _ _ f
    have := get_free_index_range sz this.1
    omega
  | succ n ih =>
    obtain ⟨l, c1, c2, c3, c4, c5⟩ := HeapInv_chain env henv s bs h k (by omega)
    obtain ⟨r0, e0, hr0⟩ := ih (k + 1) (by omega)
    have hcast : ((k : Int) + 1) = ((k + 1 : Nat) : Int) := by push_cast; rfl
    have hstep : ∀ x sz, (x, sz, false) ∈ layout (env.lo + 224) bs →
        (∀ y ∈ l, GET_SIZE s.mem (y - 4) < asize) →
        (((k + 1 : Nat) : Int) ≤ get_free_index sz → sz < asize) →
        (k : Int) ≤ get_free_index sz → sz < asize := by
      intro x sz f hall hrest hc
      by_cases hcls : get_free_index sz = (k : Int)
      · have hx : x ∈ l := (c4 x).2 ⟨sz, f, hcls⟩
        have := hall x hx
        rw [(c5 x sz f).2.1] at this
        exact this
      · apply hrest
        push_cast
        omega
    unfold find_fit_loop
    by_cases h13 : (k : Int) < 13
    · rw [if_pos h13]
      obtain ⟨r, e, hr⟩ := first_fit_scan_spec s asize l _ _ _ c1 c2
      rw [e]
      simp only [NULL]
      rcases hr with ⟨hr1, hall⟩ | ⟨hr1, l1, l2, hl, hsz, _⟩
      · subst hr1
        simp only [ne_eq, not_true_eq_false, if_false]
        rw [hcast]
        refine ⟨r0, e0, ?_⟩
        rcases hr0 with ⟨z, hz⟩ | hr0
        · left
          refine ⟨z, ?_⟩
          intro x sz f hc
          exact hstep x sz f hall (hz x sz f) hc
        · right; exact hr0
      · rw [if_pos hr1]
        refine ⟨r, rfl, Or.inr ⟨hr1, ?_⟩⟩
        obtain ⟨sz, f, _⟩ := (c4 r).1 (by rw [hl]; simp)
        refine ⟨sz, f, ?_⟩
        rw [← (c5 r sz f).2.1]
        exact hsz
    · rw [if_neg h13]
      obtain ⟨mb, ms, e, hr⟩ := best_fit_scan_spec s asize l _ _ _ NULL 0xffffffff c1 c2
      rw [e]
      simp only [NULL]
      rcases hr with ⟨e1, e2, hall⟩ | ⟨e1, e2, e3, e4, _⟩
      · have e1' : mb = 0 := e1
        subst e1' e2
        simp only [ne_eq, not_true_eq_false, if_false]
        rw [hcast]
        refine ⟨r0, e0, ?_⟩
        rcases hr0 with ⟨z, hz⟩ | hr0
        · left
          refine ⟨z, ?_⟩
          intro x sz f hc
          apply hstep x sz f _ (hz x sz f) hc
          intro y hy
          have := hall y hy
          obtain ⟨sy, fy, _⟩ := (c4 y).1 hy
          have := c5 y sy fy
          omega
        · right; exact hr0
      · obtain ⟨sz, f, _⟩ := (c4 mb).1 e1
        have hmb := c5 mb sz f
        rw [if_pos hmb.1]
        refine ⟨mb, rfl, Or.inr ⟨hmb.1, sz, f, ?_⟩⟩
        rw [← hmb.2.1, ← e2]
        exact e3

theorem find_fit_spec (env : Env) (henv : env.ok) (s : State) (bs : List Blk)
    (h : HeapInv env s bs) (asize : Nat) (ha : 16 ≤ asize) :
    ∃ r, find_fit s asize = some r ∧
      ((r = 0 ∧ ∀ x sz, (x, sz, false) ∈ layout (env.lo + 224) bs → sz < asize) ∨
       (r ≠ 0 ∧ ∃ sz, (r, sz, false) ∈ layout (env.lo + 224) bs ∧ asize ≤ sz)) := by
  obtain ⟨k, hk, hc⟩ := get_free_index_nat asize ha
  unfold find_fit
  simp only [hc, FREE_LIST_NUM]
  have e : Int.toNat ((27 : Nat) - (k : Int)) = 27 - k := by omega
  rw [e]
  obtain ⟨r, e1, hr⟩ := find_fit_loop_spec env henv s bs h asize (27 - k) k (by omega)
  refine ⟨r, e1, ?_⟩
  rcases hr with ⟨z, hz⟩ | hr
  · left
    refine ⟨z, ?_⟩
    intro x sz f
    by_contra hcon
    have hge : asize ≤ sz := by omega
    have := get_free_index_mono asize sz ha hge
    rw [hc] at this
    have := hz x sz f this
    omega
  · right; exact hr

/-! ## Allocated blocks of the derived runs -/

theorem splitLast_spec (L : List Blk) :
    ∃ Lf, L = (splitLast L).1 ++ Lf ∧ tot Lf = (splitLast L).2 ∧ ∀ b ∈ Lf, b.2 = false := by
  by_cases hL : outAlloc true L = true
  · rw [splitLast_of_alloc L hL]
    exact ⟨[], by simp, rfl, by simp⟩
  · have hL' : outAlloc true L = false := by simpa using hL
    obtain ⟨L1, lsz, rfl⟩ := outAlloc_false_split L hL'
    rw [splitLast_snoc]
    exact ⟨[(lsz, false)], rfl, by simp, by simp⟩

theorem splitHead_spec (R : List Blk) :
    ∃ Rf, R = Rf ++ (splitHead R).2 ∧ tot Rf = (splitHead R).1 ∧ ∀ b ∈ Rf, b.2 = false := by
  cases R with
  | nil => exact ⟨[], rfl, rfl, by simp⟩
  | cons b r =>
    obtain ⟨rsz, ral⟩ := b
    cases ral with
    | true => exact ⟨[], rfl, rfl, by simp⟩
    | false => exact ⟨[(rsz, false)], rfl, by simp [splitHead_free], by simp⟩

theorem alloc_mem_coalesced (p : Nat) (L : List Blk) (sz : Nat) (R : List Blk) (q sq : Nat) :
    (q, sq, true) ∈ layout p (coalesced L sz R) ↔
      ((q, sq, true) ∈ layout p L ∨ (q, sq, true) ∈ layout (p + tot L + sz) R) := by
  obtain ⟨Lf, hL, hLt, hLf⟩ := splitLast_spec L
  obtain ⟨Rf, hR, hRt, hRf⟩ := splitHead_spec R
  unfold coalesced
  have e1 : (q, sq, true) ∈ layout p L ↔ (q, sq, true) ∈ layout p (splitLast L).1 := by
    conv_lhs => rw [hL]
    rw [mem_layout_append]
    constructor
    · rintro (h | h)
      · exact h
      · exact absurd h (alloc_not_mem_free _ _ hLf _ _)
    · intro h; exact Or.inl h
  have e2 : (q, sq, true) ∈ layout (p + tot L + sz) R ↔
      (q, sq, true) ∈ layout (p + tot L + sz + tot Rf) (splitHead R).2 := by
    conv_lhs => rw [hR]
    rw [mem_layout_append]
    constructor
    · rintro (h | h)
      · exact absurd h (alloc_not_mem_free _ _ hRf _ _)
      · exact h
    · intro h; exact Or.inr h
  rw [e1, e2, mem_layout_append]
  have ht : tot L = tot (splitLast L).1 + (splitLast L).2 := by
    conv_lhs => rw [hL]
    rw [tot_append, hLt]
  have e3 : p + tot (splitLast L).1 + ((splitLast L).2 + sz + (splitHead R).1)
      = p + tot L + sz + tot Rf := by
    rw [ht, hRt]; omega
  simp only [layout_cons, List.mem_cons, Prod.mk.injEq, e3]
  constructor
  · rintro (h | h | h)
    · exact Or.inl h
    · simp at h
    · exact Or.inr h
  · rintro (h | h)
    · exact Or.inl h
    · exact Or.inr (Or.inr h)

theorem alloc_mem_placed (p : Nat) (L : List Blk) (c : Nat) (R : List Blk) (asize : Nat)
    (hac : asize ≤ c) (q sq : Nat) :
    (q, sq, true) ∈ layout p (placed L c R asize) ↔
      ((q, sq, true) ∈ layout p (L ++ (c, false) :: R) ∨
        (q = p + tot L ∧ sq = if c - asize ≥ 16 then asize else c)) := by
  unfold placed
  split
  · rename_i h16
    have e : p + tot L + asize + (c - asize) = p + tot L + c := by omega
    simp only [mem_layout_append, layout_cons, List.mem_cons, Prod.mk.injEq, Nat.add_assoc] at *
    simp only [← Nat.add_assoc] at *
    rw [e]
    constructor
    · rintro (h | h | h | h)
      · exact Or.inl (Or.inl h)
      · exact Or.inr ⟨h.1, h.2.1⟩
      · simp at h
      · exact Or.inl (Or.inr (Or.inr h))
    · rintro ((h | h | h) | h)
      · exact Or.inl h
      · simp at h
      · exact Or.inr (Or.inr (Or.inr h))
      · exact Or.inr (Or.inl ⟨h.1, h.2, trivial⟩)
  · simp only [mem_layout_append, layout_cons, List.mem_cons, Prod.mk.injEq]
    constructor
    · rintro (h | h | h)
      · exact Or.inl (Or.inl h)
      · exact Or.inr ⟨h.1, h.2.1⟩
      · exact Or.inl (Or.inr (Or.inr h))
    · rintro ((h | h | h) | h)
      · exact Or.inl h
      · simp at h
      · exact Or.inr (Or.inr h)
      · exact Or.inr (Or.inl ⟨h.1, h.2, trivial⟩)

theorem ext_size_props (words : Nat) (hw3 : 3 ≤ words) :
    16 ≤ ext_size words ∧ ext_size words % 8 = 0 ∧ words * 4 ≤ ext_size words := by
  unfold ext_size
  split <;> omega

theorem extend_heap_fail (env : Env) (s : State) (words : Nat) (hw : words + 1 < 2 ^ 62)
    (hf : ¬ (env.sbrk_ok s.calls = true ∧ s.brk + ext_size words ≤ env.lo + env.max_heap)) :
    extend_heap env s words = (0, { s with calls := s.calls + 1 }) := by
  have e : (if words % 2 ≠ 0 then (words + 1) * WSIZE % 2 ^ 64 else words * WSIZE % 2 ^ 64)
      = ext_size words := by
    unfold ext_size
    simp only [WSIZE]
    split <;> omega
  unfold extend_heap
  simp only [e, mem_sbrk, if_neg hf]
  simp [NULL]

theorem PACK_epilogue : PACK 0 1 0 = hdr 0 true false := by decide

theorem Prot_append_left (env : Env) (L R : List Blk) (a : Nat) (ha : Prot env L a) :
    Prot env (L ++ R) a := by
  obtain ⟨q, sq, hq, h1, h2⟩ := ha
  exact ⟨q, sq, by rw [mem_layout_append]; exact Or.inl hq, h1, h2⟩

set_option maxHeartbeats 1000000 in
theorem extend_heap_ok_kept (env : Env) (henv : env.ok) (s : State) (bs : List Blk) (words : Nat)
    (h : HeapInv env s bs) (hw3 : 3 ≤ words) (hw : words + 1 < 2 ^ 62)
    (hok : env.sbrk_ok s.calls = true ∧ s.brk + ext_size words ≤ env.lo + env.max_heap) :
    (extend_heap env s words).1 = env.lo + 224 + tot (splitLast bs).1 ∧
    HeapInv env (extend_heap env s words).2 (coalesced bs (ext_size words) []) ∧
    (extend_heap env s words).2.brk = s.brk + ext_size words ∧
    (extend_heap env s words).2.calls = s.calls + 1 ∧
    Kept (Prot env bs) s (extend_heap env s words).2 := by
  obtain ⟨hH, hadj⟩ := h
  obtain ⟨z1, z2, _⟩ := ext_size_props words hw3
  have e : (if words % 2 ≠ 0 then (words + 1) * 4 % 2 ^ 64 else words * 4 % 2 ^ 64)
      = ext_size words := by
    unfold ext_size
    split <;> omega
  generalize hsz : ext_size words = size at *
  have hbrk := hH.brk
  have hnf : s.brk ≠ SBRK_FAIL := by
    have := henv.2.2
    have := henv.2.1
    simp only [SBRK_FAIL]
    omega
  have hepi := hH.epi
  have e1 : GET_PRED_ALLOC s.mem (s.brk - 4) = if outAlloc true bs then 2 else 0 :=
    GET_PRED_ALLOC_hdr _ _ _ _ _ hepi (by norm_num)
  have hw1 := PACK_free size (outAlloc true bs) z2
  have hle : size + 4 ≤ 4294967296 := by
    have := henv.2.1
    omega
  have hww := hdr_word size false (outAlloc true bs) hle
  have e3 : ∀ m : Mem, GET_SIZE (PUT m (s.brk - 4) (hdr size false (outAlloc true bs)))
      (s.brk - 4) = size := by
    intro m
    apply GET_SIZE_hdr _ _ _ false (outAlloc true bs) _ z2
    rw [GET_PUT_same, hww]
  have e4 : ∀ m : Mem, GET_SIZE (PUT (PUT m (s.brk - 4) (hdr size false (outAlloc true bs)))
      (s.brk + size - 8) (hdr size false (outAlloc true bs))) (s.brk - 4) = size := by
    intro m
    apply GET_SIZE_hdr _ _ _ false (outAlloc true bs) _ z2
    rw [GET_PUT_other _ _ _ _ (by omega), GET_PUT_same, hww]
  have hcode : extend_heap env s words = coalesce
      (State.mk s.heap_base s.free_lists
        (PUT (PUT (PUT s.mem (s.brk - 4) (hdr size false (outAlloc true bs)))
          (s.brk + size - 8) (hdr size false (outAlloc true bs)))
          (s.brk + size - 4) (hdr 0 true false))
        (s.brk + size) (s.calls + 1)) s.brk := by
    unfold extend_heap
    simp only [e, mem_sbrk, if_pos hok, if_neg hnf, HDRP, NEXT_BLKP, FTRP, WSIZE, DSIZE, put,
      e1, hw1, e3, e4, PACK_epilogue]
  rw [hcode]
  generalize hs4 : (State.mk s.heap_base s.free_lists
        (PUT (PUT (PUT s.mem (s.brk - 4) (hdr size false (outAlloc true bs)))
          (s.brk + size - 8) (hdr size false (outAlloc true bs)))
          (s.brk + size - 4) (hdr 0 true false))
        (s.brk + size) (s.calls + 1)) = s4
  have hm4 : s4.mem = PUT (PUT (PUT s.mem (s.brk - 4) (hdr size false (outAlloc true bs)))
          (s.brk + size - 8) (hdr size false (outAlloc true bs)))
          (s.brk + size - 4) (hdr 0 true false) := by rw [← hs4]
  have hf4 : s4.heap_base = s.heap_base ∧ s4.free_lists = s.free_lists ∧
      s4.brk = s.brk + size ∧ s4.calls = s.calls + 1 := by
    rw [← hs4]; exact ⟨rfl, rfl, rfl, rfl⟩
  have hFW := FreeIn_FWf _ _ _ _ hH.seg (Heap_tot_le env henv s _ _ _ hH)
  have h4 : Heap env s4 (bs ++ (size, false) :: []) (fun y => y = env.lo + 224 + tot bs)
      none_of := by
    refine ⟨by rw [hf4.1, hH.hb], by rw [hf4.2.1, hH.fl], ?_, ?_, ?_, ?_, ?_⟩
    · rw [hf4.2.2.1, hbrk]; simp; omega
    · rw [hf4.2.2.1]; exact hok.2
    · rw [Seg_append]
      constructor
      · apply Seg_frame_range _ _ _ _ _ _ hH.seg (by omega)
        intro a h1 h2
        rw [hm4, PUT_other_byte _ _ _ _ (by omega), PUT_other_byte _ _ _ _ (by omega),
          PUT_other_byte _ _ _ _ (by omega)]
      · rw [← hbrk]
        refine ⟨z1, z2, ?_, ?_, trivial⟩
        · rw [hm4, GET_PUT_other _ _ _ _ (by omega), GET_PUT_other _ _ _ _ (by omega),
            GET_PUT_same, hww]
        · intro _
          refine ⟨outAlloc true bs, ?_, fun _ => rfl⟩
          rw [hm4, GET_PUT_other _ _ _ _ (by simp only; omega), GET_PUT_same, hww]
    · rw [hf4.2.2.1, hm4, GET_PUT_same]
      simp [hdr]
    · have hl2 : Lists s4.mem env.lo (fun x sz => FreeIn (env.lo + 224) bs x sz ∧ ¬ none_of x) := by
        apply Lists_frame _ _ _ _ _ _ hH.lists
        · intro a ha
          rw [hm4, PUT_other_byte _ _ _ _ (by omega), PUT_other_byte _ _ _ _ (by omega),
            PUT_other_byte _ _ _ _ (by omega)]
        · rintro y sy ⟨fy, _⟩ a h1 h2
          have := layout_mem_bounds _ _ _ _ _ fy
          have := hFW.range y sy fy
          rw [hm4, PUT_other_byte _ _ _ _ (by omega), PUT_other_byte _ _ _ _ (by omega),
            PUT_other_byte _ _ _ _ (by omega)]
      apply Lists_congr _ _ _ _ _ hl2
      intro x sz
      rw [FreeIn_append]
      constructor
      · rintro ⟨f, _⟩
        refine ⟨Or.inl f, ?_⟩
        have := layout_mem_bounds _ _ _ _ _ f
        have := hFW.range x sz f
        omega
      · rintro ⟨f | f, hu⟩
        · exact ⟨f, fun hc => hc⟩
        · simp only [FreeIn, layout_cons, layout_nil, List.mem_singleton, Prod.mk.injEq] at f
          exact absurd f.1 hu
  have hc := coalesce_spec_kept env henv s4 bs size [] _ _ h4 (fun _ => Iff.rfl)
    (fun _ hy => hy.elim) hadj trivial
  rw [← hbrk] at hc
  obtain ⟨c1, _, c3, c4⟩ := hc
  have hsf := coalesce_same s4 s.brk
  have k0 : Kept (Prot env bs) s s4 := by
    rintro a ⟨q, sq, hq, h1, h2⟩
    have := layout_mem_bounds _ _ _ _ _ hq
    rw [hm4, PUT_other_byte _ _ _ _ (by omega), PUT_other_byte _ _ _ _ (by omega),
      PUT_other_byte _ _ _ _ (by omega)]
  exact ⟨c1, c3, by rw [hsf.2.2.1, hf4.2.2.1], by rw [hsf.2.2.2, hf4.2.2.2],
    k0.trans_kept (c4.mono (fun a ha => Prot_append_left env bs _ a ha))⟩

theorem extend_heap_ok (env : Env) (henv : env.ok) (s : State) (bs : List Blk) (words : Nat)
    (h : HeapInv env s bs) (hw3 : 3 ≤ words) (hw : words + 1 < 2 ^ 62)
    (hok : env.sbrk_ok s.calls = true ∧ s.brk + ext_size words ≤ env.lo + env.max_heap) :
    (extend_heap env s words).1 = env.lo + 224 + tot (splitLast bs).1 ∧
    HeapInv env (extend_heap env s words).2 (coalesced bs (ext_size words) []) ∧
    (extend_heap env s words).2.brk = s.brk + ext_size words ∧
    (extend_heap env s words).2.calls = s.calls + 1 :=
  ⟨(extend_heap_ok_kept env henv s bs words h hw3 hw hok).1,
    (extend_heap_ok_kept env henv s bs words h hw3 hw hok).2.1,
    (extend_heap_ok_kept env henv s bs words h hw3 hw hok).2.2.1,
    (extend_heap_ok_kept env henv s bs words h hw3 hw hok).2.2.2.1⟩

/-! ## Stores into the payload of an allocated block -/

theorem HeapInv_congr (env : Env) (s s' : State) (bs : List Blk) (h : HeapInv env s bs)
    (h1 : s'.heap_base = s.heap_base) (h2 : s'.free_lists = s.free_lists)
    (h3 : s'.mem = s.mem) (h4 : s'.brk = s.brk) : HeapInv env s' bs := by
  obtain ⟨hH, hadj⟩ := h
  exact ⟨⟨by rw [h1, hH.hb], by rw [h2, hH.fl], by rw [h4, hH.brk], by rw [h4]; exact hH.le,
    by rw [h3]; exact hH.seg, by rw [h3, h4]; exact hH.epi, by rw [h3]; exact hH.lists⟩, hadj⟩

theorem payload_write (env : Env) (s s' : State) (bs : List Blk) (h : HeapInv env s bs)
    (q sq : Nat) (hq : (q, sq, true) ∈ layout (env.lo + 224) bs)
    (h1 : s'.heap_base = s.heap_base) (h2 : s'.free_lists = s.free_lists)
    (h4 : s'.brk = s.brk)
    (hm : ∀ a, (a < q ∨ q + sq - 4 ≤ a) → s'.mem a = s.mem a) : HeapInv env s' bs := by
  obtain ⟨hH, hadj⟩ := h
  obtain ⟨L, R, e, hq'⟩ := layout_mem_split _ _ _ _ _ hq
  subst e
  subst hq'
  obtain ⟨m1, m2, m3, _⟩ := Heap_mid env s L sq true R _ _ hH
  have hH' : Heap env s (L ++ [(sq, true)] ++ R) none_of none_of := by simpa using hH
  have hr := Heap_right_unchanged env s s' L [(sq, true)] R _ _ hH' none_of
    (by
      intro a ha
      simp only [tot_cons, tot_nil, Nat.add_zero] at ha
      apply hm; omega)
    (fun _ _ hx => hx)
  have h5 : Heap env s' (L ++ [(sq, true)] ++ R) none_of none_of := by
    apply Heap_replace env s s' L [(sq, true)] [(sq, true)] R _ _ _ _ hH' h1 h2 h4
    · intro a ha
      simp only [tot_cons, tot_nil, Nat.add_zero] at ha
      apply hm; omega
    · rfl
    · refine ⟨m1, m2, ?_, by simp, trivial⟩
      rw [GET_congr s.mem s'.mem _ (fun a h1 h2 => hm a (by omega))]
      exact m3
    · exact hr.1
    · exact hr.2
    · intro x sx hx
      simp [FreeIn] at hx
    · intro x sx hx
      simp [FreeIn] at hx
    · intro x _
      exact Iff.rfl
    · intro x _ hx
      exact hx
  exact ⟨by simpa using h5, hadj⟩

/-! ## `mm_init` -/

theorem clear_free_lists_spec (s : State) (n : Nat) :
    SameFields s (clear_free_lists s n) ∧
    (∀ i, i < n → GET_PTR (clear_free_lists s n).mem (s.free_lists + 8 * i) = 0) ∧
    (∀ a, s.free_lists + 8 * n ≤ a → (clear_free_lists s n).mem a = s.mem a) := by
  induction n with
  | zero => exact ⟨SameFields.rfl' s, by simp, fun _ _ => rfl⟩
  | succ n ih =>
    obtain ⟨i1, i2, i3⟩ := ih
    have hm : (clear_free_lists s (n + 1)).mem =
        PUT_PTR (clear_free_lists s n).mem (s.free_lists + 8 * n) 0 := by
      show (free_list_set (clear_free_lists s n) (n : Int) NULL).mem = _
      rw [free_list_set_mem, i1.2.1]
      rfl
    refine ⟨i1.trans ⟨rfl, rfl, rfl, rfl⟩, ?_, ?_⟩
    · intro i hi
      rw [hm]
      by_cases e : i = n
      · subst e
        exact GET_PTR_PUT_PTR_same _ _ _ (by norm_num)
      · rw [GET_PTR_PUT_PTR_other _ _ _ _ (by omega)]
        exact i2 i (by omega)
    · intro a ha
      rw [hm, PUT_PTR_other_byte _ _ _ _ (by omega)]
      exact i3 a (by omega)

theorem PACK_prologue : PACK 0 1 2 = hdr 0 true true := by decide

theorem ext_size_even (words : Nat) (h : words % 2 = 0) : ext_size words = words * 4 := by
  unfold ext_size
  rw [if_neg (by omega)]

theorem coalesced_nil (sz : Nat) : coalesced [] sz [] = [(sz, false)] := by
  simp [coalesced, splitLast, splitHead]

set_option maxHeartbeats 1000000 in
theorem mm_init_spec (env : Env) (henv : env.ok) (s0 : State) (r : Int) (s1 : State)
    (hbrk : s0.brk = env.lo) (h : mm_init env s0 = some (r, s1)) :
    ∃ bs, HeapInv env s1 bs ∧ ((r = 0 ∧ bs = [(4096, false)]) ∨
      (r = -1 ∧ bs = [] ∧ ∃ k, ¬ (env.sbrk_ok k = true ∧ 4320 ≤ env.max_heap))) := by
  unfold mm_init at h
  simp only [mem_sbrk, FREE_LIST_NUM, DSIZE] at h
  by_cases hok : env.sbrk_ok s0.calls = true ∧ s0.brk + (27 + 1) * 8 ≤ env.lo + env.max_heap
  · rw [if_pos hok] at h
    have hnf : s0.brk ≠ SBRK_FAIL := by
      have := henv.2.2
      have := henv.2.1
      simp only [SBRK_FAIL]
      omega
    simp only [if_neg hnf] at h
    generalize hsA : (State.mk s0.brk s0.brk s0.mem (s0.brk + (27 + 1) * 8) (s0.calls + 1)) = sA
      at h
    have hfA : sA.heap_base = env.lo ∧ sA.free_lists = env.lo ∧ sA.brk = env.lo + 224 := by
      rw [← hsA]; simp [hbrk]
    obtain ⟨c1, c2, c3⟩ := clear_free_lists_spec sA 27
    generalize hsB : clear_free_lists sA 27 = sB at h c1 c2 c3
    have e1 : HDRP (sB.free_lists + 8 * (27 + 1)) = env.lo + 220 := by
      rw [c1.2.1, hfA.2.1]; simp [HDRP, WSIZE]
    rw [e1, PACK_prologue] at h
    generalize hsI : put sB (env.lo + 220) (hdr 0 true true) = sI at h
    have hfI : sI.heap_base = env.lo ∧ sI.free_lists = env.lo ∧ sI.brk = env.lo + 224 ∧
        sI.mem = PUT sB.mem (env.lo + 220) (hdr 0 true true) := by
      rw [← hsI]
      exact ⟨by rw [← hfA.1, ← c1.1]; rfl, by rw [← hfA.2.1, ← c1.2.1]; rfl,
        by rw [← hfA.2.2, ← c1.2.2.1]; rfl, rfl⟩
    have hI : HeapInv env sI [] := by
      refine ⟨⟨hfI.1, hfI.2.1, by rw [hfI.2.2.1]; simp, ?_, trivial, ?_, ?_⟩, trivial⟩
      · rw [hfI.2.2.1]
        have := hok.2
        rw [hbrk] at this
        omega
      · rw [hfI.2.2.1, hfI.2.2.2]
        show GET _ (env.lo + 220) = _
        rw [GET_PUT_same]
        rfl
      · intro i hi
        refine ⟨[], ?_, List.nodup_nil, ?_⟩
        · show GET_PTR sI.mem (env.lo + 8 * i) = 0
          rw [hfI.2.2.2, GET_PTR_congr sB.mem _ _ (fun a h1 h2 =>
            PUT_other_byte _ _ _ _ (by omega))]
          have := c2 i hi
          rw [hfA.2.1] at this
          exact this
        · intro x
          simp [FreeIn]
    have hw : (CHUNKSIZE / WSIZE) = 1024 := by decide
    rw [hw] at h
    have hes : ext_size 1024 = 4096 := by decide
    by_cases hok2 : env.sbrk_ok sI.calls = true ∧ sI.brk + ext_size 1024 ≤ env.lo + env.max_heap
    · obtain ⟨x1, x2, _, _⟩ := extend_heap_ok env henv sI [] 1024 hI (by norm_num)
        (by norm_num) hok2
      have hne : (extend_heap env sI 1024).1 ≠ NULL := by
        rw [x1]
        simp only [NULL]
        have := henv.1
        omega
      rw [if_neg hne] at h
      simp only [Option.some.injEq, Prod.mk.injEq] at h
      rw [← h.2, ← h.1]
      refine ⟨[(4096, false)], ?_, Or.inl ⟨rfl, rfl⟩⟩
      rw [hes, coalesced_nil] at x2
      exact x2
    · have x := extend_heap_fail env sI 1024 (by norm_num) hok2
      rw [x] at h
      simp only [NULL, if_true, Option.some.injEq, Prod.mk.injEq] at h
      rw [← h.2, ← h.1]
      refine ⟨[], HeapInv_congr env sI _ [] hI rfl rfl rfl rfl, Or.inr ⟨rfl, rfl, sI.calls, ?_⟩⟩
      intro hc
      refine hok2 ⟨hc.1, ?_⟩
      rw [hfI.2.2.1, hes]
      have := hc.2
      omega
  · rw [if_neg hok] at h
    simp at h

/-! ## `malloc` -/

theorem adjusted_size_props (size : Nat) (h1 : 1 ≤ size) (h2 : size + 11 < 2 ^ 64) :
    16 ≤ adjusted_size size ∧ adjusted_size size % 8 = 0 ∧ size + 4 ≤ adjusted_size size ∧
    adjusted_size size ≤ size + 15 ∧ adjusted_size size + 8 ≤ 2 ^ 64 := by
  unfold adjusted_size
  simp only [MIN_FREE_SIZE, WSIZE, DSIZE]
  split
  · omega
  · have e : (size + 4 + (8 - 1)) % 2 ^ 64 = size + 11 := by omega
    rw [e]
    omega

theorem MAX_props (a : Nat) (h8 : a % 8 = 0) :
    a ≤ MAX a CHUNKSIZE ∧ 4096 ≤ MAX a CHUNKSIZE ∧ MAX a CHUNKSIZE % 8 = 0 ∧
    (MAX a CHUNKSIZE = a ∨ MAX a CHUNKSIZE = 4096) := by
  unfold MAX CHUNKSIZE
  split <;> omega

theorem ext_size_MAX (a : Nat) (h8 : a % 8 = 0) :
    ext_size (MAX a CHUNKSIZE / WSIZE) = MAX a CHUNKSIZE := by
  obtain ⟨_, _, m3, _⟩ := MAX_props a h8
  simp only [WSIZE]
  rw [ext_size_even _ (by omega)]
  omega

theorem malloc_unfold (env : Env) (s : State) (size : Nat) (hhb : s.heap_base ≠ NULL)
    (h0 : size ≠ 0) (r : Nat) (e : find_fit s (adjusted_size size) = some r) :
    malloc env s size =
      if r ≠ NULL then some (r, place s r (adjusted_size size))
      else if (extend_heap env s (MAX (adjusted_size size) CHUNKSIZE / WSIZE)).1 = NULL then
        some (NULL, (extend_heap env s (MAX (adjusted_size size) CHUNKSIZE / WSIZE)).2)
      else some ((extend_heap env s (MAX (adjusted_size size) CHUNKSIZE / WSIZE)).1,
        place (extend_heap env s (MAX (adjusted_size size) CHUNKSIZE / WSIZE)).2
          (extend_heap env s (MAX (adjusted_size size) CHUNKSIZE / WSIZE)).1
          (adjusted_size size)) := by
  unfold malloc
  rw [if_neg hhb]
  simp only []
  rw [if_neg h0, e]

theorem Prot_splitLast (env : Env) (bs : List Blk) (a : Nat) (ha : Prot env bs a) :
    Prot env (splitLast bs).1 a := by
  obtain ⟨Lf, e, _, hf⟩ := splitLast_spec bs
  generalize (splitLast bs).1 = L1 at e
  subst e
  have h := (Prot_split env L1 Lf [] hf a).1 (by simpa using ha)
  rcases h with h | ⟨q, sq, hq, _⟩
  · exact h
  · simp at hq

set_option maxHeartbeats 1000000 in
theorem malloc_spec_kept (env : Env) (henv : env.ok) (s : State) (bs : List Blk) (size : Nat)
    (h : HeapInv env s bs) (hsz : size + 11 < 2 ^ 64) :
    (size = 0 ∧ malloc env s size = some (0, s)) ∨
    (size ≠ 0 ∧ ∃ L c R, bs = L ++ (c, false) :: R ∧ adjusted_size size ≤ c ∧
      find_fit s (adjusted_size size) = some (env.lo + 224 + tot L) ∧
      malloc env s size = some (env.lo + 224 + tot L,
        place s (env.lo + 224 + tot L) (adjusted_size size)) ∧
      HeapInv env (place s (env.lo + 224 + tot L) (adjusted_size size))
        (placed L c R (adjusted_size size)) ∧
      SameFields s (place s (env.lo + 224 + tot L) (adjusted_size size)) ∧
      Kept (Prot env bs) s (place s (env.lo + 224 + tot L) (adjusted_size size))) ∨
    (size ≠ 0 ∧ find_fit s (adjusted_size size) = some 0 ∧
      (∀ x sz, (x, sz, false) ∈ layout (env.lo + 224) bs → sz < adjusted_size size) ∧
      ¬ (env.sbrk_ok s.calls = true ∧
        s.brk + MAX (adjusted_size size) CHUNKSIZE ≤ env.lo + env.max_heap) ∧
      malloc env s size = some (0, { s with calls := s.calls + 1 })) ∨
    (size ≠ 0 ∧ find_fit s (adjusted_size size) = some 0 ∧
      (∀ x sz, (x, sz, false) ∈ layout (env.lo + 224) bs → sz < adjusted_size size) ∧
      (env.sbrk_ok s.calls = true ∧
        s.brk + MAX (adjusted_size size) CHUNKSIZE ≤ env.lo + env.max_heap) ∧
      ∃ s', malloc env s size = some (env.lo + 224 + tot (splitLast bs).1, s') ∧
        HeapInv env s' (placed (splitLast bs).1
          ((splitLast bs).2 + MAX (adjusted_size size) CHUNKSIZE) [] (adjusted_size size)) ∧
        s'.brk = s.brk + MAX (adjusted_size size) CHUNKSIZE ∧ s'.calls = s.calls + 1 ∧
        s'.heap_base = s.heap_base ∧ s'.free_lists = s.free_lists ∧
        Kept (Prot env bs) s s') := by
  have hhb : s.heap_base ≠ NULL := by
    rw [h.1.hb]
    simp only [NULL]
    have := henv.1
    omega
  by_cases h0 : size = 0
  · left
    refine ⟨h0, ?_⟩
    unfold malloc
    rw [if_neg hhb]
    simp only []
    rw [if_pos h0]
    rfl
  · right
    obtain ⟨a1, a2, a3, a4, a5⟩ := adjusted_size_props size (by omega) hsz
    obtain ⟨r, e, hr⟩ := find_fit_spec env henv s bs h (adjusted_size size) a1
    have hun := malloc_unfold env s size hhb h0 r e
    rcases hr with ⟨hr0, hall⟩ | ⟨hr0, c, f, hc⟩
    · right
      subst hr0
      rw [if_neg (by simp [NULL])] at hun
      obtain ⟨x1, x2, x3, x4⟩ := MAX_props (adjusted_size size) a2
      have hes := ext_size_MAX (adjusted_size size) a2
      have hw3 : 3 ≤ MAX (adjusted_size size) CHUNKSIZE / WSIZE := by
        simp only [WSIZE]; omega
      have hw62 : MAX (adjusted_size size) CHUNKSIZE / WSIZE + 1 < 2 ^ 62 := by
        simp only [WSIZE]; omega
      by_cases hok : env.sbrk_ok s.calls = true ∧
          s.brk + MAX (adjusted_size size) CHUNKSIZE ≤ env.lo + env.max_heap
      · right
        refine ⟨h0, e, hall, hok, ?_⟩
        obtain ⟨y1, y2, y3, y4, y5⟩ := extend_heap_ok_kept env henv s bs _ h hw3 hw62
          (by rw [hes]; exact hok)
        rw [hes] at y2 y3
        have hne : ¬ ((extend_heap env s (MAX (adjusted_size size) CHUNKSIZE / WSIZE)).1
            = NULL) := by
          rw [y1]
          simp only [NULL]
          have := henv.1
          omega
        rw [if_neg hne] at hun
        have hco : coalesced bs (MAX (adjusted_size size) CHUNKSIZE) [] =
            (splitLast bs).1 ++
              ((splitLast bs).2 + MAX (adjusted_size size) CHUNKSIZE, false) :: [] := by
          simp [coalesced, splitHead]
        rw [hco] at y2
        obtain ⟨hp1, hp, hp3⟩ := place_spec_kept env henv _ (splitLast bs).1
          ((splitLast bs).2 + MAX (adjusted_size size) CHUNKSIZE) [] (adjusted_size size)
          y2 a1 a2 (by omega)
        rw [y1] at hun
        refine ⟨_, hun, hp1, by rw [hp.2.2.1, y3], by rw [hp.2.2.2, y4], ?_, ?_, ?_⟩
        · rw [hp.1, y2.1.hb, h.1.hb]
        · rw [hp.2.1, y2.1.fl, h.1.fl]
        · refine y5.trans_kept (hp3.mono ?_)
          intro a ha
          exact Prot_append_left env _ _ a (Prot_splitLast env bs a ha)
      · left
        refine ⟨h0, e, hall, hok, ?_⟩
        rw [extend_heap_fail env s _ hw62 (by rw [hes]; exact hok)] at hun
        rw [hun]
        simp [NULL]
    · left
      obtain ⟨L, R, ebs, er⟩ := layout_mem_split _ _ _ _ _ f
      subst ebs
      subst er
      have hr0' : env.lo + 224 + tot L ≠ NULL := hr0
      rw [if_pos hr0'] at hun
      have hp := place_spec_kept env henv s L c R (adjusted_size size) h a1 a2 hc
      exact ⟨h0, L, c, R, rfl, hc, e, hun, hp.1, hp.2.1, hp.2.2⟩

theorem malloc_spec (env : Env) (henv : env.ok) (s : State) (bs : List Blk) (size : Nat)
    (h : HeapInv env s bs) (hsz : size + 11 < 2 ^ 64) :
    (size = 0 ∧ malloc env s size = some (0, s)) ∨
    (size ≠ 0 ∧ ∃ L c R, bs = L ++ (c, false) :: R ∧ adjusted_size size ≤ c ∧
      find_fit s (adjusted_size size) = some (env.lo + 224 + tot L) ∧
      malloc env s size = some (env.lo + 224 + tot L,
        place s (env.lo + 224 + tot L) (adjusted_size size)) ∧
      HeapInv env (place s (env.lo + 224 + tot L) (adjusted_size size))
        (placed L c R (adjusted_size size)) ∧
      SameFields s (place s (env.lo + 224 + tot L) (adjusted_size size))) ∨
    (size ≠ 0 ∧ find_fit s (adjusted_size size) = some 0 ∧
      (∀ x sz, (x, sz, false) ∈ layout (env.lo + 224) bs → sz < adjusted_size size) ∧
      ¬ (env.sbrk_ok s.calls = true ∧
        s.brk + MAX (adjusted_size size) CHUNKSIZE ≤ env.lo + env.max_heap) ∧
      malloc env s size = some (0, { s with calls := s.calls + 1 })) ∨
    (size ≠ 0 ∧ find_fit s (adjusted_size size) = some 0 ∧
      (∀ x sz, (x, sz, false) ∈ layout (env.lo + 224) bs → sz < adjusted_size size) ∧
      (env.sbrk_ok s.calls = true ∧
        s.brk + MAX (adjusted_size size) CHUNKSIZE ≤ env.lo + env.max_heap) ∧
      ∃ s', malloc env s size = some (env.lo + 224 + tot (splitLast bs).1, s') ∧
        HeapInv env s' (placed (splitLast bs).1
          ((splitLast bs).2 + MAX (adjusted_size size) CHUNKSIZE) [] (adjusted_size size)) ∧
        s'.brk = s.brk + MAX (adjusted_size size) CHUNKSIZE ∧ s'.calls = s.calls + 1 ∧
        s'.heap_base = s.heap_base ∧ s'.free_lists = s.free_lists) := by
  rcases malloc_spec_kept env henv s bs size h hsz with
    a | ⟨h0, L, c, R, x1, x2, x3, x4, x5, x6, _⟩ | a |
    ⟨h0, x1, x2, x3, s', x4, x5, x6, x7, x8, x9, _⟩
  · exact Or.inl a
  · exact Or.inr (Or.inl ⟨h0, L, c, R, x1, x2, x3, x4, x5, x6⟩)
  · exact Or.inr (Or.inr (Or.inl a))
  · exact Or.inr (Or.inr (Or.inr ⟨h0, x1, x2, x3, s', x4, x5, x6, x7, x8, x9⟩))

/-- A call of `malloc` leaves the payload bytes of the allocated blocks as they are. -/
theorem malloc_kept (env : Env) (henv : env.ok) (s : State) (bs : List Blk) (size : Nat)
    (h : HeapInv env s bs) (hsz : size + 11 < 2 ^ 64) (r : Nat) (s' : State)
    (hm : malloc env s size = some (r, s')) : Kept (Prot env bs) s s' := by
  rcases malloc_spec_kept env henv s bs size h hsz with
    ⟨_, e⟩ | ⟨_, L, c, R, _, _, _, e, _, _, k⟩ | ⟨_, _, _, _, e⟩ |
    ⟨_, _, _, _, s2, e, _, _, _, _, _, k⟩
  · rw [e] at hm
    obtain ⟨_, rfl⟩ := Prod.mk.inj (Option.some.inj hm)
    exact Kept_refl _ _
  · rw [e] at hm
    obtain ⟨_, rfl⟩ := Prod.mk.inj (Option.some.inj hm)
    exact k
  · rw [e] at hm
    obtain ⟨_, rfl⟩ := Prod.mk.inj (Option.some.inj hm)
    exact fun _ _ => rfl
  · rw [e] at hm
    obtain ⟨_, rfl⟩ := Prod.mk.inj (Option.some.inj hm)
    exact k

/-! ## What callers of `malloc` can rely on -/

theorem fresh_free_block (m : Mem) (W : Nat → Prop) (p : Nat) (pa : Bool) (L : List Blk)
    (c : Nat) (R : List Blk) (h : Seg m W p pa (L ++ (c, false) :: R)) (sq : Nat) :
    (p + tot L, sq, true) ∉ layout p (L ++ (c, false) :: R) := by
  intro hq
  have hm := layout_mem_mid p L R c false
  have h1 := Seg_mem m W p pa _ h _ _ _ hq
  have h2 := Seg_mem m W p pa _ h _ _ _ hm
  rcases layout_sep m W p pa _ h _ _ _ _ _ _ hq hm with ⟨_, _, h3⟩ | h3 | h3
  · exact Bool.noConfusion h3
  · omega
  · omega

theorem fresh_after_last (m : Mem) (W : Nat → Prop) (p : Nat) (pa : Bool) (bs : List Blk)
    (h : Seg m W p pa bs) (sq : Nat) :
    (p + tot (splitLast bs).1, sq, true) ∉ layout p bs := by
  intro hq
  obtain ⟨Lf, e, _, hf⟩ := splitLast_spec bs
  have h1 := Seg_mem m W p pa _ h _ _ _ hq
  generalize (splitLast bs).1 = L1 at e hq h1
  subst e
  rw [mem_layout_append] at hq
  rcases hq with hq | hq
  · have := layout_mem_bounds _ _ _ _ _ hq
    omega
  · exact alloc_not_mem_free _ _ hf _ _ hq

/-- A call of `malloc` on a well-formed heap returns; the heap stays well formed, the
blocks that were allocated stay so, and a non-null result is the block pointer of a block
that was not allocated before and holds the request and a header. -/
theorem malloc_coarse (env : Env) (henv : env.ok) (s : State) (bs : List Blk) (size : Nat)
    (h : HeapInv env s bs) (hsz : size + 11 < 2 ^ 64) :
    ∃ r s' bs', malloc env s size = some (r, s') ∧ HeapInv env s' bs' ∧
      s'.heap_base = s.heap_base ∧ s'.free_lists = s.free_lists ∧
      (∀ q sq, (q, sq, true) ∈ layout (env.lo + 224) bs →
        (q, sq, true) ∈ layout (env.lo + 224) bs') ∧
      (r ≠ 0 → size ≠ 0 ∧ (∀ sq, (r, sq, true) ∉ layout (env.lo + 224) bs) ∧
        ∃ bsz, (r, bsz, true) ∈ layout (env.lo + 224) bs' ∧ size + 4 ≤ bsz) ∧
      (size ≠ 0 → r = 0 → ¬ (env.sbrk_ok s.calls = true ∧
        s.brk + MAX (adjusted_size size) CHUNKSIZE ≤ env.lo + env.max_heap)) ∧
      s'.brk ≤ s.brk + MAX (adjusted_size size) CHUNKSIZE := by
  have hlo := henv.1
  rcases malloc_spec env henv s bs size h hsz with
    ⟨h0, e⟩ | ⟨h0, L, c, R, hbs, hc, _, e, hp, hsf⟩ | ⟨h0, _, _, hno, e⟩ |
    ⟨h0, _, _, _, s', e, hp, hbrk, _, f1, f2⟩
  · exact ⟨0, s, bs, e, h, rfl, rfl, fun _ _ hq => hq, fun hr => absurd rfl hr,
      fun hs => absurd h0 hs, Nat.le_add_right _ _⟩
  · obtain ⟨a1, a2, a3, a4, a5⟩ := adjusted_size_props size (by omega) hsz
    refine ⟨_, _, _, e, hp, hsf.1, hsf.2.1, ?_, ?_, fun _ hr => by omega,
      by rw [hsf.2.2.1]; exact Nat.le_add_right _ _⟩
    · intro q sq hq
      rw [alloc_mem_placed _ _ _ _ _ hc]
      left
      rw [← hbs]
      exact hq
    · intro _
      refine ⟨h0, ?_, ?_⟩
      · intro sq
        rw [hbs]
        have hseg := h.1.seg
        rw [hbs] at hseg
        exact fresh_free_block _ _ _ _ _ _ _ hseg sq
      · refine ⟨if c - adjusted_size size ≥ 16 then adjusted_size size else c, ?_, ?_⟩
        · rw [alloc_mem_placed _ _ _ _ _ hc]
          right
          exact ⟨rfl, rfl⟩
        · split <;> omega
  · refine ⟨0, _, bs, e, HeapInv_congr env s _ bs h rfl rfl rfl rfl, rfl, rfl,
      fun _ _ hq => hq, fun hr => absurd rfl hr, fun _ _ => hno, Nat.le_add_right _ _⟩
  · obtain ⟨a1, a2, a3, a4, a5⟩ := adjusted_size_props size (by omega) hsz
    obtain ⟨x1, x2, x3, x4⟩ := MAX_props (adjusted_size size) a2
    have hc : adjusted_size size ≤ (splitLast bs).2 + MAX (adjusted_size size) CHUNKSIZE := by
      omega
    refine ⟨_, _, _, e, hp, f1, f2, ?_, ?_, fun _ hr => by omega, by rw [hbrk]⟩
    · intro q sq hq
      rw [alloc_mem_placed _ _ _ _ _ hc]
      left
      have := (alloc_mem_coalesced (env.lo + 224) bs (MAX (adjusted_size size) CHUNKSIZE) []
        q sq).2 (Or.inl hq)
      simpa [coalesced, splitHead] using this
    · intro _
      refine ⟨h0, fun sq => fresh_after_last _ _ _ _ _ h.1.seg sq, ?_⟩
      refine ⟨if (splitLast bs).2 + MAX (adjusted_size size) CHUNKSIZE - adjusted_size size
          ≥ 16 then adjusted_size size
        else (splitLast bs).2 + MAX (adjusted_size size) CHUNKSIZE, ?_, ?_⟩
      · rw [alloc_mem_placed _ _ _ _ _ hc]
        right
        exact ⟨rfl, rfl⟩
      · split <;> omega

/-! ## The live allocations -/

theorem LiveOK_nil (env : Env) (bs : List Blk) : LiveOK env bs [] := by
  simp [LiveOK]

theorem LiveOK_mono (env : Env) (bs bs' : List Blk) (live : Live) (h : LiveOK env bs live)
    (hg : ∀ q sq, (q, sq, true) ∈ layout (env.lo + 224) bs →
      (q, sq, true) ∈ layout (env.lo + 224) bs') : LiveOK env bs' live := by
  refine ⟨h.1, fun p n hp => ?_⟩
  obtain ⟨sz, h1, h2⟩ := h.2 p n hp
  exact ⟨sz, hg _ _ h1, h2⟩

theorem LiveOK_cons (env : Env) (bs bs' : List Blk) (live : Live) (h : LiveOK env bs live)
    (hg : ∀ q sq, (q, sq, true) ∈ layout (env.lo + 224) bs →
      (q, sq, true) ∈ layout (env.lo + 224) bs')
    (r size bsz : Nat) (hfresh : ∀ sq, (r, sq, true) ∉ layout (env.lo + 224) bs)
    (hr : (r, bsz, true) ∈ layout (env.lo + 224) bs') (hsz : size + 4 ≤ bsz) :
    LiveOK env bs' ((r, size) :: live) := by
  constructor
  · simp only [List.map_cons, List.nodup_cons]
    refine ⟨?_, h.1⟩
    intro hm
    obtain ⟨e, he, he'⟩ := List.mem_map.1 hm
    obtain ⟨sz, h1, _⟩ := h.2 e.1 e.2 he
    rw [he'] at h1
    exact hfresh _ h1
  · intro p n hp
    rcases List.mem_cons.1 hp with e | hp
    · obtain ⟨rfl, rfl⟩ := Prod.mk.inj e
      exact ⟨bsz, hr, hsz⟩
    · obtain ⟨sz, h1, h2⟩ := h.2 p n hp
      exact ⟨sz, hg _ _ h1, h2⟩

theorem LiveOK_remove (env : Env) (L : List Blk) (sz : Nat) (R : List Blk) (live : Live)
    (h : LiveOK env (L ++ (sz, true) :: R) live) :
    LiveOK env (coalesced L sz R)
      (live.filter (fun e => decide (e.1 ≠ env.lo + 224 + tot L))) := by
  constructor
  · exact (h.1.sublist ((List.filter_sublist live).map Prod.fst))
  · intro p n hp
    obtain ⟨hp1, hp2⟩ := List.mem_filter.1 hp
    have hne : p ≠ env.lo + 224 + tot L := by simpa using hp2
    obtain ⟨bsz, h1, h2⟩ := h.2 p n hp1
    refine ⟨bsz, ?_, h2⟩
    rw [alloc_mem_coalesced]
    rw [mem_layout_append] at h1
    rcases h1 with h1 | h1
    · exact Or.inl h1
    · simp only [layout_cons, List.mem_cons, Prod.mk.injEq] at h1
      rcases h1 with ⟨h1, _⟩ | h1
      · exact absurd h1 hne
      · exact Or.inr h1

/-! ## The invariant of reachable states -/

theorem LiveOK_filter (env : Env) (bs : List Blk) (live : Live) (f : Nat × Nat → Bool)
    (h : LiveOK env bs live) : LiveOK env bs (live.filter f) :=
  ⟨h.1.sublist ((List.filter_sublist live).map Prod.fst),
    fun p n hp => h.2 p n (List.mem_filter.1 hp).1⟩

theorem free_inv (env : Env) (henv : env.ok) (s : State) (bs : List Blk) (live : Live)
    (hinv : HeapInv env s bs) (hlive : LiveOK env bs live) (p : Nat)
    (hp : p = NULL ∨ p ∈ live.map Prod.fst) :
    ∃ bs', HeapInv env (free s p) bs' ∧
      LiveOK env bs' (live.filter (fun e => decide (e.1 ≠ p))) ∧ SameFields s (free s p) := by
  rcases hp with hp | hp
  · have e : free s p = s := by
      have hp0 : p = 0 := hp
      unfold free
      rw [if_pos hp0]
    rw [e]
    exact ⟨bs, hinv, LiveOK_filter env bs live _ hlive, rfl, rfl, rfl, rfl⟩
  · obtain ⟨e, he, he'⟩ := List.mem_map.1 hp
    obtain ⟨sz, h1, _⟩ := hlive.2 e.1 e.2 he
    rw [he'] at h1
    obtain ⟨L, R, hbs, hq⟩ := layout_mem_split _ _ _ _ _ h1
    subst hbs
    subst hq
    have hf := free_spec env henv s L sz R hinv
    exact ⟨_, hf.1, LiveOK_remove env L sz R live hlive, hf.2⟩

theorem malloc_inv (env : Env) (henv : env.ok) (s : State) (bs : List Blk) (live : Live)
    (hinv : HeapInv env s bs) (hlive : LiveOK env bs live) (size : Nat)
    (hsz : size + 11 < 2 ^ 64) :
    ∃ r s' bs', malloc env s size = some (r, s') ∧ HeapInv env s' bs' ∧
      LiveOK env bs' (if r = NULL then live else (r, size) :: live) ∧
      s'.heap_base = s.heap_base ∧ s'.free_lists = s.free_lists ∧
      (∀ q sq, (q, sq, true) ∈ layout (env.lo + 224) bs →
        (q, sq, true) ∈ layout (env.lo + 224) bs') ∧
      (r ≠ 0 → size ≠ 0 ∧ (∀ sq, (r, sq, true) ∉ layout (env.lo + 224) bs) ∧
        ∃ bsz, (r, bsz, true) ∈ layout (env.lo + 224) bs' ∧ size + 4 ≤ bsz) ∧
      (size ≠ 0 → r = 0 → ¬ (env.sbrk_ok s.calls = true ∧
        s.brk + MAX (adjusted_size size) CHUNKSIZE ≤ env.lo + env.max_heap)) ∧
      s'.brk ≤ s.brk + MAX (adjusted_size size) CHUNKSIZE := by
  obtain ⟨r, s', bs', e, h1, h2, h3, h4, h5, h6⟩ :=
    malloc_coarse env henv s bs size hinv hsz
  refine ⟨r, s', bs', e, h1, ?_, h2, h3, h4, h5, h6⟩
  by_cases hr : r = NULL
  · rw [if_pos hr]
    exact LiveOK_mono env bs bs' live hlive h4
  · rw [if_neg hr]
    obtain ⟨_, hf, bsz, hb1, hb2⟩ := h5 hr
    exact LiveOK_cons env bs bs' live hlive h4 r size bsz hf hb1 hb2

theorem realloc_unfold (env : Env) (s : State) (ptr size : Nat) (h0 : size ≠ 0)
    (hp : ptr ≠ NULL) (r : Nat) (s2 : State) (e : malloc env s size = some (r, s2)) :
    realloc env s ptr size =
      if r = 0 then some (0, s2)
      else some (r, free { s2 with mem := (memcpy s2.mem r ptr
        (if size < GET_SIZE s2.mem (HDRP ptr) then size else GET_SIZE s2.mem (HDRP ptr))) }
        ptr) := by
  unfold realloc
  rw [if_neg h0, if_neg hp, e]

theorem realloc_inv (env : Env) (henv : env.ok) (s : State) (bs : List Blk) (live : Live)
    (hinv : HeapInv env s bs) (hlive : LiveOK env bs live) (ptr size : Nat)
    (hptr : ptr = NULL ∨ ptr ∈ live.map Prod.fst) (hsz : size + 11 < 2 ^ 64) :
    ∃ q s' bs', realloc env s ptr size = some (q, s') ∧ HeapInv env s' bs' ∧
      LiveOK env bs' (realloc_live live ptr size q) ∧ s'.heap_base = s.heap_base ∧
      (q ≠ 0 → ∃ bsz, (q, bsz, true) ∈ layout (env.lo + 224) bs' ∧ size + 4 ≤ bsz) := by
  by_cases h0 : size = 0
  · obtain ⟨bs', f1, f2, f3⟩ := free_inv env henv s bs live hinv hlive ptr hptr
    refine ⟨0, free s ptr, bs', ?_, f1, ?_, f3.1, fun hq => absurd rfl hq⟩
    · unfold realloc
      rw [if_pos h0]
    · unfold realloc_live
      rw [if_pos h0]
      exact f2
  · obtain ⟨r, s2, bs2, e, m1, m2, m3, m4, m5, m6, _⟩ :=
      malloc_inv env henv s bs live hinv hlive size hsz
    by_cases hp : ptr = NULL
    · refine ⟨r, s2, bs2, ?_, m1, ?_, m3, fun hq => (m6 hq).2.2⟩
      · unfold realloc
        rw [if_neg h0, if_pos hp]
        exact e
      · unfold realloc_live
        rw [if_neg h0, if_pos hp]
        exact m2
    · have hun := realloc_unfold env s ptr size h0 hp r s2 e
      by_cases hr : r = 0
      · rw [if_pos hr] at hun
        refine ⟨0, s2, bs2, hun, m1, ?_, m3, fun hq => absurd rfl hq⟩
        unfold realloc_live
        have h00 : (0 : Nat) = NULL := rfl
        rw [if_neg h0, if_neg hp, if_pos h00]
        have hr' : r = NULL := hr
        rw [if_pos hr'] at m2
        exact m2
      · rw [if_neg hr] at hun
        have hr' : ¬ r = NULL := hr
        rw [if_neg hr'] at m2
        obtain ⟨_, hfresh, bsz, hb1, hb2⟩ := m6 hr
        have hptr' : ptr ∈ live.map Prod.fst := by
          rcases hptr with hptr | hptr
          · exact absurd hptr hp
          · exact hptr
        generalize hold : (if size < GET_SIZE s2.mem (HDRP ptr) then size
          else GET_SIZE s2.mem (HDRP ptr)) = oldsize at hun
        have hle : oldsize ≤ size := by
          rw [← hold]
          split <;> omega
        have hinv3 : HeapInv env { s2 with mem := memcpy s2.mem r ptr oldsize } bs2 := by
          refine payload_write env s2 _ bs2 m1 r bsz hb1 rfl rfl rfl ?_
          intro a ha
          simp only [memcpy]
          rw [if_neg (by omega)]
        have hptr2 : ptr = NULL ∨ ptr ∈ List.map Prod.fst ((r, size) :: live) := by
          right
          simp only [List.map_cons, List.mem_cons]
          exact Or.inr hptr'
        obtain ⟨bs', f1, f2, f3⟩ := free_inv env henv _ bs2 _ hinv3 m2 ptr hptr2
        have hne : r ≠ ptr := by
          intro hc
          obtain ⟨e1, he, he'⟩ := List.mem_map.1 hptr'
          obtain ⟨sz, h1, _⟩ := hlive.2 e1.1 e1.2 he
          rw [he', ← hc] at h1
          exact hfresh _ h1
        refine ⟨r, _, bs', hun, f1, ?_, ?_, ?_⟩
        · unfold realloc_live
          rw [if_neg h0, if_neg hp, if_neg hr']
          rw [List.filter_cons, if_pos (by simpa using hne)] at f2
          exact f2
        · exact f3.1.trans m3
        · intro _
          obtain ⟨sz, h1, h2⟩ := f2.2 r size (by
            rw [List.filter_cons, if_pos (by simpa using hne)]
            exact List.mem_cons_self _ _)
          exact ⟨sz, h1, h2⟩

theorem store_inv (env : Env) (s : State) (bs : List Blk) (live : Live)
    (hinv : HeapInv env s bs) (hlive : LiveOK env bs live) (p n i v : Nat)
    (hp : (p, n) ∈ live) (hi : i < n) : HeapInv env (store_byte s (p + i) v) bs := by
  obtain ⟨sz, h1, h2⟩ := hlive.2 p n hp
  refine payload_write env s _ bs hinv p sz h1 rfl rfl rfl ?_
  intro a ha
  simp only [store_byte]
  rw [if_neg (by omega)]

/-- Every reachable state is a well-formed heap whose allocated blocks include, each once,
the live allocations. -/
theorem Reach_inv (env : Env) (henv : env.ok) (P : Nat → Prop)
    (hP : ∀ n, P n → n + 11 < 2 ^ 64) (s : State) (live : Live) (h : Reach env P s live) :
    ∃ bs, HeapInv env s bs ∧ LiveOK env bs live := by
  induction h with
  | init s0 s1 r _ hbrk hinit =>
    obtain ⟨bs, hb, _⟩ := mm_init_spec env henv s0 r s1 hbrk hinit
    exact ⟨bs, hb, LiveOK_nil env bs⟩
  | malloc s s' live size p _ hsz hm ih =>
    obtain ⟨bs, hinv, hlive⟩ := ih
    obtain ⟨r, s2, bs2, e, m1, m2, _⟩ := malloc_inv env henv s bs live hinv hlive size (hP _ hsz)
    rw [e] at hm
    obtain ⟨rfl, rfl⟩ := Prod.mk.inj (Option.some.inj hm)
    exact ⟨bs2, m1, m2⟩
  | free s live p _ hp ih =>
    obtain ⟨bs, hinv, hlive⟩ := ih
    obtain ⟨bs', f1, f2, _⟩ := free_inv env henv s bs live hinv hlive p hp
    exact ⟨bs', f1, f2⟩
  | realloc s s' live ptr size q _ hptr hsz hr ih =>
    obtain ⟨bs, hinv, hlive⟩ := ih
    obtain ⟨q2, s2, bs2, e, r1, r2, _⟩ :=
      realloc_inv env henv s bs live hinv hlive ptr size hptr (hP _ hsz)
    rw [e] at hr
    obtain ⟨rfl, rfl⟩ := Prod.mk.inj (Option.some.inj hr)
    exact ⟨bs2, r1, r2⟩
  | store s live p n i v _ hp hi ih =>
    obtain ⟨bs, hinv, hlive⟩ := ih
    exact ⟨bs, store_inv env s bs live hinv hlive p n i v hp hi, hlive⟩

/-! ## From the abstract run of blocks to the words in memory -/

theorem heap_walk_spec (m : Mem) (W : Nat → Prop) (p : Nat) (pa : Bool) (bs : List Blk)
    (x : Bool) (h : Seg m W p pa bs) (hepi : GET m (p + tot bs - 4) = hdr 0 true x)
    (fuel : Nat) (hf : bs.length < fuel) :
    heap_walk m fuel p = (layout p bs).map Prod.fst ∧
      heap_walk_end m fuel p = some (p + tot bs) := by
  induction bs generalizing p pa fuel with
  | nil =>
    cases fuel with
    | zero => simp at hf
    | succ f =>
      simp only [tot_nil, Nat.add_zero] at hepi
      have h1 := GET_SIZE_hdr m (p - 4) 0 true x hepi (by omega)
      have h2 := GET_ALLOC_hdr m (p - 4) 0 true x hepi (by omega)
      simp [heap_walk, heap_walk_end, HDRP, WSIZE, h1, h2]
  | cons b r ih =>
    cases fuel with
    | zero => simp at hf
    | succ f =>
      obtain ⟨s1, s2, s3, _, s5⟩ := h
      have h1 := GET_SIZE_hdr m (p - 4) b.1 b.2 pa s3 s2
      have e : p + b.1 + tot r - 4 = p + tot (b :: r) - 4 := by
        simp only [tot_cons]
        omega
      obtain ⟨i1, i2⟩ := ih (p + b.1) b.2 s5 (by rw [e]; exact hepi) f (by simpa using hf)
      have hne : ¬ (b.1 = 0 ∧ GET_ALLOC m (p - 4) = 1) := by omega
      simp only [heap_walk, heap_walk_end, HDRP, WSIZE, NEXT_BLKP, h1, if_neg hne, i1, i2,
        layout_cons, tot_cons, List.map_cons, Nat.add_assoc]
      exact ⟨trivial, trivial⟩

theorem length_le_tot (bs : List Blk) (h : ∀ b ∈ bs, 16 ≤ b.1 ∧ b.1 % 8 = 0) :
    bs.length ≤ tot bs := by
  induction bs with
  | nil => simp
  | cons b r ih =>
    have h1 := h b (by simp)
    have h2 := ih (fun c hc => h c (by simp [hc]))
    simp only [List.length_cons, tot_cons]
    omega

theorem first_bp_eq (env : Env) (s : State) (bs : List Blk) (h : HeapInv env s bs) :
    first_bp s = env.lo + 224 ∧ first_bp s = s.heap_base + 224 := by
  unfold first_bp
  rw [h.1.fl, h.1.hb]
  simp [DSIZE, FREE_LIST_NUM]

theorem blocks_layout (env : Env) (s : State) (bs : List Blk) (h : HeapInv env s bs) :
    blocks s = (layout (env.lo + 224) bs).map Prod.fst ∧
      heap_walk_end s.mem (s.brk - s.heap_base) (first_bp s) = some s.brk := by
  have hl := length_le_tot bs (Seg_sizes _ _ _ _ _ h.1.seg)
  have hepi := h.1.epi
  have hbrk := h.1.brk
  rw [hbrk] at hepi
  have hw := heap_walk_spec s.mem none_of (env.lo + 224) true bs _ h.1.seg hepi
    (s.brk - s.heap_base) (by rw [hbrk, h.1.hb]; omega)
  unfold blocks
  rw [(first_bp_eq env s bs h).1, hbrk]
  rw [hbrk] at hw
  exact hw

theorem layout_facts (env : Env) (s : State) (bs : List Blk) (h : HeapInv env s bs)
    (b sz : Nat) (al : Bool) (hb : (b, sz, al) ∈ layout (env.lo + 224) bs) :
    b ∈ blocks s ∧ 16 ≤ sz ∧ sz % 8 = 0 ∧ GET_SIZE s.mem (HDRP b) = sz ∧
      GET_ALLOC s.mem (HDRP b) = (if al then 1 else 0) ∧
      (al = false → GET s.mem (FTRP s.mem b) = GET s.mem (HDRP b)) := by
  obtain ⟨s1, s2, pa0, s3, s4⟩ := Seg_mem _ _ _ _ _ h.1.seg _ _ _ hb
  have hs := GET_SIZE_hdr s.mem (b - 4) sz al pa0 s3 s2
  refine ⟨?_, s1, s2, hs, GET_ALLOC_hdr s.mem (b - 4) sz al pa0 s3 s2, ?_⟩
  · rw [(blocks_layout env s bs h).1]
    exact List.mem_map.2 ⟨_, hb, rfl⟩
  · intro hal
    obtain ⟨pa', f1, f2⟩ := s4 hal
    have := f2 (fun hc => hc)
    subst this
    subst hal
    simp only [FTRP, HDRP, WSIZE, DSIZE, hs]
    rw [f1, s3]

theorem env0_ok : env0.ok := by
  unfold Env.ok env0
  simp

theorem any_size_100 : any_size 100 := by
  unfold any_size
  norm_num

theorem chunk_sizes_100 : chunk_sizes 100 := by
  unfold chunk_sizes CHUNKSIZE
  omega

theorem chunk_sizes_any (n : Nat) (h : chunk_sizes n) : n + 11 < 2 ^ 64 := by
  unfold chunk_sizes CHUNKSIZE at h
  omega

theorem init0_eq : mm_init env0 state0 = some init0 := by
  have h : ∃ r, mm_init env0 state0 = some r := by
    unfold mm_init
    have e : ¬ ((mem_sbrk env0 state0 ((FREE_LIST_NUM + 1) * DSIZE)).1 = SBRK_FAIL) := by
      simp [mem_sbrk, env0, state0, SBRK_FAIL, FREE_LIST_NUM, DSIZE]
    simp only []
    rw [if_neg e]
    split
    · exact ⟨_, rfl⟩
    · exact ⟨_, rfl⟩
  obtain ⟨r, hr⟩ := h
  unfold init0
  rw [hr]
  rfl

theorem init0_inv : HeapInv env0 init0.2 [(4096, false)] ∧ init0.1 = 0 := by
  obtain ⟨bs, hb, hc⟩ := mm_init_spec env0 env0_ok state0 init0.1 init0.2 rfl init0_eq
  rcases hc with ⟨h1, h2⟩ | ⟨_, _, k, hk⟩
  · rw [h2] at hb
    exact ⟨hb, h1⟩
  · exact absurd ⟨rfl, by simp [env0]⟩ hk

theorem reach_init0 (P : Nat → Prop) : Reach env0 P init0.2 [] :=
  Reach.init state0 init0.2 init0.1 rfl rfl init0_eq

theorem adjusted_size_100 : MAX (adjusted_size 100) CHUNKSIZE = 4096 := by
  decide

theorem malloc0_spec : malloc env0 init0.2 100 = some malloc0 ∧ malloc0.1 ≠ NULL ∧
    malloc0.2.brk ≤ 8424 := by
  obtain ⟨r, s', bs', e, _, _, _, _, _, _, h6, h7⟩ := malloc_inv env0 env0_ok init0.2 _ []
    init0_inv.1 (LiveOK_nil _ _) 100 any_size_100
  have hb : init0.2.brk = 4328 := by
    rw [init0_inv.1.1.brk]
    simp [env0, tot]
  rw [adjusted_size_100, hb] at h6 h7
  have e' : malloc0 = (r, s') := by
    unfold malloc0
    rw [e]
    rfl
  rw [e']
  refine ⟨e, ?_, ?_⟩
  · intro hr
    exact h6 (by norm_num) hr ⟨rfl, by simp [env0]⟩
  · show s'.brk ≤ 8424
    omega

theorem reach_malloc0 (P : Nat → Prop) (h : P 100) :
    Reach env0 P malloc0.2 [(malloc0.1, 100)] := by
  have := Reach.malloc init0.2 malloc0.2 [] 100 malloc0.1 (reach_init0 P) h malloc0_spec.1
  rw [if_neg malloc0_spec.2.1] at this
  exact this

theorem malloc1_spec : malloc env0 malloc0.2 100 = some malloc1 ∧ malloc1.1 ≠ NULL := by
  obtain ⟨bs, hinv, hlive⟩ := Reach_inv env0 env0_ok any_size (fun _ hn => hn) _ _
    (reach_malloc0 any_size any_size_100)
  obtain ⟨r, s', bs', e, _, _, _, _, _, _, h6, _⟩ := malloc_inv env0 env0_ok malloc0.2 _ _
    hinv hlive 100 any_size_100
  have hb := malloc0_spec.2.2
  rw [adjusted_size_100] at h6
  have e' : malloc1 = (r, s') := by
    unfold malloc1
    rw [e]
    rfl
  rw [e']
  refine ⟨e, ?_⟩
  intro hr
  refine h6 (by norm_num) hr ⟨rfl, ?_⟩
  simp only [env0]
  omega

theorem reach_malloc1 (P : Nat → Prop) (h : P 100) :
    Reach env0 P malloc1.2 [(malloc1.1, 100), (malloc0.1, 100)] := by
  have := Reach.malloc malloc0.2 malloc1.2 _ 100 malloc1.1 (reach_malloc0 P h) h
    malloc1_spec.1
  rw [if_neg malloc1_spec.2] at this
  exact this

theorem free_not_mem_alloc (p : Nat) (Z : List Blk) (hal : ∀ b ∈ Z, b.2 = true)
    (q sq : Nat) : (q, sq, false) ∉ layout p Z := by
  induction Z generalizing p with
  | nil => simp
  | cons b r ih =>
    simp only [layout_cons, List.mem_cons, Prod.mk.injEq, not_or]
    refine ⟨?_, ih _ (fun x hx => hal x (by simp [hx]))⟩
    intro hc
    have := hal b (by simp)
    rw [this] at hc
    exact Bool.noConfusion hc.2.2

theorem split_unique (L L' : List Blk) (c c' : Nat) (R R' : List Blk)
    (hL : ∀ b ∈ L, b.2 = true) (hR : ∀ b ∈ R, b.2 = true)
    (e : L ++ (c, false) :: R = L' ++ (c', false) :: R') : L' = L ∧ c' = c ∧ R' = R := by
  induction L generalizing L' with
  | nil =>
    cases L' with
    | nil =>
      simp only [List.nil_append, List.cons.injEq, Prod.mk.injEq] at e
      exact ⟨rfl, e.1.1.symm, e.2.symm⟩
    | cons b r =>
      simp only [List.nil_append, List.cons_append, List.cons.injEq] at e
      have := hR (c', false) (by rw [e.2]; simp)
      exact Bool.noConfusion this
  | cons a r ih =>
    cases L' with
    | nil =>
      simp only [List.nil_append, List.cons_append, List.cons.injEq] at e
      have := hL a (by simp)
      rw [e.1] at this
      exact Bool.noConfusion this
    | cons b r' =>
      simp only [List.cons_append, List.cons.injEq] at e
      obtain ⟨i1, i2, i3⟩ := ih r' (fun x hx => hL x (by simp [hx])) e.2
      exact ⟨by rw [i1, e.1], i2, i3⟩

/-- When the heap has one free block and it is large enough, `malloc` places the request
in it. -/
theorem malloc_only_fit (env : Env) (henv : env.ok) (s : State) (L : List Blk) (c : Nat)
    (R : List Blk) (size : Nat) (h : HeapInv env s (L ++ (c, false) :: R))
    (hL : ∀ b ∈ L, b.2 = true) (hR : ∀ b ∈ R, b.2 = true) (h0 : size ≠ 0)
    (hsz : size + 11 < 2 ^ 64) (hc : adjusted_size size ≤ c) :
    malloc env s size = some (env.lo + 224 + tot L,
      place s (env.lo + 224 + tot L) (adjusted_size size)) ∧
    HeapInv env (place s (env.lo + 224 + tot L) (adjusted_size size))
      (placed L c R (adjusted_size size)) := by
  have hm := layout_mem_mid (env.lo + 224) L R c false
  rcases malloc_spec env henv s _ size h hsz with
    ⟨h0', _⟩ | ⟨_, L', c', R', hbs, _, _, e, hp, _⟩ | ⟨_, _, hall, _⟩ | ⟨_, _, hall, _⟩
  · exact absurd h0' h0
  · obtain ⟨rfl, rfl, rfl⟩ := split_unique L L' c c' R R' hL hR hbs
    exact ⟨e, hp⟩
  · have := hall _ _ hm
    omega
  · have := hall _ _ hm
    omega

theorem adjusted_size_100_eq : adjusted_size 100 = 104 := by
  decide

/-- C1: in every state reachable from `mm_init` by calls of `malloc`, `free` and `realloc`
with request sizes between 1 and 4096 (`free` and `realloc` applied to live pointers,
the growth primitive succeeding or failing as the environment decides), the byte ranges
`[p, p + n)` and `[q, q + m)` of any two distinct live allocations are disjoint. The
environment is assumed to satisfy `Env.ok`. -/
theorem C1_live_ranges_disjoint (env : Env) (henv : env.ok) (s : State) (live : Live)
    (h : Reach env chunk_sizes s live) :
    live.Pairwise (fun a b => a.1 + a.2 ≤ b.1 ∨ b.1 + b.2 ≤ a.1) := by
  obtain ⟨bs, hinv, hlive⟩ := Reach_inv env henv chunk_sizes chunk_sizes_any s live h
  have hnd := hlive.1
  rw [List.Nodup, List.pairwise_map] at hnd
  refine hnd.imp_of_mem ?_
  intro a b ha hb hne
  obtain ⟨sa, a1, a2⟩ := hlive.2 a.1 a.2 ha
  obtain ⟨sb, b1, b2⟩ := hlive.2 b.1 b.2 hb
  rcases layout_sep _ _ _ _ _ hinv.1.seg _ _ _ _ _ _ a1 b1 with ⟨e, _⟩ | e | e
  · exact absurd e hne
  · left
    omega
  · right
    omega

/-- Instance of C1: the two allocations made by two calls `malloc(100)` on the freshly
initialised heap of the concrete run. -/
theorem C1_live_ranges_disjoint_witness :
    [(malloc1.1, 100), (malloc0.1, 100)].Pairwise
      (fun a b => a.1 + a.2 ≤ b.1 ∨ b.1 + b.2 ≤ a.1) :=
  C1_live_ranges_disjoint env0 env0_ok malloc1.2 _ (reach_malloc1 chunk_sizes chunk_sizes_100)

theorem memcpy_at (m : Mem) (dst src n i : Nat) (hi : i < n) :
    memcpy m dst src n (dst + i) = m (src + i) := by
  unfold memcpy
  rw [if_pos ⟨by omega, by omega⟩, Nat.add_sub_cancel_left]

/-- The behaviour of `realloc` on a live block when the fresh allocation succeeds: the
bytes copied are the first `min(size, block size)` bytes found at `ptr` after the fresh
allocation; that allocation left the payload of the old block as it was; and the word
just after the old payload is the header of the next block. -/
theorem realloc_content (env : Env) (henv : env.ok) (s : State) (bs : List Blk) (live : Live)
    (hinv : HeapInv env s bs) (hlive : LiveOK env bs live) (ptr n size : Nat)
    (hp : (ptr, n) ∈ live) (hsz : size + 11 < 2 ^ 64) (h0 : size ≠ 0) (q : Nat) (s' : State)
    (hr : realloc env s ptr size = some (q, s')) (hq : q ≠ NULL) :
    ∃ s2 bsz, malloc env s size = some (q, s2) ∧ n + 4 ≤ bsz ∧
      GET_SIZE s.mem (HDRP ptr) = bsz ∧ GET_SIZE s2.mem (HDRP ptr) = bsz ∧
      s' = free { s2 with mem := (memcpy s2.mem q ptr (if size < bsz then size else bsz)) }
        ptr ∧
      (∀ i, i < size → i < bsz → s'.mem (q + i) = s2.mem (ptr + i)) ∧
      (∀ i, i + 4 < bsz → s2.mem (ptr + i) = s.mem (ptr + i)) ∧
      ∃ nsz nal, GET s2.mem (ptr + bsz - 4) = hdr nsz nal true ∧ nsz % 8 = 0 := by
  obtain ⟨bsz, hb, hnb⟩ := hlive.2 ptr n hp
  have hlo := henv.1
  have hpb := layout_mem_bounds _ _ _ _ _ hb
  have hpn : ptr ≠ NULL := by
    simp only [NULL]
    omega
  obtain ⟨r, s2, bs2, e, m1, m2, m3, m4, m5, m6, _⟩ :=
    malloc_inv env henv s bs live hinv hlive size hsz
  have hk := malloc_kept env henv s bs size hinv hsz r s2 e
  have hun := realloc_unfold env s ptr size h0 hpn r s2 e
  rw [hun] at hr
  by_cases hr0 : r = 0
  · rw [if_pos hr0] at hr
    exact absurd (Prod.mk.inj (Option.some.inj hr)).1.symm hq
  rw [if_neg hr0] at hr
  obtain ⟨hqr, hs'⟩ := Prod.mk.inj (Option.some.inj hr)
  subst hqr
  have hr0' : ¬ r = NULL := hr0
  rw [if_neg hr0'] at m2
  obtain ⟨_, hfresh, bszr, hbr, hszr⟩ := m6 hr0
  have hb2 := m5 _ _ hb
  obtain ⟨_, _, _, f1, _⟩ := layout_facts env s bs hinv ptr bsz true hb
  obtain ⟨_, _, _, f2, _⟩ := layout_facts env s2 bs2 m1 ptr bsz true hb2
  rw [f2] at hs'
  have hne : r ≠ ptr := fun hc => hfresh bsz (hc ▸ hb)
  generalize hcnt : (if size < bsz then size else bsz) = cnt at hs'
  have hle : cnt ≤ size := by
    rw [← hcnt]
    split <;> omega
  have hinv3 : HeapInv env { s2 with mem := memcpy s2.mem r ptr cnt } bs2 := by
    refine payload_write env s2 _ bs2 m1 r bszr hbr rfl rfl rfl ?_
    intro a ha
    simp only [memcpy]
    rw [if_neg (by omega)]
  obtain ⟨L, R, hbs2, hpt⟩ := layout_mem_split _ _ _ _ _ hb2
  subst hbs2
  subst hpt
  have hfr := (free_spec_kept env henv _ L bsz R hinv3).2.2
  have hnx := Heap_next_hdr env s2 L bsz true R _ _ m1.1
  have hseg := m1.1.seg
  rw [Seg_append] at hseg
  obtain ⟨nsz, nal, n1, n2, _⟩ := nextHdr_mod _ _ _ _ true R hseg.2.2.2.2.2
  refine ⟨s2, bsz, e, hnb, f1, f2, by rw [hcnt]; exact hs'.symm, ?_, ?_, nsz, nal,
    by rw [hnx, n1], n2⟩
  · intro i hi1 hi2
    rw [← hs']
    rw [hfr (r + i) (Prot_other env L bsz R r bszr (r + i) hbr hne (by omega) (by omega))]
    exact memcpy_at _ _ _ _ _ (by rw [← hcnt]; split <;> omega)
  · intro i hi
    exact hk _ ⟨_, bsz, hb, by omega, by omega⟩

/-! ## Allocation on a heap that is one free block -/

theorem checkheap_blocks_spec (env : Env) (s : State) (p : Nat) (pa : Bool) (bs : List Blk)
    (x : Bool) (hseg : Seg s.mem none_of p pa bs)
    (hepi : GET s.mem (p + tot bs - 4) = hdr 0 true x) (hal : p % 8 = 0)
    (hlo : env.lo ≤ p) (hp : 4 ≤ p) (hbrk : p + tot bs = s.brk) (hlt : s.brk ≤ 2 ^ 64)
    (fuel : Nat) (hf : bs.length < fuel) :
    checkheap_blocks env s fuel p NULL = some true := by
  induction bs generalizing p pa fuel with
  | nil =>
    cases fuel with
    | zero => simp at hf
    | succ f =>
      simp only [tot_nil, Nat.add_zero] at hepi hbrk
      have h1 := GET_SIZE_hdr s.mem (p - 4) 0 true x hepi (by omega)
      have h2 := GET_ALLOC_hdr s.mem (p - 4) 0 true x hepi (by omega)
      have e : (p + 2 ^ 64 - 1) % 2 ^ 64 = mem_heap_hi s := by
        unfold mem_heap_hi
        omega
      have c1 : GET_SIZE s.mem (HDRP p) = 0 ∧ GET_ALLOC s.mem (HDRP p) = 1 :=
        ⟨h1, by simp only [HDRP, WSIZE]; rw [h2]; rfl⟩
      unfold checkheap_blocks
      rw [if_pos c1, if_neg (fun hc => hc e)]
  | cons b r ih =>
    cases fuel with
    | zero => simp at hf
    | succ f =>
      obtain ⟨s1, s2, s3, s4, s5⟩ := hseg
      simp only [tot_cons] at hepi hbrk
      have h1 := GET_SIZE_hdr s.mem (p - 4) b.1 b.2 pa s3 s2
      have h2 := GET_ALLOC_hdr s.mem (p - 4) b.1 b.2 pa s3 s2
      have hi := ih (p + b.1) b.2 s5 (by rw [← hepi]; congr 1; omega) (by omega) (by omega)
        (by omega) (by omega) f (by simpa using hf)
      have c1 : ¬ (GET_SIZE s.mem (HDRP p) = 0 ∧ GET_ALLOC s.mem (HDRP p) = 1) := by
        simp only [HDRP, WSIZE, h1]
        omega
      have c2 : ¬ (p % 8 ≠ 0) := by omega
      have c3 : ¬ (p < mem_heap_lo env ∨ p > mem_heap_hi s) := by
        unfold mem_heap_lo mem_heap_hi
        omega
      have c4 : ¬ (GET s.mem (HDRP p) ≠ GET s.mem (FTRP s.mem p) ∧
          GET_ALLOC s.mem (HDRP p) = 0) := by
        rintro ⟨d1, d2⟩
        simp only [HDRP, WSIZE] at d1 d2
        rw [h2] at d2
        have hb : b.2 = false := by
          cases hb2 : b.2 with
          | false => rfl
          | true => rw [hb2] at d2; exact absurd d2 (by decide)
        obtain ⟨pa', f1, f2⟩ := s4 hb
        have := f2 (fun hc => hc)
        subst this
        apply d1
        simp only [FTRP, HDRP, WSIZE, DSIZE, h1]
        rw [f1, s3, hb]
      have c5 : ¬ (GET_SIZE s.mem (HDRP p) < MIN_FREE_SIZE) := by
        simp only [HDRP, WSIZE, h1, MIN_FREE_SIZE]
        omega
      have c6 : ¬ ((NULL : Nat) ≠ NULL ∧ GET_PRED_ALLOC s.mem (HDRP p) ≠
          (GET_ALLOC s.mem (FTRP s.mem NULL) <<< 1) % 2 ^ 32) := fun hc => hc.1 rfl
      have c7 : ¬ ((NULL : Nat) ≠ NULL ∧ GET_ALLOC s.mem (HDRP p) = 0 ∧
          GET_ALLOC s.mem (HDRP NULL) = 0) := fun hc => hc.1 rfl
      have en : NEXT_BLKP s.mem p = p + b.1 := by
        simp only [NEXT_BLKP, WSIZE, h1]
      unfold checkheap_blocks
      rw [if_neg c1, if_neg c2, if_neg c3, if_neg c4, if_neg c5, if_neg c6, if_neg c7, en]
      exact hi

theorem checkheap_chain_spec (env : Env) (s : State) (i : Nat) (prev cur : Nat)
    (l : List Nat) (hc : Chain s.mem s.heap_base prev cur l)
    (hmem : ∀ x ∈ l, env.lo ≤ x ∧ x ≤ s.brk - 1 ∧
      get_free_index (GET_SIZE s.mem (HDRP x)) = (i : Int))
    (fuel : Nat) (hf : l.length < fuel) :
    checkheap_chain env s (i : Int) fuel cur prev = some true := by
  induction l generalizing prev cur fuel with
  | nil =>
    cases fuel with
    | zero => simp at hf
    | succ f =>
      have hcur : cur = NULL := hc
      simp [checkheap_chain, hcur]
  | cons x r ih =>
    cases fuel with
    | zero => simp at hf
    | succ f =>
      obtain ⟨d1, d2, d3, d4⟩ := hc
      subst d1
      obtain ⟨m1, m2, m3⟩ := hmem cur (by simp)
      have hi := ih cur _ d4 (fun y hy => hmem y (by simp [hy])) f (by simpa using hf)
      have c1 : ¬ (prev ≠ NULL ∧ prev ≠ GET_PRED s.mem s.heap_base cur) :=
        fun hc => hc.2 d3.symm
      have c2 : ¬ (cur < mem_heap_lo env ∨ cur > mem_heap_hi s) := by
        unfold mem_heap_lo mem_heap_hi
        omega
      have c3 : ¬ ((i : Int) ≠ get_free_index (GET_SIZE s.mem (HDRP cur))) :=
        fun hc => hc m3.symm
      unfold checkheap_chain
      rw [if_pos d2, if_neg c1, if_neg c2, if_neg c3]
      exact hi

theorem checkheap_lists_spec (env : Env) (s : State) (fuel n i : Nat)
    (h : ∀ j, i ≤ j → j < i + n →
      checkheap_chain env s (j : Int) fuel (free_list_get s (j : Int)) NULL = some true) :
    checkheap_lists env s fuel n (i : Int) = some true := by
  induction n generalizing i with
  | zero => rfl
  | succ k ih =>
    unfold checkheap_lists
    rw [h i (Nat.le_refl _) (by omega)]
    have e : (i : Int) + 1 = ((i + 1 : Nat) : Int) := by push_cast; rfl
    simp only []
    rw [e]
    exact ih (i + 1) (fun j h1 h2 => h j (by omega) (by omega))

/-- On a well-formed heap whose base is 8-byte aligned `mm_checkheap` runs to completion
and reports nothing. -/
theorem checkheap_ok (env : Env) (henv : env.ok) (hal : env.lo % 8 = 0) (s : State)
    (bs : List Blk) (h : HeapInv env s bs) (lineno : Int) :
    mm_checkheap env s lineno = some true := by
  have hl := length_le_tot bs (Seg_sizes _ _ _ _ _ h.1.seg)
  have hepi := h.1.epi
  have hbrk := h.1.brk
  have hle := h.1.le
  have h1 := henv.2.1
  have h2 := henv.2.2
  rw [hbrk] at hepi
  have hb := checkheap_blocks_spec env s (env.lo + 224) true bs _ h.1.seg hepi (by omega)
    (by omega) (by omega) hbrk.symm (by omega) (s.brk - s.heap_base)
    (by rw [hbrk, h.1.hb]; omega)
  have hls := checkheap_lists_spec env s (s.brk - s.heap_base) FREE_LIST_NUM 0 (by
    intro j _ hj
    obtain ⟨l, c1, c2, _, c4, c5⟩ := HeapInv_chain env henv s bs h j (by
      simp only [FREE_LIST_NUM] at hj
      omega)
    refine checkheap_chain_spec env s j NULL _ l c1 ?_ _ c2
    intro y hy
    obtain ⟨sz, f, hcl⟩ := (c4 y).1 hy
    have hbd := layout_mem_bounds _ _ _ _ _ f
    obtain ⟨_, g2, g3, _⟩ := c5 y sz f
    refine ⟨by omega, by omega, ?_⟩
    simp only [HDRP, WSIZE]
    rw [g2]
    exact hcl)
  unfold mm_checkheap
  rw [if_neg (by rw [h.1.hb]; exact fun hc => hc rfl), h.1.fl]
  have e : env.lo + DSIZE * (FREE_LIST_NUM + 1) = env.lo + 224 := by
    simp [DSIZE, FREE_LIST_NUM]
  rw [e, hb]
  exact hls

/-! ## Facts about the concrete runs -/

theorem getD_of_eq {α : Type} (o : Option α) (d x : α) (h : o = some x) : o.getD d = x := by
  rw [h]
  rfl

theorem malloc0_layout : malloc0.1 = 232 ∧ HeapInv env0 malloc0.2 [(104, true), (3992, false)] := by
  obtain ⟨m1, m2⟩ := malloc_only_fit env0 env0_ok init0.2 [] 4096 [] 100 init0_inv.1
    (by simp) (by simp) (by norm_num) (by norm_num) (by rw [adjusted_size_100_eq]; norm_num)
  rw [adjusted_size_100_eq] at m1 m2
  have e : malloc0 = _ := getD_of_eq _ _ _ m1
  rw [e]
  refine ⟨rfl, ?_⟩
  have e1 : placed [] 4096 [] 104 = [(104, true), (3992, false)] := by simp [placed]
  rw [e1] at m2
  exact m2

theorem malloc1_layout : malloc1.1 = 336 ∧
    HeapInv env0 malloc1.2 [(104, true), (104, true), (3888, false)] := by
  obtain ⟨m1, m2⟩ := malloc_only_fit env0 env0_ok malloc0.2 [(104, true)] 3992 [] 100
    malloc0_layout.2 (by simp) (by simp) (by norm_num) (by norm_num)
    (by rw [adjusted_size_100_eq]; norm_num)
  rw [adjusted_size_100_eq] at m1 m2
  have e : malloc1 = _ := getD_of_eq _ _ _ m1
  rw [e]
  refine ⟨rfl, ?_⟩
  have e1 : placed [(104, true)] 3992 [] 104 = [(104, true), (104, true), (3888, false)] := by
    simp [placed]
  rw [e1] at m2
  exact m2

theorem adjusted_size_200 : adjusted_size 200 = 208 := by
  decide

theorem reach_stored0 : Reach env0 any_size stored0 [(malloc0.1, 100)] :=
  Reach.store malloc0.2 _ malloc0.1 100 7 42 (reach_malloc0 any_size any_size_100)
    (List.mem_cons_self _ _) (by norm_num)

theorem stored0_layout : HeapInv env0 stored0 [(104, true), (3992, false)] := by
  have hl : LiveOK env0 [(104, true), (3992, false)] [(malloc0.1, 100)] := by
    rw [malloc0_layout.1]
    refine ⟨by simp, fun p n hp => ?_⟩
    simp only [List.mem_singleton, Prod.mk.injEq] at hp
    obtain ⟨rfl, rfl⟩ := hp
    exact ⟨104, by simp [layout, env0], by norm_num⟩
  exact store_inv env0 malloc0.2 _ _ malloc0_layout.2 hl malloc0.1 100 7 42
    (List.mem_cons_self _ _) (by norm_num)

theorem realloc0_spec : realloc env0 stored0 malloc0.1 200 = some realloc0 ∧
    realloc0.1 ≠ NULL := by
  obtain ⟨m1, _⟩ := malloc_only_fit env0 env0_ok stored0 [(104, true)] 3992 [] 200
    stored0_layout (by simp) (by simp) (by norm_num) (by norm_num)
    (by rw [adjusted_size_200]; norm_num)
  have hun := realloc_unfold env0 stored0 malloc0.1 200 (by norm_num) malloc0_spec.2.1 _ _ m1
  have hne : ¬ (env0.lo + 224 + tot [((104 : Nat), true)] = 0) := by
    simp [env0, tot]
  rw [if_neg hne] at hun
  have e : realloc0 = _ := getD_of_eq _ _ _ hun
  rw [e]
  exact ⟨hun, hne⟩

theorem realloc0_pair : realloc env0 stored0 malloc0.1 200 = some (realloc0.1, realloc0.2) := by
  rw [Prod.mk.eta]
  exact realloc0_spec.1

theorem init0_zero : mm_init env0 state0 = some (0, init0.2) := by
  rw [init0_eq, ← init0_inv.2]

/-- C12 (what the code does): in every reachable state, for a live block `ptr` and every
`size > 0` for which `realloc(ptr, size)` returns a non-null `q`, the number of bytes
copied from `ptr` to `q` is the minimum of `size` and the size recorded in the header of
the old block, which counts the 4-byte header and so is 4 more than the payload capacity.
When `size` is not smaller than that recorded size, the last word copied is the header of
the block that follows the old one. -/
theorem C12_realloc_copy_length (env : Env) (henv : env.ok) (s : State) (live : Live)
    (h : Reach env any_size s live) (ptr n size : Nat) (hp : (ptr, n) ∈ live)
    (hsz : any_size size) (h0 : size ≠ 0) (q : Nat) (s' : State)
    (hr : realloc env s ptr size = some (q, s')) (hq : q ≠ NULL) :
    ∃ s2, malloc env s size = some (q, s2) ∧
      GET_SIZE s2.mem (HDRP ptr) = GET_SIZE s.mem (HDRP ptr) ∧
      n + WSIZE ≤ GET_SIZE s.mem (HDRP ptr) ∧
      s' = free { s2 with mem :=
        (memcpy s2.mem q ptr (min size (GET_SIZE s.mem (HDRP ptr)))) } ptr ∧
      (∀ i, i < min size (GET_SIZE s.mem (HDRP ptr)) → s'.mem (q + i) = s2.mem (ptr + i)) ∧
      (GET_SIZE s.mem (HDRP ptr) ≤ size →
        GET s'.mem (q + (GET_SIZE s.mem (HDRP ptr) - WSIZE)) =
          GET s2.mem (HDRP (NEXT_BLKP s2.mem ptr)) ∧
        GET_PRED_ALLOC s2.mem (HDRP (NEXT_BLKP s2.mem ptr)) = 2) := by
  obtain ⟨bs, hinv, hlive⟩ := Reach_inv env henv any_size (fun _ hn => hn) s live h
  obtain ⟨s2, bsz, e, hn, f1, f2, hs', hc, _, nsz, nal, hh, hh8⟩ :=
    realloc_content env henv s bs live hinv hlive ptr n size hp hsz h0 q s' hr hq
  subst f1
  have hmin : (if size < GET_SIZE s.mem (HDRP ptr) then size else GET_SIZE s.mem (HDRP ptr))
      = min size (GET_SIZE s.mem (HDRP ptr)) := by
    split <;> omega
  rw [hmin] at hs'
  refine ⟨s2, e, f2, hn, hs', fun i hi => hc i (by omega) (by omega), fun hle => ?_⟩
  have hnext : HDRP (NEXT_BLKP s2.mem ptr) = ptr + GET_SIZE s.mem (HDRP ptr) - 4 := by
    have f2' : GET_SIZE s2.mem (ptr - WSIZE) = GET_SIZE s.mem (HDRP ptr) := f2
    simp only [HDRP, NEXT_BLKP, f2']
    rfl
  rw [hnext]
  constructor
  · have hq4 : q + (GET_SIZE s.mem (HDRP ptr) - WSIZE) =
        q + (GET_SIZE s.mem (HDRP ptr) - 4) := rfl
    have hp4 : ptr + GET_SIZE s.mem (HDRP ptr) - 4 =
        ptr + (GET_SIZE s.mem (HDRP ptr) - 4) := by omega
    rw [hq4, hp4]
    have c0 := hc (GET_SIZE s.mem (HDRP ptr) - 4) (by omega) (by omega)
    have c1 := hc (GET_SIZE s.mem (HDRP ptr) - 4 + 1) (by omega) (by omega)
    have c2 := hc (GET_SIZE s.mem (HDRP ptr) - 4 + 2) (by omega) (by omega)
    have c3 := hc (GET_SIZE s.mem (HDRP ptr) - 4 + 3) (by omega) (by omega)
    simp only [GET, Nat.add_assoc]
    simp only [Nat.add_assoc] at c1 c2 c3
    rw [c0, c1, c2, c3]
  · exact GET_PRED_ALLOC_hdr _ _ _ _ _ hh hh8

/-- The witness of C12: reallocating a 100-byte allocation, whose block has size 104, to
200 bytes copies 104 bytes. -/
theorem C12_realloc_copy_length_witness :
    ∃ s2, malloc env0 stored0 200 = some (realloc0.1, s2) ∧
      GET_SIZE s2.mem (HDRP malloc0.1) = GET_SIZE stored0.mem (HDRP malloc0.1) ∧
      100 + WSIZE ≤ GET_SIZE stored0.mem (HDRP malloc0.1) ∧
      realloc0.2 = free { s2 with mem :=
        (memcpy s2.mem realloc0.1 malloc0.1
          (min 200 (GET_SIZE stored0.mem (HDRP malloc0.1)))) } malloc0.1 ∧
      (∀ i, i < min 200 (GET_SIZE stored0.mem (HDRP malloc0.1)) →
        realloc0.2.mem (realloc0.1 + i) = s2.mem (malloc0.1 + i)) ∧
      (GET_SIZE stored0.mem (HDRP malloc0.1) ≤ 200 →
        GET realloc0.2.mem (realloc0.1 + (GET_SIZE stored0.mem (HDRP malloc0.1) - WSIZE)) =
          GET s2.mem (HDRP (NEXT_BLKP s2.mem malloc0.1)) ∧
        GET_PRED_ALLOC s2.mem (HDRP (NEXT_BLKP s2.mem malloc0.1)) = 2) :=
  C12_realloc_copy_length env0 env0_ok stored0 [(malloc0.1, 100)] reach_stored0
    malloc0.1 100 200 (List.mem_cons_self _ _) (by unfold any_size; norm_num)
    (by norm_num) realloc0.1 realloc0.2 realloc0_pair realloc0_spec.2

/-- C15 (counterexample): before initialisation, `malloc(0)` returns null but runs
`mm_init`: the heap grows from 0 to 4320 bytes and `heap_base` is set. -/
theorem C15_counterexample :
    malloc env0 state0 0 = some (NULL, init0.2) ∧ state0.heap_base = NULL ∧
      init0.2.heap_base = 8 ∧ state0.brk = 8 ∧ init0.2.brk = 4328 := by
  refine ⟨?_, rfl, ?_, rfl, ?_⟩
  · have hb : state0.heap_base = NULL := rfl
    unfold malloc
    rw [if_pos hb, init0_zero]
    rfl
  · rw [init0_inv.1.1.hb]
    rfl
  · rw [init0_inv.1.1.brk]
    simp [env0, tot]

/-- C15 (amended): in every state in which `heap_base` is not null (every state after an
initialisation), `malloc(0)` returns null and leaves the state as it is; in a state in
which `heap_base` is null, `malloc(0)` first runs `mm_init` and then returns null in the
state that `mm_init` produced. -/
theorem C15_malloc_zero (env : Env) (s : State) :
    (s.heap_base ≠ NULL → malloc env s 0 = some (NULL, s)) ∧
    (s.heap_base = NULL → malloc env s 0 = (mm_init env s).map (fun r => (NULL, r.2))) := by
  constructor
  · intro hb
    unfold malloc
    rw [if_neg hb]
    rfl
  · intro hb
    unfold malloc
    rw [if_pos hb]
    cases mm_init env s with
    | none => rfl
    | some r => rfl

/-- The witness of C15: `malloc(0)` on the freshly initialised heap. -/
theorem C15_malloc_zero_witness : malloc env0 init0.2 0 = some (NULL, init0.2) :=
  (C15_malloc_zero env0 init0.2).1 (by
    rw [init0_inv.1.1.hb]
    simp [env0, NULL])

/-! ## Reuse of freed blocks and the heap validator -/

/-- C16: in every state and for every pointer `ptr`, `realloc(ptr, 0)` returns null and
leaves the allocator in the state that `free(ptr)` produces from the same state; for the
null pointer that is the state itself. -/
theorem C16_realloc_zero_is_free (env : Env) (s : State) (ptr : Nat) :
    realloc env s ptr 0 = some (NULL, free s ptr) ∧ free s NULL = s := by
  constructor
  · unfold realloc
    rw [if_pos rfl]
    rfl
  · have h00 : NULL = 0 := rfl
    unfold free
    rw [if_pos h00]

theorem checkheap_chain_inv (env : Env) (s : State) (i : Int) (fuel : Nat) :
    ∀ cur prev, checkheap_chain env s i fuel cur prev = some true →
      chain_ends s.mem s.heap_base fuel cur = true ∧
      (∀ m ∈ chain_walk s.mem s.heap_base fuel cur,
        mem_heap_lo env ≤ m ∧ m ≤ mem_heap_hi s ∧
          get_free_index (GET_SIZE s.mem (HDRP m)) = i) ∧
      List.Chain' (fun a b => GET_PRED s.mem s.heap_base b = a)
        (chain_walk s.mem s.heap_base fuel cur) ∧
      (prev ≠ NULL → ∀ x ∈ (chain_walk s.mem s.heap_base fuel cur).head?,
        GET_PRED s.mem s.heap_base x = prev) := by
  induction fuel with
  | zero =>
    intro cur prev h
    simp [checkheap_chain] at h
  | succ f ih =>
    intro cur prev h
    unfold checkheap_chain at h
    by_cases hc : cur = NULL
    · simp [chain_walk, chain_ends, hc]
    · rw [if_pos hc] at h
      by_cases c1 : prev ≠ NULL ∧ prev ≠ GET_PRED s.mem s.heap_base cur
      · rw [if_pos c1] at h
        exact absurd h (by simp)
      rw [if_neg c1] at h
      by_cases c2 : cur < mem_heap_lo env ∨ cur > mem_heap_hi s
      · rw [if_pos c2] at h
        exact absurd h (by simp)
      rw [if_neg c2] at h
      by_cases c3 : i ≠ get_free_index (GET_SIZE s.mem (HDRP cur))
      · rw [if_pos c3] at h
        exact absurd h (by simp)
      rw [if_neg c3] at h
      obtain ⟨i1, i2, i3, i4⟩ := ih _ _ h
      have e1 : chain_walk s.mem s.heap_base (f + 1) cur =
          cur :: chain_walk s.mem s.heap_base f (GET_SUCC s.mem s.heap_base cur) := by
        simp [chain_walk, hc]
      have e2 : chain_ends s.mem s.heap_base (f + 1) cur =
          chain_ends s.mem s.heap_base f (GET_SUCC s.mem s.heap_base cur) := by
        simp [chain_ends, hc]
      rw [e1, e2]
      refine ⟨i1, ?_, ?_, ?_⟩
      · intro m hm
        rcases List.mem_cons.1 hm with rfl | hm
        · refine ⟨by omega, by omega, ?_⟩
          exact (not_not.1 c3).symm
        · exact i2 m hm
      · exact List.chain'_cons'.2 ⟨i4 hc, i3⟩
      · intro hp x hx
        simp only [List.head?_cons, Option.mem_def, Option.some.injEq] at hx
        subst hx
        by_contra hne
        exact c1 ⟨hp, fun e => hne e.symm⟩

theorem checkheap_lists_inv (env : Env) (s : State) (fuel n : Nat) :
    ∀ i : Int, checkheap_lists env s fuel n i = some true →
      ∀ j : Nat, j < n →
        checkheap_chain env s (i + j) fuel (free_list_get s (i + j)) NULL = some true := by
  induction n with
  | zero =>
    intro i _ j hj
    omega
  | succ k ih =>
    intro i h j hj
    unfold checkheap_lists at h
    cases hc : checkheap_chain env s i fuel (free_list_get s i) NULL with
    | none =>
      rw [hc] at h
      exact absurd h (by simp)
    | some b =>
      cases b with
      | false =>
        rw [hc] at h
        exact absurd h (by simp)
      | true =>
        rw [hc] at h
        cases j with
        | zero => simpa using hc
        | succ j' =>
          have := ih (i + 1) h j' (by omega)
          have e : i + 1 + (j' : Int) = i + ((j' + 1 : Nat) : Int) := by
            push_cast
            omega
          rw [e] at this
          exact this

theorem adj_blocks : blocks adj_state = [232, 248] := by
  decide

/-- C21 (what the code does): the heap `adj_state` consists of two physically adjacent
blocks that are both free and both members of the chain of their class, every other
property checked by the validator holding; the heap walk visits exactly these two blocks,
and `mm_checkheap` runs to completion without a report. -/
theorem C21_adjacent_free_not_reported :
    blocks adj_state = [232, 248] ∧ NEXT_BLKP adj_state.mem 232 = 248 ∧
      GET_ALLOC adj_state.mem (HDRP 232) = 0 ∧ GET_ALLOC adj_state.mem (HDRP 248) = 0 ∧
      ¬ no_adjacent_free adj_state ∧ chain adj_state 0 = [232, 248] ∧
      mm_checkheap env0 adj_state 0 = some true := by
  refine ⟨by decide, by decide, by decide, by decide, ?_, by decide, by decide⟩
  intro h
  unfold no_adjacent_free at h
  rw [adj_blocks] at h
  exact (List.chain'_cons.1 h).1 ⟨by decide, by decide⟩

/-- C22 (what the code does): the heap `predbit_state` consists of two allocated blocks;
the header of the second has its predecessor-allocated bit clear although the first block,
which physically precedes it, is allocated; every other property checked by the validator
holds, and `mm_checkheap` runs to completion without a report. -/
theorem C22_pred_bit_not_checked :
    blocks predbit_state = [232, 248] ∧ NEXT_BLKP predbit_state.mem 232 = 248 ∧
      GET_ALLOC predbit_state.mem (HDRP 232) = 1 ∧
      GET_PRED_ALLOC predbit_state.mem (HDRP 248) = 0 ∧
      mm_checkheap env0 predbit_state 0 = some true := by
  refine ⟨by decide, by decide, by decide, by decide, by decide⟩

/-- C23: in every state, if `mm_checkheap` runs to completion without a report, then for
every chain index `i` the successor links from the head of chain `i` reach null, every
member `m` of chain `i` lies within the heap boundaries and has a size whose class is `i`,
and for every consecutive pair `a`, `b` along the successor links the predecessor link of
`b` designates `a`. -/
theorem C23_checkheap_chains (env : Env) (s : State) (lineno : Int)
    (h : mm_checkheap env s lineno = some true) (i : Nat) (hi : i < FREE_LIST_NUM) :
    chain_ends s.mem s.heap_base (s.brk - s.heap_base) (free_list_get s (i : Int)) = true ∧
      (∀ m ∈ chain s i, mem_heap_lo env ≤ m ∧ m ≤ mem_heap_hi s ∧
        get_free_index (GET_SIZE s.mem (HDRP m)) = (i : Int)) ∧
      List.Chain' (fun a b => GET_PRED s.mem s.heap_base b = a) (chain s i) := by
  unfold mm_checkheap at h
  by_cases c0 : s.heap_base ≠ mem_heap_lo env
  · rw [if_pos c0] at h
    exact absurd h (by simp)
  rw [if_neg c0] at h
  cases hb : checkheap_blocks env s (s.brk - s.heap_base)
      (s.free_lists + DSIZE * (FREE_LIST_NUM + 1)) NULL with
  | none =>
    rw [hb] at h
    exact absurd h (by simp)
  | some b =>
    cases b with
    | false =>
      rw [hb] at h
      exact absurd h (by simp)
    | true =>
      rw [hb] at h
      have := checkheap_lists_inv env s _ _ 0 h i hi
      simp only [Int.zero_add] at this
      obtain ⟨i1, i2, i3, _⟩ := checkheap_chain_inv env s _ _ _ _ this
      exact ⟨i1, i2, i3⟩

/-- The witness of C23: the state after two calls `malloc(100)` on the freshly initialised
heap, and chain 18, which holds the free block of 3888 bytes. -/
theorem C23_checkheap_chains_witness :
    chain_ends malloc1.2.mem malloc1.2.heap_base (malloc1.2.brk - malloc1.2.heap_base)
        (free_list_get malloc1.2 ((18 : Nat) : Int)) = true ∧
      (∀ m ∈ chain malloc1.2 18, mem_heap_lo env0 ≤ m ∧ m ≤ mem_heap_hi malloc1.2 ∧
        get_free_index (GET_SIZE malloc1.2.mem (HDRP m)) = ((18 : Nat) : Int)) ∧
      List.Chain' (fun a b => GET_PRED malloc1.2.mem malloc1.2.heap_base b = a)
        (chain malloc1.2 18) :=
  C23_checkheap_chains env0 malloc1.2 0
    (checkheap_ok env0 env0_ok rfl malloc1.2 _ malloc1_layout.2 0) 18 (by decide)

/-! ## Size classes and the adjusted size -/

theorem bits_half (size : Nat) (h : 0 < size) :
    (if size = 0 then 0 else Nat.log2 size + 1) =
      (if size / 2 = 0 then 0 else Nat.log2 (size / 2) + 1) + 1 := by
  rw [if_neg (by omega)]
  by_cases h2 : size / 2 = 0
  · rw [if_pos h2]
    have h1 : size = 1 := by omega
    subst h1
    rw [Nat.log2_eq_log_two]
    simp
  · rw [if_neg h2]
    rw [Nat.log2_eq_log_two, Nat.log2_eq_log_two,
      Nat.log_of_one_lt_of_le (by norm_num) (by omega : 2 ≤ size)]

theorem get_free_index_loop_eq (fuel : Nat) :
    ∀ (size : Nat) (idx : Nat), 6 ≤ idx → idx ≤ 25 → 26 ≤ idx + fuel →
      get_free_index_loop fuel size (idx : Int) =
        ((min 26 (idx + (if size = 0 then 0 else Nat.log2 size + 1)) : Nat) : Int) := by
  induction fuel with
  | zero =>
    intro size idx h1 h2 h3
    omega
  | succ f ih =>
    intro size idx h1 h2 h3
    unfold get_free_index_loop
    simp only [FREE_LIST_NUM]
    by_cases hs : size > 0
    · rw [if_pos hs]
      have hb := bits_half size hs
      by_cases h26 : (idx : Int) + 1 ≥ ((27 : Nat) : Int) - 1
      · rw [if_pos h26]
        have : idx = 25 := by omega
        subst this
        rw [hb]
        have : min 26 (25 + ((if size / 2 = 0 then 0 else Nat.log2 (size / 2) + 1) + 1)) = 26 := by
          omega
        rw [this]
        rfl
      · rw [if_neg h26]
        have e : (idx : Int) + 1 = ((idx + 1 : Nat) : Int) := by push_cast; rfl
        rw [e, Nat.shiftRight_eq_div_pow, pow_one, ih (size / 2) (idx + 1) (by omega)
          (by omega) (by omega), hb]
        congr 2
        omega
    · rw [if_neg hs]
      have : size = 0 := by omega
      rw [if_pos this]
      congr 1
      omega

theorem get_free_index_log (s : Nat) (h : 128 ≤ s) :
    get_free_index s = ((min 26 (7 + Nat.log2 s) : Nat) : Int) := by
  unfold get_free_index
  rw [if_neg (by omega)]
  have := get_free_index_loop_eq 64 s 6 (by norm_num) (by norm_num) (by norm_num)
  rw [if_neg (by omega)] at this
  have e : ((6 : Nat) : Int) = 6 := rfl
  rw [e] at this
  rw [this]
  congr 2
  omega

/-- C24: for every size of at least 16 the class index computed by `get_free_index` is
between 0 and 26, so it is a valid index of the table of `FREE_LIST_NUM` = 27 chain heads,
and the address of the table entry it designates lies inside the table. -/
theorem C24_index_in_bounds (s : State) (size : Nat) (h : 16 ≤ size) :
    0 ≤ get_free_index size ∧ get_free_index size ≤ 26 ∧
      get_free_index size < (FREE_LIST_NUM : Int) ∧
      s.free_lists ≤ free_list_addr s (get_free_index size) ∧
      free_list_addr s (get_free_index size) + 8 ≤ s.free_lists + 8 * FREE_LIST_NUM := by
  obtain ⟨k, hk, e⟩ := get_free_index_nat size h
  rw [e, free_list_addr_nat]
  simp only [FREE_LIST_NUM]
  omega

/-- The witness of C24: the size 4096 and the state before initialisation. -/
theorem C24_index_in_bounds_witness :
    0 ≤ get_free_index 4096 ∧ get_free_index 4096 ≤ 26 ∧
      get_free_index 4096 < (FREE_LIST_NUM : Int) ∧
      state0.free_lists ≤ free_list_addr state0 (get_free_index 4096) ∧
      free_list_addr state0 (get_free_index 4096) + 8 ≤
        state0.free_lists + 8 * FREE_LIST_NUM :=
  C24_index_in_bounds state0 4096 (by norm_num)

/-- C25: for every size `s` from 16 to 127 the class index is `(s - 16) / 8`; every class
from 0 to 13 is the class of the block size `16 + 8 c`; a block size (a multiple of 8 that
is at least 16, of whatever magnitude) has the same class as a block size `s` in the range
only if it is `s`, so each of the classes 0..13 holds one block size and the map is
injective on the multiples of 8 from 16 to 120; and sizes 8 apart have adjacent classes. -/
theorem C25_small_classes (s : Nat) (h1 : 16 ≤ s) (h2 : s ≤ 127) :
    get_free_index s = (((s - 16) / 8 : Nat) : Int) ∧
      (∀ c : Nat, c ≤ 13 → get_free_index (16 + 8 * c) = (c : Int)) ∧
      (∀ t, 16 ≤ t → t % 8 = 0 → s % 8 = 0 →
        (get_free_index t = get_free_index s ↔ t = s)) ∧
      (s ≤ 119 → get_free_index (s + 8) = get_free_index s + 1) := by
  have e := get_free_index_small s h1 h2
  refine ⟨e, ?_, ?_, ?_⟩
  · intro c hc
    rw [get_free_index_small _ (by omega) (by omega)]
    congr 1
    omega
  · intro t ht ht8 hs8
    constructor
    · intro hts
      by_cases hbig : t ≤ 127
      · rw [e, get_free_index_small t ht hbig] at hts
        have : (t - 16) / 8 = (s - 16) / 8 := by exact_mod_cast hts
        omega
      · have := get_free_index_large t (by omega)
        rw [hts, e] at this
        have : (14 : Nat) ≤ (s - 16) / 8 := by exact_mod_cast this
        omega
    · intro hts
      rw [hts]
  · intro h119
    rw [e, get_free_index_small _ (by omega) (by omega)]
    have : (s + 8 - 16) / 8 = (s - 16) / 8 + 1 := by omega
    rw [this]
    push_cast
    rfl

/-- The witness of C25: the size 24. -/
theorem C25_small_classes_witness :
    get_free_index 24 = (((24 - 16) / 8 : Nat) : Int) ∧
      (∀ c : Nat, c ≤ 13 → get_free_index (16 + 8 * c) = (c : Int)) ∧
      (∀ t, 16 ≤ t → t % 8 = 0 → 24 % 8 = 0 →
        (get_free_index t = get_free_index 24 ↔ t = 24)) ∧
      (24 ≤ 119 → get_free_index (24 + 8) = get_free_index 24 + 1) :=
  C25_small_classes 24 (by norm_num) (by norm_num)

/-- C26: for every size `s` of at least 128 the class index is the smaller of 26 and
`7 + floor(log2 s)`; hence for every `k` from 7 to 18 the class `7 + k` is the class of
exactly the sizes in `[2^k, 2^(k+1))`, and every size of at least `2^19` has the last
class, 26. -/
theorem C26_large_classes (s : Nat) (h : 128 ≤ s) :
    get_free_index s = ((min 26 (7 + Nat.log2 s) : Nat) : Int) ∧
      (∀ k : Nat, 7 ≤ k → k ≤ 18 →
        (get_free_index s = ((7 + k : Nat) : Int) ↔ 2 ^ k ≤ s ∧ s < 2 ^ (k + 1))) ∧
      (2 ^ 19 ≤ s → get_free_index s = 26) := by
  have e := get_free_index_log s h
  have hs0 : s ≠ 0 := by omega
  refine ⟨e, ?_, ?_⟩
  · intro k hk7 hk18
    rw [e, ← Nat.le_log2 hs0, ← Nat.log2_lt hs0]
    constructor
    · intro hc
      have : min 26 (7 + Nat.log2 s) = 7 + k := by exact_mod_cast hc
      omega
    · intro hc
      congr 1
      omega
  · intro h19
    have := (Nat.le_log2 hs0).2 h19
    rw [e]
    have : min 26 (7 + Nat.log2 s) = 26 := by omega
    rw [this]
    rfl

/-- The witness of C26: the size 4096. -/
theorem C26_large_classes_witness :
    get_free_index 4096 = ((min 26 (7 + Nat.log2 4096) : Nat) : Int) ∧
      (∀ k : Nat, 7 ≤ k → k ≤ 18 →
        (get_free_index 4096 = ((7 + k : Nat) : Int) ↔ 2 ^ k ≤ 4096 ∧ 4096 < 2 ^ (k + 1))) ∧
      (2 ^ 19 ≤ 4096 → get_free_index 4096 = 26) :=
  C26_large_classes 4096 (by norm_num)

theorem ceil_div_eight (a : Nat) : ⌈((a : ℚ)) / 8⌉₊ = (a + 7) / 8 := by
  apply le_antisymm
  · apply Nat.ceil_le.2
    have h : a ≤ 8 * ((a + 7) / 8) := by omega
    have h' : (a : ℚ) ≤ 8 * (((a + 7) / 8 : Nat) : ℚ) := by exact_mod_cast h
    linarith
  · have hc := Nat.le_ceil ((a : ℚ) / 8)
    have h' : (a : ℚ) ≤ 8 * ((⌈((a : ℚ)) / 8⌉₊ : Nat) : ℚ) := by linarith
    have h : a ≤ 8 * ⌈((a : ℚ)) / 8⌉₊ := by exact_mod_cast h'
    omega

/-- C27: for every request size `n ≥ 1` for which `n + 11` does not overflow `size_t`, the
adjusted block size computed by `malloc` is the larger of 16 and 8 times the ceiling of
`(n + 4) / 8`; it is a multiple of 8, at least 16 and at least `n + 4`. -/
theorem C27_adjusted_size (n : Nat) (h1 : 1 ≤ n) (h2 : n + 11 < 2 ^ 64) :
    adjusted_size n = max 16 (8 * ⌈((n : ℚ) + 4) / 8⌉₊) ∧ adjusted_size n % 8 = 0 ∧
      16 ≤ adjusted_size n ∧ n + 4 ≤ adjusted_size n := by
  obtain ⟨a1, a2, a3, _⟩ := adjusted_size_props n h1 h2
  refine ⟨?_, a2, a1, a3⟩
  have e : ((n : ℚ) + 4) / 8 = (((n + 4 : Nat) : ℚ)) / 8 := by push_cast; rfl
  rw [e, ceil_div_eight]
  unfold adjusted_size
  simp only [MIN_FREE_SIZE, WSIZE, DSIZE]
  split
  · omega
  · have e2 : (n + 4 + (8 - 1)) % 2 ^ 64 = n + 11 := by omega
    rw [e2]
    omega

/-- The witness of C27: the request size 100. -/
theorem C27_adjusted_size_witness :
    adjusted_size 100 = max 16 (8 * ⌈(((100 : Nat) : ℚ) + 4) / 8⌉₊) ∧
      adjusted_size 100 % 8 = 0 ∧ 16 ≤ adjusted_size 100 ∧ 100 + 4 ≤ adjusted_size 100 :=
  C27_adjusted_size 100 (by norm_num) (by norm_num)

/-! ## Growth of the heap inside `malloc` -/

/-- C37: `get_free_index` is monotone on sizes of at least 16 bytes, and a size of at most
127 bytes has a class of at most 13 while a size of at least 128 bytes has a class of at
least 14, so the order is kept across the boundary of the two kinds of classes. -/
theorem C37_index_monotone (s t : Nat) (h1 : 16 ≤ s) (h2 : s ≤ t) :
    get_free_index s ≤ get_free_index t ∧
      (s ≤ 127 → 128 ≤ t → get_free_index s ≤ 13 ∧ 14 ≤ get_free_index t) := by
  refine ⟨get_free_index_mono s t h1 h2, fun hs ht => ⟨?_, get_free_index_large t ht⟩⟩
  rw [get_free_index_small s h1 hs]
  have : (s - 16) / 8 ≤ 13 := by omega
  exact_mod_cast this

/-- The witness of C37: the sizes 120 and 128 on the two sides of the boundary. -/
theorem C37_index_monotone_witness :
    get_free_index 120 ≤ get_free_index 128 ∧
      (120 ≤ 127 → 128 ≤ 128 → get_free_index 120 ≤ 13 ∧ 14 ≤ get_free_index 128) :=
  C37_index_monotone 120 128 (by norm_num) (by norm_num)

/-! ## The size of the block handed out -/

end MM
